import Mathlib

/-!
# Verification of the Archivist Magika book-processing pipeline

A shallow embedding, in Lean 4, of the core of the `archivist magika`
PDF-to-dataset pipeline: the JSONL dataset store (`am_common.py`:
`DatasetIO.save` / `DatasetIO.load` / `DatasetIO.validate_structure`,
`manifest_sha256`), the robust structural extraction chain
(`am_structural_robust.py`: `RetryConfig`, `BlankPageDetector`,
`TextExtractorChain`, `RobustStructuralProcessor._process_page`), the
cross-page audits (`am_extended.py`: `TextAnalyzer`, `DuplicateDetector`,
`ContinuityAuditor`) and the stage orchestrator (`run_mvp.py`:
`PipelineOrchestrator.run_single`).

Conventions of the embedding:
* Python `str` values are embedded as `List Char` (with `String` at the
  boundaries); Python text functions (`strip`, `split`, `lower`, ...) are
  re-implemented for the ASCII/Latin/Cyrillic character ranges the
  pipeline manipulates.
* Machine-level hashing used by the sources (`hashlib.sha256`,
  `hashlib.md5`) is implemented bit-faithfully over `Nat` with explicit
  reduction modulo `2 ^ 32`.
* Floating-point configuration constants of `RetryConfig`
  (`1.0`, `2.0`, `10.0`) and similarity values are embedded as rationals:
  every arithmetic operation performed on them by the sources is exact in
  binary floating point at these magnitudes.
* I/O (reading and writing dataset files) is embedded by making the file
  contents an explicit `List Char` value; wall-clock timestamps are an
  explicit parameter (`now`); `time.sleep` is recorded as an event in an
  execution trace instead of actually sleeping.
-/

set_option maxHeartbeats 1000000
set_option maxRecDepth 100000

namespace AM

/-! ## Python string primitives

`List Char` versions of the Python `str` operations used by the sources.
`pyIsSpace` covers the ASCII whitespace class (the texts manipulated in
the theorems below contain no non-ASCII whitespace). -/

/-- Python `str.isspace` / the regex class `\s`, restricted to ASCII. -/
def pyIsSpace (c : Char) : Bool :=
  c = ' ' ∨ c = '\t' ∨ c = '\n' ∨ c = '\x0d' ∨ c = '\x0b' ∨ c = '\x0c'

/-- Python `str.strip()` (left part). -/
def pyLStrip (s : List Char) : List Char := s.dropWhile pyIsSpace

/-- Python `str.rstrip()`. -/
def pyRStrip (s : List Char) : List Char :=
  (s.reverse.dropWhile pyIsSpace).reverse

/-- Python `str.strip()`. -/
def pyStrip (s : List Char) : List Char := pyRStrip (pyLStrip s)

/-- Fuel-driven scanner for Python `str.split()` with no separator:
split on whitespace runs, discarding empty pieces.  Every step consumes
at least one character, so fuel `length + 1` is never exhausted (fuel
keeps the recursion structural and hence kernel-reducible). -/
def pySplitWsGo : Nat → List Char → List (List Char)
  | 0, _ => []
  | _ + 1, [] => []
  | fuel + 1, c :: rest =>
    if pyIsSpace c then pySplitWsGo fuel rest
    else
      let word := c :: rest.takeWhile (fun d => !(pyIsSpace d))
      word :: pySplitWsGo fuel (rest.dropWhile (fun d => !(pyIsSpace d)))

/-- Python `str.split()` with no separator. -/
def pySplitWs (s : List Char) : List (List Char) :=
  pySplitWsGo (s.length + 1) s

/-- Split on a single character (used for Python `str.split('\n')`;
`str.splitlines()` coincides with it on texts whose only line terminator
is `'\n'`, which is the case for every dataset file written by `save`). -/
def splitOnChar (sep : Char) : List Char → List (List Char)
  | [] => [[]]
  | c :: rest =>
    if c = sep then [] :: splitOnChar sep rest
    else
      match splitOnChar sep rest with
      | [] => [[c]]
      | piece :: pieces => (c :: piece) :: pieces

/-- Python `str.lower()` for the ASCII and Cyrillic alphabets (the only
cased characters appearing in the pipeline's inputs considered here). -/
def pyLowerChar (c : Char) : Char :=
  if 'A' ≤ c ∧ c ≤ 'Z' then Char.ofNat (c.toNat + 32)
  else if 'А' ≤ c ∧ c ≤ 'Я' then Char.ofNat (c.toNat + 32)
  else if c = 'Ё' then 'ё'
  else c

/-- Python `str.lower()`, character-wise. -/
def pyLower (s : List Char) : List Char := s.map pyLowerChar

/-- Check whether `pat` occurs as a contiguous substring. -/
def containsSub (pat : List Char) : List Char → Bool
  | [] => decide (pat = [])
  | c :: rest => pat.isPrefixOf (c :: rest) || containsSub pat rest

/-- Python `s.split(sep, 1)`: the part strictly after the first occurrence
of `sep`, together with the part before it.  Returns `none` when `sep`
does not occur. -/
def splitOnceAfter (sep : List Char) : List Char → Option (List Char × List Char)
  | [] => if sep = [] then some ([], []) else none
  | c :: rest =>
    if sep.isPrefixOf (c :: rest) then some ([], (c :: rest).drop sep.length)
    else
      match splitOnceAfter sep rest with
      | some (pre, post) => some (c :: pre, post)
      | none => none

/-- ASCII digit test. -/
def isDigitChar (c : Char) : Bool := '0' ≤ c ∧ c ≤ '9'

/-- Decimal print of a `Nat` as chars (used for error messages and ids). -/
def natToChars (n : Nat) : List Char := (toString n).data

/-- `f"{n:05d}"`: zero-pad a natural number to width 5. -/
def zfill5 (n : Nat) : List Char :=
  let s := natToChars n
  List.replicate (5 - s.length) '0' ++ s

/-! ## `run_mvp.py` — pipeline orchestrator (`PipelineOrchestrator`)

The orchestrator is embedded over an abstract type `ι` of stage
inputs/outputs (file paths in the source).  The effectful calls
`self._run_stage(stage, input)` (which may raise) and
`self._validate_output(stage, out)` (whose failures are caught and only
logged) are parameters of the model. -/

/-- `PipelineStage.ALL`. -/
def stageALL : List String :=
  ["structural", "structure_detect", "summarize", "extended", "finalize",
   "chunk", "embed"]

/-- `PipelineOrchestrator._is_critical_stage`. -/
def isCriticalStage (stage : String) : Bool :=
  stage = "structural" ∨ stage = "finalize"

/-- `PipelineOrchestrator._get_stage_sequence`: the slice
`ALL[start_idx : end_idx + 1]`, or `none` when a stage name is unknown or
`start` comes after `end` (the source raises `ValueError`). -/
def getStageSequence (start stop : String) : Option (List String) :=
  match stageALL.indexOf? start, stageALL.indexOf? stop with
  | some i, some j =>
    if i > j then none
    else some ((stageALL.drop i).take (j + 1 - i))
  | _, _ => none

/-- Status entry of `results['stages'][stage]`. -/
inductive StageStatus (ι : Type) where
  | success (output : ι)
  | failed (error : String)
deriving DecidableEq, Repr

/-- The mutable parts of `results` accumulated by `run_single`'s stage
loop: per-stage status (in execution order), recorded errors, recorded
validation warnings. -/
structure RunResults (ι : Type) where
  stages : List (String × StageStatus ι)
  errors : List (String × String)
  warnings : List (String × Nat)
deriving DecidableEq, Repr

/-- The validation block of `run_single`: when validation is enabled and
the stage is not `embed`, a validation outcome `some (valid, error_count)`
with `valid = false` appends a warning; an exception inside validation
(`validateQ _ _ = none`) is swallowed. -/
def recordValidation {ι : Type} (validateStages : Bool)
    (validateQ : String → ι → Option (Bool × Nat))
    (stage : String) (out : ι) (res : RunResults ι) : RunResults ι :=
  if validateStages ∧ stage ≠ "embed" then
    match validateQ stage out with
    | some (valid, errorCount) =>
      if valid then res
      else { res with warnings := res.warnings ++ [(stage, errorCount)] }
    | none => res
  else res

/-- The `for stage in stages:` loop of `PipelineOrchestrator.run_single`.
Returns the accumulated results together with the final
`current_input`. -/
def runSingleLoop {ι : Type} (runStage : String → ι → Except String ι)
    (validateQ : String → ι → Option (Bool × Nat)) (validateStages : Bool) :
    List String → ι → RunResults ι → RunResults ι × ι
  | [], currentInput, res => (res, currentInput)
  | stage :: rest, currentInput, res =>
    match runStage stage currentInput with
    | .ok stageResult =>
      let res := recordValidation validateStages validateQ stage stageResult res
      let res := { res with
        stages := res.stages ++ [(stage, .success stageResult)] }
      runSingleLoop runStage validateQ validateStages rest stageResult res
    | .error e =>
      let res := { res with
        stages := res.stages ++ [(stage, .failed e)],
        errors := res.errors ++ [(stage, e)] }
      if isCriticalStage stage then (res, currentInput)
      else runSingleLoop runStage validateQ validateStages rest currentInput res

/-- Final `results['status']` computed by `run_single`. -/
def runStatus {ι : Type} (res : RunResults ι) (stages : List String) : String :=
  if res.errors = [] then "completed"
  else if res.errors.length < stages.length then "partial"
  else "failed"

/-- `PipelineOrchestrator.run_single` (non-dry-run path): compute the
stage sequence, run the loop from the given input, attach the final
status.  `none` when the stage sequence is invalid. -/
def runSingle {ι : Type} (runStage : String → ι → Except String ι)
    (validateQ : String → ι → Option (Bool × Nat)) (validateStages : Bool)
    (inputPath : ι) (startStage endStage : String) :
    Option (RunResults ι × ι × String) :=
  match getStageSequence startStage endStage with
  | none => none
  | some stages =>
    let (res, cur) := runSingleLoop runStage validateQ validateStages stages
      inputPath ⟨[], [], []⟩
    some (res, cur, runStatus res stages)

/-- Whether the `run_single` stage loop, started on `stages` with
`current_input = cur`, hits the `break` (a failure of a critical stage)
before exhausting the list. -/
def loopHalts {ι : Type} (runStage : String → ι → Except String ι) :
    List String → ι → Bool
  | [], _ => false
  | stage :: rest, cur =>
    match runStage stage cur with
    | .ok out => loopHalts runStage rest out
    | .error _ =>
      if isCriticalStage stage then true else loopHalts runStage rest cur

/-! ## JSON values

Embedding of the JSON values manipulated through Python dicts/lists and
(de)serialized by `json.dumps` / `json.loads` in `am_common.DatasetIO`.
Numbers are restricted to integers: the dataset fields handled by the
claims below (`segment_id`, `page_num`, `card_count`, flags, strings)
carry no floats. -/

mutual
/-- A JSON value.  `num` carries the Python ints; `rat` carries the one
float field a structural card can hold (`ocr_confidence`, a rounded
multiple of 1/1000) — the dataset-store claims quantify over the values
accepted by the serializer `jsonDumps` (which reflects Python float
`repr` formatting by declining `rat`). -/
inductive Json where
  | null
  | bool (b : Bool)
  | num (n : Int)
  | rat (q : ℚ)
  | str (s : List Char)
  | arr (xs : JsonList)
  | obj (fs : JsonObj)
  deriving DecidableEq, Repr

/-- A JSON array (spelled out so that mutual structural recursion and the
derived decidable equality are available). -/
inductive JsonList where
  | nil
  | cons (hd : Json) (tl : JsonList)
  deriving DecidableEq, Repr

/-- A JSON object: an insertion-ordered association list, mirroring a
Python `dict` (keys unique in every object built by the pipeline). -/
inductive JsonObj where
  | nil
  | cons (k : List Char) (v : Json) (tl : JsonObj)
  deriving DecidableEq, Repr
end

/-- Python `d.get(k)` (`None` when absent): first binding of `k`. -/
def JsonObj.get (k : List Char) : JsonObj → Option Json
  | .nil => none
  | .cons k' v tl => if k' = k then some v else JsonObj.get k tl

/-- Python `d[k] = v`: replace in place when the key exists (keeping its
position), otherwise append at the end. -/
def JsonObj.set (k : List Char) (v : Json) : JsonObj → JsonObj
  | .nil => .cons k v .nil
  | .cons k' v' tl =>
    if k' = k then .cons k' v tl else .cons k' v' (JsonObj.set k v tl)

/-- Python `d[k] = d.get(k, default)` (the pattern `save` uses to fill
`version` / `product` / `created_at`). -/
def JsonObj.setDefault (k : List Char) (dflt : Json) (o : JsonObj) : JsonObj :=
  o.set k ((o.get k).getD dflt)

/-- Python `d.update(other)`: set each binding of `other` in order. -/
def JsonObj.update (o : JsonObj) : JsonObj → JsonObj
  | .nil => o
  | .cons k v tl => (o.set k v).update tl

/-- Membership of a key (`k in d`). -/
def JsonObj.hasKey (k : List Char) (o : JsonObj) : Bool := (o.get k).isSome

/-- Build an object from a list of bindings (in order). -/
def JsonObj.ofList : List (List Char × Json) → JsonObj
  | [] => .nil
  | (k, v) :: tl => .cons k v (JsonObj.ofList tl)

/-- The keys of an object, in order. -/
def JsonObj.keys : JsonObj → List (List Char)
  | .nil => []
  | .cons k _ tl => k :: JsonObj.keys tl

/-- Append a `Json` to a `JsonList` (Python `list.append`). -/
def JsonList.ofList : List Json → JsonList
  | [] => .nil
  | j :: tl => .cons j (JsonList.ofList tl)

/-! ## `am_common.TextNormalizer`

`normalize` (with `aggressive=False`, as called by the extraction chain)
and `remove_common_watermarks`.  `unicodedata.normalize('NFKC', ·)` is an
external library call; it is embedded as the identity, which it is on the
ASCII texts these theorems evaluate (the ligature/quote characters that
NFKC would rewrite are separately listed in the `replacements` table
below, exactly as in the source). -/

/-- `unicodedata.normalize('NFKC', text)`, modelled as the identity (the
identity on ASCII input; see section comment). -/
def nfkc (s : List Char) : List Char := s

/-- Fuel-driven scanner for Python `str.replace(pat, rep)` with a
non-empty `pat`: leftmost, non-overlapping, repeated.  Each step consumes
at least one character, so fuel `length + 1` is never exhausted. -/
def replaceSubGo (pat rep : List Char) : Nat → List Char → List Char
  | 0, s => s
  | _ + 1, [] => []
  | fuel + 1, c :: rest =>
    if pat.isPrefixOf (c :: rest) ∧ pat ≠ [] then
      rep ++ replaceSubGo pat rep fuel ((c :: rest).drop pat.length)
    else c :: replaceSubGo pat rep fuel rest

/-- Python `str.replace(pat, rep)` for a non-empty `pat`. -/
def replaceSub (pat rep : List Char) (s : List Char) : List Char :=
  replaceSubGo pat rep (s.length + 1) s

/-- The `replacements` table of `TextNormalizer.__init__`, in dict
insertion order.  Note two quirks of the source text itself: the
curly-double-quote entries degraded to the identity mapping `'"' → '"'`,
and the two single-quote lines parse (as Python) into one entry whose key
is the 19-character string `: "'",\n            ` mapping to `'`. -/
def replacementTable : List (List Char × List Char) :=
  [(['\x00'], []), (['﻿'], []), (['­'], []), (['​'], []),
   (['‌'], []), (['‍'], []),
   (['ﬁ'], "fi".data), (['ﬂ'], "fl".data), (['ﬀ'], "ff".data),
   (['ﬃ'], "ffi".data), (['ﬄ'], "ffl".data), (['ﬅ'], "ft".data),
   (['ﬆ'], "st".data),
   (['\x22'], ['\x22']),
   ((": \x22\x27\x22,\n            ".data), ['\x27']),
   (['«'], ['\x22']), (['»'], ['\x22']), (['‹'], ['\x27']), (['›'], ['\x27']),
   (['–'], "--".data), (['—'], "---".data), (['−'], ['-']), (['‐'], ['-']),
   (['‑'], ['-']),
   (['…'], "...".data), (['№'], "No.".data)]

/-- The `for old, new in self.replacements.items(): text = text.replace(...)`
loop of `normalize`. -/
def applyReplacements (s : List Char) : List Char :=
  replacementTable.foldl (fun acc pr => replaceSub pr.1 pr.2 acc) s

/-- The regex class `\w` for the Latin/Cyrillic alphabets the pipeline
processes. -/
def isWordChar (c : Char) : Bool :=
  ('a' ≤ c ∧ c ≤ 'z') ∨ ('A' ≤ c ∧ c ≤ 'Z') ∨ ('0' ≤ c ∧ c ≤ '9') ∨
  c = '_' ∨ ('а' ≤ c ∧ c ≤ 'я') ∨ ('А' ≤ c ∧ c ≤ 'Я') ∨ c = 'ё' ∨ c = 'Ё'

/-- `hyphen_pattern.sub(r'\1\2', text)` for
`hyphen_pattern = (\w)-\s*\n\s*(\w)`: a word character, a hyphen, a
whitespace run containing at least one newline, and a word character are
replaced by the two word characters (de-hyphenation across a line
break). -/
def hyphenJoinGo : Nat → List Char → List Char
  | 0, s => s
  | _ + 1, [] => []
  | fuel + 1, c :: '-' :: tl =>
    if isWordChar c ∧ '\n' ∈ tl.takeWhile pyIsSpace then
      match tl.dropWhile pyIsSpace with
      | d :: tl3 =>
        if isWordChar d then c :: d :: hyphenJoinGo fuel tl3
        else c :: hyphenJoinGo fuel ('-' :: tl)
      | [] => c :: hyphenJoinGo fuel ('-' :: tl)
    else c :: hyphenJoinGo fuel ('-' :: tl)
  | fuel + 1, c :: rest => c :: hyphenJoinGo fuel rest

/-- `hyphen_pattern.sub(r'\1\2', text)`; each scan step consumes at
least one character, so fuel `length + 1` is never exhausted. -/
def hyphenJoin (s : List Char) : List Char := hyphenJoinGo (s.length + 1) s

/-- `multi_space.sub(' ', text)` for `multi_space = [ \t]+`: collapse
every run of spaces/tabs to a single space. -/
def collapseSpacesGo : Nat → List Char → List Char
  | 0, s => s
  | _ + 1, [] => []
  | fuel + 1, c :: rest =>
    if c = ' ' ∨ c = '\t' then
      ' ' :: collapseSpacesGo fuel (rest.dropWhile (fun d => d = ' ' ∨ d = '\t'))
    else c :: collapseSpacesGo fuel rest

/-- `multi_space.sub(' ', text)`; each scan step consumes at least one
character, so fuel `length + 1` is never exhausted. -/
def collapseSpaces (s : List Char) : List Char :=
  collapseSpacesGo (s.length + 1) s

/-- Single-pass scanner for `multi_newline.sub('\n\n', text)`: emit a
newline only while fewer than two consecutive newlines of the current run
have been emitted (`prevNl` counts them), dropping the rest of a run. -/
def collapseNlGo (prevNl : Nat) : List Char → List Char
  | [] => []
  | c :: rest =>
    if c = '\n' then
      if 2 ≤ prevNl then collapseNlGo prevNl rest
      else '\n' :: collapseNlGo (prevNl + 1) rest
    else c :: collapseNlGo 0 rest

/-- `multi_newline.sub('\n\n', text)` for `multi_newline = \n{3,}`:
every run of three or more newlines is replaced by exactly two (runs of
one or two are unchanged), which is what the scan above computes. -/
def collapseNewlines (s : List Char) : List Char := collapseNlGo 0 s

/-- The `lines = [line.rstrip() ...]; '\n'.join(lines)` step of
`normalize`. -/
def rstripLines (s : List Char) : List Char :=
  List.intercalate ['\n'] ((splitOnChar '\n' s).map pyRStrip)

/-- `TextNormalizer.normalize(text)` with `aggressive=False` (as invoked
by the extraction chain). -/
def normalize (text : List Char) : List Char :=
  if text = [] then []
  else
    pyStrip (rstripLines (collapseNewlines (collapseSpaces
      (hyphenJoin (applyReplacements (nfkc text))))))

/-- Case-insensitive literal prefix match (for the `(?i)` watermark
regexes); `pat` is given lowercase.  Returns the rest of the input. -/
def ciPrefix : List Char → List Char → Option (List Char)
  | [], s => some s
  | _ :: _, [] => none
  | p :: ps, c :: cs => if pyLowerChar c = p then ciPrefix ps cs else none

/-- Matcher for `(?i)\s*oceanofpdf\.com\s*` anchored at the current
position (the lazy-free pattern consumes the maximal whitespace run on
both sides). -/
def matchOcean (s : List Char) : Option (List Char) :=
  match ciPrefix "oceanofpdf.com".data (s.dropWhile pyIsSpace) with
  | some r => some (r.dropWhile pyIsSpace)
  | none => none

/-- Matcher for `(?i)\s*WORD\s+by\s+.*?\s*` anchored at the current
position: since both lazy parts match empty, the pattern is equivalent to
`\s*WORD\s+by\s+`. -/
def matchWordBy (word : List Char) (s : List Char) : Option (List Char) :=
  match ciPrefix word (s.dropWhile pyIsSpace) with
  | some r =>
    if r.takeWhile pyIsSpace = [] then none
    else
      match ciPrefix "by".data (r.dropWhile pyIsSpace) with
      | some r2 =>
        if r2.takeWhile pyIsSpace = [] then none
        else some (r2.dropWhile pyIsSpace)
      | none => none
  | none => none

/-- Characters of the regex class `(?i)[a-z0-9\-]`. -/
def isDomChar (c : Char) : Bool :=
  ('a' ≤ c ∧ c ≤ 'z') ∨ ('A' ≤ c ∧ c ≤ 'Z') ∨ ('0' ≤ c ∧ c ≤ '9') ∨ c = '-'

/-- Matcher for `(?i)\s*www\.[a-z0-9\-]+\.(com|org|net)\s*` anchored at
the current position. -/
def matchWww (s : List Char) : Option (List Char) :=
  match ciPrefix "www.".data (s.dropWhile pyIsSpace) with
  | some r =>
    let run := r.takeWhile isDomChar
    if run = [] then none
    else
      match r.dropWhile isDomChar with
      | '.' :: r2 =>
        match ciPrefix "com".data r2 with
        | some r3 => some (r3.dropWhile pyIsSpace)
        | none =>
          match ciPrefix "org".data r2 with
          | some r3 => some (r3.dropWhile pyIsSpace)
          | none =>
            match ciPrefix "net".data r2 with
            | some r3 => some (r3.dropWhile pyIsSpace)
            | none => none
      | _ => none
  | none => none

/-- `re.sub(pattern, '', text)` driven by an anchored matcher: scan left
to right, drop each match, continue after it.  Fuel-based recursion; the
initial fuel `length + 1` can never be exhausted because every successful
match of the watermark patterns consumes at least one character. -/
def subRemoveGo (matcher : List Char → Option (List Char)) :
    Nat → List Char → List Char
  | 0, s => s
  | _ + 1, [] => []
  | fuel + 1, c :: rest =>
    match matcher (c :: rest) with
    | some r => subRemoveGo matcher fuel r
    | none => c :: subRemoveGo matcher fuel rest

/-- `re.sub(pattern, '', text)` with empty replacement. -/
def subRemove (matcher : List Char → Option (List Char)) (s : List Char) :
    List Char :=
  subRemoveGo matcher (s.length + 1) s

/-- `TextNormalizer.remove_common_watermarks`. -/
def removeCommonWatermarks (text : List Char) : List Char :=
  let t := subRemove matchOcean text
  let t := subRemove (matchWordBy "generated".data) t
  let t := subRemove (matchWordBy "downloaded".data) t
  let t := subRemove matchWww t
  pyStrip (collapseNewlines t)

/-! ## `am_structural_robust.py` — retry policy, blank-page detection and
the text extraction chain

A strategy (`extractor_func`) is deterministic in `(pdf_path, page_num)`,
both fixed during one `extract` call, so its behaviour is a single
`CallResult`: either it raises, or it returns `(text, confidence)`
(tuples are truthy in Python, so the source's `if result:` always takes
the returned branch).  Every call of a strategy and every
`time.sleep(delay)` is recorded in an execution trace. -/

/-- `RetryConfig.MAX_RETRIES`. -/
def MAX_RETRIES : Nat := 3

/-- `RetryConfig.INITIAL_DELAY` (the float `1.0`, exact). -/
def INITIAL_DELAY : ℚ := 1

/-- `RetryConfig.BACKOFF_FACTOR` (the float `2.0`, exact). -/
def BACKOFF_FACTOR : ℚ := 2

/-- `RetryConfig.MAX_DELAY` (the float `10.0`, exact). -/
def MAX_DELAY : ℚ := 10

/-- `RetryConfig.get_delay(attempt)`; all float arithmetic here is exact
in binary floating point. -/
def getDelay (attempt : Nat) : ℚ :=
  min (INITIAL_DELAY * BACKOFF_FACTOR ^ attempt) MAX_DELAY

/-- The `blank_detection` configuration of `BlankPageDetector.__init__`
with the source's defaults. -/
structure BlankConfig where
  min_chars_ocr : Nat := 50
  min_chars_valid : Nat := 10
  skip_front_matter : Bool := true
deriving DecidableEq, Repr

/-- `BlankPageDetector.is_truly_blank(text, page_num)`; `page_num` is the
0-based page index the processor passes in. -/
def isTrulyBlank (cfg : BlankConfig) (text : List Char) (pageNum : Nat) :
    Bool :=
  let textLen := (pyStrip text).length
  if textLen = 0 then true
  else if cfg.skip_front_matter ∧ pageNum ≤ 5 ∧ textLen < 20 then true
  else if textLen < cfg.min_chars_valid then true
  else false

/-- `BlankPageDetector.needs_ocr(text, page_num)`. -/
def needsOcr (cfg : BlankConfig) (text : List Char) (pageNum : Nat) : Bool :=
  if isTrulyBlank cfg text pageNum then false
  else decide ((pyStrip text).length < cfg.min_chars_ocr)

/-- The `ExtractionMethod` enum. -/
inductive ExtractionMethod where
  | pdfminer | pdfplumber | pypdf2 | ocr | nonE
deriving DecidableEq, Repr

/-- `ExtractionMethod.value`. -/
def ExtractionMethod.value : ExtractionMethod → List Char
  | .pdfminer => "pdfminer".data
  | .pdfplumber => "pdfplumber".data
  | .pypdf2 => "pypdf2".data
  | .ocr => "ocr".data
  | .nonE => "none".data

/-- `ExtractionMethod[extractor_name.upper()]`.  The chain built by
`TextExtractorChain.__init__` only ever carries the four member names;
for any other name the Python lookup would raise `KeyError`, so theorems
quantifying over chains restrict names to the members (here the lookup
is totalized with `nonE`). -/
def methodOfName (name : String) : ExtractionMethod :=
  if name = "pdfminer" then .pdfminer
  else if name = "pdfplumber" then .pdfplumber
  else if name = "pypdf2" then .pypdf2
  else if name = "ocr" then .ocr
  else .nonE

/-- Outcome of one call of `extractor_func(pdf_path, page_num)`. -/
inductive CallResult where
  | raises
  | returns (text : List Char) (conf : Option ℚ)
deriving DecidableEq, Repr

/-- One entry of `self.extractors`: a name and the strategy's (fixed)
behaviour. -/
structure Strategy where
  name : String
  call : CallResult
deriving DecidableEq, Repr

/-- Observable events of an `extract` run. -/
inductive TraceEv where
  | call (name : String)
  | sleep (delay : ℚ)
deriving DecidableEq, Repr

/-- `TextExtractorChain._try_non_ocr_preview`: walk all extractors,
skipping the one named `'ocr'`; the first call that does not raise
returns its raw text (possibly empty — the tuple is truthy); if all raise,
return the empty string. -/
def previewGo : List Strategy → List Char × List TraceEv
  | [] => ([], [])
  | s :: rest =>
    if s.name = "ocr" then previewGo rest
    else
      match s.call with
      | .raises =>
        let (t, tr) := previewGo rest
        (t, .call s.name :: tr)
      | .returns text _ => (text, [.call s.name])

/-- Result of the `for attempt in range(MAX_RETRIES)` loop for one
strategy. -/
inductive AttemptOut where
  | accepted (text : List Char) (conf : Option ℚ)
  | exhausted
deriving DecidableEq, Repr

/-- The retry loop of `TextExtractorChain.extract` for one strategy,
with `remaining` attempts left (`attempt = MAX_RETRIES - remaining`).
A returned result is normalized and watermark-stripped, accepted when the
normalized text has at least 10 stripped characters, and otherwise `break`s
(an empty/short result is not retried); an exception sleeps
`get_delay(attempt)` and retries while attempts remain. -/
def runAttempts (s : Strategy) : Nat → AttemptOut × List TraceEv
  | 0 => (.exhausted, [])
  | n + 1 =>
    match s.call with
    | .returns text conf =>
      let text1 := if text ≠ [] then removeCommonWatermarks (normalize text)
                   else text
      if text1 ≠ [] ∧ 10 ≤ (pyStrip text1).length then
        (.accepted text1 conf, [.call s.name])
      else (.exhausted, [.call s.name])
    | .raises =>
      if n = 0 then (.exhausted, [.call s.name])
      else
        let (out, tr) := runAttempts s n
        (out, .call s.name :: .sleep (getDelay (MAX_RETRIES - (n + 1))) :: tr)

/-- The `for extractor_name, extractor_func in self.extractors:` walk of
`TextExtractorChain.extract`.  `all` is the full chain (used by the
non-OCR preview), the list argument is the remaining suffix.  Before
trying a strategy named `'ocr'`, a non-OCR preview is taken; when the
blank-page detector says OCR is not needed, a non-empty preview is
returned with the hard-coded method `PDFPLUMBER`, and an empty one as
`("", NONE)`. -/
def extractGo (all : List Strategy) (cfg : BlankConfig) (pageNum : Nat) :
    List Strategy →
    (List Char × ExtractionMethod × Option ℚ) × List TraceEv
  | [] => (([], .nonE, none), [])
  | s :: rest =>
    if s.name = "ocr" ∧ needsOcr cfg (previewGo all).1 pageNum = false then
      if (previewGo all).1 ≠ [] then
        (((previewGo all).1, .pdfplumber, none), (previewGo all).2)
      else (([], .nonE, none), (previewGo all).2)
    else
      let pre : List TraceEv :=
        if s.name = "ocr" then (previewGo all).2 else []
      match runAttempts s MAX_RETRIES with
      | (.accepted t conf, tr) =>
        ((t, methodOfName s.name, conf), pre ++ tr)
      | (.exhausted, tr) =>
        let (r, tr2) := extractGo all cfg pageNum rest
        (r, pre ++ tr ++ tr2)

/-- `TextExtractorChain.extract(pdf_path, page_num)` with its trace. -/
def extract (all : List Strategy) (cfg : BlankConfig) (pageNum : Nat) :
    (List Char × ExtractionMethod × Option ℚ) × List TraceEv :=
  extractGo all cfg pageNum all

/-- Count of invocations of strategies with the given name in a trace. -/
def countCalls (name : String) : List TraceEv → Nat
  | [] => 0
  | .call n :: tr => (if n = name then 1 else 0) + countCalls name tr
  | .sleep _ :: tr => countCalls name tr

/-- Python `round(q, 3)` (round-half-to-even differences from `Rat.round`
arise only at exact half-thousandths, which no theorem below exercises). -/
def roundTo3 (q : ℚ) : ℚ := round (q * 1000) / 1000

/-- `RobustStructuralProcessor._process_page`, parametrized by the
result of `self.table_chain.extract` (table extraction is a separate
chain whose internals none of the claims below concern).  Builds the page
card exactly as the source does — note that no `error` key is ever
written on this path. -/
def processPage (all : List Strategy) (cfg : BlankConfig) (pageNum : Nat)
    (sourceFile : List Char) (tables : List Json) : JsonObj :=
  let r := (extract all cfg pageNum).1
  let text := r.1
  let method := r.2.1
  let ocrConfidence := r.2.2
  let card := JsonObj.ofList
    [("segment_id".data, .str (zfill5 (pageNum + 1))),
     ("page_num".data, .num (pageNum + 1 : Nat)),
     ("segment".data, .str text),
     ("source_file".data, .str sourceFile),
     ("extraction_method".data, .str method.value),
     ("ocr_used".data, .bool (method = .ocr)),
     ("has_table".data, .bool (0 < tables.length))]
  let card :=
    match method, ocrConfidence with
    | .ocr, some c => card.set "ocr_confidence".data (.rat (roundTo3 c))
    | _, _ => card
  if tables ≠ [] then
    (card.set "tables".data (.arr (JsonList.ofList tables))).set
      "table_count".data (.num tables.length)
  else card

/-- `RobustStructuralProcessor._create_error_card` — the only place a
card acquires `error: true` (used when `_process_page` raises). -/
def createErrorCard (pageNum : Nat) (sourceFile : List Char) : JsonObj :=
  JsonObj.ofList
    [("segment_id".data, .str (zfill5 (pageNum + 1))),
     ("page_num".data, .num (pageNum + 1 : Nat)),
     ("segment".data, .str []),
     ("source_file".data, .str sourceFile),
     ("extraction_method".data, .str "none".data),
     ("ocr_used".data, .bool false),
     ("has_table".data, .bool false),
     ("error".data, .bool true)]

/-! ## 32-bit arithmetic and hashing (`hashlib.md5`, `hashlib.sha256`)

The hashes the pipeline calls out to are implemented bit-faithfully over
`Nat`, with explicit reduction modulo `2 ^ 32`. -/

/-- Addition modulo `2^32`. -/
def add32 (a b : Nat) : Nat := (a + b) % 4294967296

/-- Bitwise complement within 32 bits (arguments below `2^32`). -/
def not32 (a : Nat) : Nat := 4294967295 - a

/-- Rotate a 32-bit word left by `n` (0 < n < 32). -/
def rotl32 (x n : Nat) : Nat :=
  ((x <<< n) % 4294967296) + (x >>> (32 - n))

/-- Rotate a 32-bit word right by `n` (0 < n < 32). -/
def rotr32 (x n : Nat) : Nat :=
  (x >>> n) + ((x <<< (32 - n)) % 4294967296)

/-- UTF-8 encoding of one character. -/
def utf8Char (c : Char) : List Nat :=
  let n := c.toNat
  if n < 0x80 then [n]
  else if n < 0x800 then [0xC0 + n / 64, 0x80 + n % 64]
  else if n < 0x10000 then
    [0xE0 + n / 4096, 0x80 + n / 64 % 64, 0x80 + n % 64]
  else
    [0xF0 + n / 262144, 0x80 + n / 4096 % 64, 0x80 + n / 64 % 64,
     0x80 + n % 64]

/-- `text.encode('utf-8')`. -/
def utf8Encode (s : List Char) : List Nat := (s.map utf8Char).flatten

/-- `v` as `k` little-endian bytes. -/
def leBytes : Nat → Nat → List Nat
  | 0, _ => []
  | k + 1, v => (v % 256) :: leBytes k (v / 256)

/-- `v` as `k` big-endian bytes. -/
def beBytes (k v : Nat) : List Nat := (leBytes k v).reverse

/-- Split a byte string into 64-byte blocks (fuel = list length; every
step consumes at least one byte). -/
def chunks64 : Nat → List Nat → List (List Nat)
  | 0, _ => []
  | _ + 1, [] => []
  | fuel + 1, l => l.take 64 :: chunks64 fuel (l.drop 64)

/-- One hexadecimal digit (lowercase). -/
def hexDigit (n : Nat) : Char :=
  if n < 10 then Char.ofNat (48 + n) else Char.ofNat (87 + n)

/-- Lowercase hex of a byte string (`hexdigest`). -/
def hexOfBytes (bytes : List Nat) : List Char :=
  (bytes.map (fun b => [hexDigit (b / 16), hexDigit (b % 16)])).flatten

/-- MD5 / SHA padding: `0x80`, zeros to 56 mod 64, then the 8-byte bit
length (little-endian for MD5, big-endian for SHA-256). -/
def hashPad (msg : List Nat) (lenBytes : List Nat) : List Nat :=
  msg ++ [0x80] ++
    List.replicate ((64 + 56 - (msg.length + 1) % 64) % 64) 0 ++ lenBytes

/-- The 16 little-endian 32-bit words of a 64-byte block. -/
def leWords : List Nat → List Nat
  | b0 :: b1 :: b2 :: b3 :: rest =>
    (b0 + 256 * (b1 + 256 * (b2 + 256 * b3))) :: leWords rest
  | _ => []

/-- The 16 big-endian 32-bit words of a 64-byte block. -/
def beWords : List Nat → List Nat
  | b0 :: b1 :: b2 :: b3 :: rest =>
    (b3 + 256 * (b2 + 256 * (b1 + 256 * b0))) :: beWords rest
  | _ => []

/-- The MD5 sine-derived round constants `K[0..63]`. -/
def md5K : List Nat :=
  [0xd76aa478, 0xe8c7b756, 0x242070db, 0xc1bdceee,
   0xf57c0faf, 0x4787c62a, 0xa8304613, 0xfd469501,
   0x698098d8, 0x8b44f7af, 0xffff5bb1, 0x895cd7be,
   0x6b901122, 0xfd987193, 0xa679438e, 0x49b40821,
   0xf61e2562, 0xc040b340, 0x265e5a51, 0xe9b6c7aa,
   0xd62f105d, 0x02441453, 0xd8a1e681, 0xe7d3fbc8,
   0x21e1cde6, 0xc33707d6, 0xf4d50d87, 0x455a14ed,
   0xa9e3e905, 0xfcefa3f8, 0x676f02d9, 0x8d2a4c8a,
   0xfffa3942, 0x8771f681, 0x6d9d6122, 0xfde5380c,
   0xa4beea44, 0x4bdecfa9, 0xf6bb4b60, 0xbebfbc70,
   0x289b7ec6, 0xeaa127fa, 0xd4ef3085, 0x04881d05,
   0xd9d4d039, 0xe6db99e5, 0x1fa27cf8, 0xc4ac5665,
   0xf4292244, 0x432aff97, 0xab9423a7, 0xfc93a039,
   0x655b59c3, 0x8f0ccc92, 0xffeff47d, 0x85845dd1,
   0x6fa87e4f, 0xfe2ce6e0, 0xa3014314, 0x4e0811a1,
   0xf7537e82, 0xbd3af235, 0x2ad7d2bb, 0xeb86d391]

/-- The MD5 per-round left-rotation amounts `s[0..63]`. -/
def md5S : List Nat :=
  [7, 12, 17, 22, 7, 12, 17, 22, 7, 12, 17, 22, 7, 12, 17, 22,
   5, 9, 14, 20, 5, 9, 14, 20, 5, 9, 14, 20, 5, 9, 14, 20,
   4, 11, 16, 23, 4, 11, 16, 23, 4, 11, 16, 23, 4, 11, 16, 23,
   6, 10, 15, 21, 6, 10, 15, 21, 6, 10, 15, 21, 6, 10, 15, 21]

/-- The 64 MD5 rounds over one block's words `M`, from round `i` with
`k` rounds remaining. -/
def md5Rounds (M : List Nat) : Nat → Nat →
    Nat × Nat × Nat × Nat → Nat × Nat × Nat × Nat
  | _, 0, st => st
  | i, k + 1, (A, B, C, D) =>
    let Fg : Nat × Nat :=
      if i < 16 then ((B &&& C) ||| (not32 B &&& D), i)
      else if i < 32 then ((D &&& B) ||| (not32 D &&& C), (5 * i + 1) % 16)
      else if i < 48 then (B ^^^ C ^^^ D, (3 * i + 5) % 16)
      else (C ^^^ (B ||| not32 D), (7 * i) % 16)
    let F2 := add32 (add32 (add32 Fg.1 A) (md5K.getD i 0)) (M.getD Fg.2 0)
    md5Rounds M (i + 1) k (D, add32 B (rotl32 F2 (md5S.getD i 0)), B, C)

/-- MD5 compression of one 64-byte block into the running state. -/
def md5Block (st : Nat × Nat × Nat × Nat) (block : List Nat) :
    Nat × Nat × Nat × Nat :=
  let M := leWords block
  let r := md5Rounds M 0 64 st
  (add32 st.1 r.1, add32 st.2.1 r.2.1, add32 st.2.2.1 r.2.2.1,
   add32 st.2.2.2 r.2.2.2)

/-- `hashlib.md5(msg).digest()`: the 16 digest bytes. -/
def md5Bytes (msg : List Nat) : List Nat :=
  let padded := hashPad msg (leBytes 8 (msg.length * 8))
  let st := (chunks64 padded.length padded).foldl md5Block
    (0x67452301, 0xefcdab89, 0x98badcfe, 0x10325476)
  leBytes 4 st.1 ++ leBytes 4 st.2.1 ++ leBytes 4 st.2.2.1 ++
    leBytes 4 st.2.2.2

/-- `hashlib.md5(msg).hexdigest()`. -/
def md5Hex (msg : List Nat) : List Char := hexOfBytes (md5Bytes msg)

/-- The SHA-256 round constants `k[0..63]`. -/
def sha256K : List Nat :=
  [1116352408, 1899447441, 3049323471, 3921009573, 961987163,
   1508970993, 2453635748, 2870763221, 3624381080, 310598401,
   607225278, 1426881987, 1925078388, 2162078206, 2614888103,
   3248222580, 3835390401, 4022224774, 264347078, 604807628,
   770255983, 1249150122, 1555081692, 1996064986, 2554220882,
   2821834349, 2952996808, 3210313671, 3336571891, 3584528711,
   113926993, 338241895, 666307205, 773529912, 1294757372,
   1396182291, 1695183700, 1986661051, 2177026350, 2456956037,
   2730485921, 2820302411, 3259730800, 3345764771, 3516065817,
   3600352804, 4094571909, 275423344, 430227734, 506948616,
   659060556, 883997877, 958139571, 1322822218, 1537002063,
   1747873779, 1955562222, 2024104815, 2227730452, 2361852424,
   2428436474, 2756734187, 3204031479, 3329325298]

/-- SHA-256 message-schedule extension from the 16 block words to 64
words (appending `w[16..63]`). -/
def sha256Extend : Nat → List Nat → List Nat
  | 0, w => w
  | k + 1, w =>
    let i := w.length
    let w15 := w.getD (i - 15) 0
    let w2 := w.getD (i - 2) 0
    let s0 := rotr32 w15 7 ^^^ rotr32 w15 18 ^^^ (w15 >>> 3)
    let s1 := rotr32 w2 17 ^^^ rotr32 w2 19 ^^^ (w2 >>> 10)
    sha256Extend k
      (w ++ [add32 (add32 (w.getD (i - 16) 0) s0) (add32 (w.getD (i - 7) 0) s1)])

/-- The 64 SHA-256 rounds. -/
def sha256Rounds (w : List Nat) : Nat → Nat →
    (Nat × Nat × Nat × Nat) × (Nat × Nat × Nat × Nat) →
    (Nat × Nat × Nat × Nat) × (Nat × Nat × Nat × Nat)
  | _, 0, st => st
  | i, k + 1, ((a, b, c, d), (e, f, g, h)) =>
    let S1 := rotr32 e 6 ^^^ rotr32 e 11 ^^^ rotr32 e 25
    let ch := (e &&& f) ^^^ (not32 e &&& g)
    let temp1 := add32 (add32 (add32 h S1) (add32 ch (sha256K.getD i 0)))
      (w.getD i 0)
    let S0 := rotr32 a 2 ^^^ rotr32 a 13 ^^^ rotr32 a 22
    let maj := (a &&& b) ^^^ ((a &&& c) ^^^ (b &&& c))
    let temp2 := add32 S0 maj
    sha256Rounds w (i + 1) k
      ((add32 temp1 temp2, a, b, c), (add32 d temp1, e, f, g))

/-- SHA-256 compression of one 64-byte block. -/
def sha256Compress (st : (Nat × Nat × Nat × Nat) × (Nat × Nat × Nat × Nat))
    (block : List Nat) :
    (Nat × Nat × Nat × Nat) × (Nat × Nat × Nat × Nat) :=
  let w := sha256Extend 48 (beWords block)
  let r := sha256Rounds w 0 64 st
  ((add32 st.1.1 r.1.1, add32 st.1.2.1 r.1.2.1, add32 st.1.2.2.1 r.1.2.2.1,
    add32 st.1.2.2.2 r.1.2.2.2),
   (add32 st.2.1 r.2.1, add32 st.2.2.1 r.2.2.1, add32 st.2.2.2.1 r.2.2.2.1,
    add32 st.2.2.2.2 r.2.2.2.2))

/-- `hashlib.sha256(msg).digest()`. -/
def sha256Bytes (msg : List Nat) : List Nat :=
  let padded := hashPad msg (beBytes 8 (msg.length * 8))
  let st := (chunks64 padded.length padded).foldl sha256Compress
    ((0x6a09e667, 0xbb67ae85, 0x3c6ef372, 0xa54ff53a),
     (0x510e527f, 0x9b05688c, 0x1f83d9ab, 0x5be0cd19))
  beBytes 4 st.1.1 ++ beBytes 4 st.1.2.1 ++ beBytes 4 st.1.2.2.1 ++
    beBytes 4 st.1.2.2.2 ++ beBytes 4 st.2.1 ++ beBytes 4 st.2.2.1 ++
    beBytes 4 st.2.2.2.1 ++ beBytes 4 st.2.2.2.2

/-- `hashlib.sha256(msg).hexdigest()`. -/
def sha256Hex (msg : List Nat) : List Char := hexOfBytes (sha256Bytes msg)

/-! ## `am_extended.py` — text analysis, duplicate detection, continuity

Cards at this stage are JSON dicts of which the code reads `segment`,
`page_num`, `is_duplicate` and writes `is_duplicate`, `duplicate_of`,
`flags.continuity_gap`; they are embedded as a structure over exactly
those fields (`flags` via its only consulted key). -/

/-- `STOP_WORDS` of `am_extended.py`, verbatim. -/
def STOP_WORDS : List (List Char) :=
  ["a", "an", "the", "and", "or", "for", "to", "of", "in", "on", "at",
   "by", "as", "is", "are", "was", "were", "be", "been", "being", "this",
   "that", "those", "these", "with", "from", "into", "over", "under",
   "about", "across", "between", "among", "through", "during", "before",
   "after", "above", "below", "not", "no", "nor", "so", "such", "it",
   "its", "their", "our", "your", "my", "we", "you", "they", "he", "she",
   "his", "her", "them", "us",
   "и", "в", "во", "не", "на", "но", "а", "к", "ко", "от", "до", "по",
   "за", "из", "у", "о", "об", "при", "над", "под", "для", "без",
   "между", "как", "так", "же", "уже", "ещё", "еще", "или", "либо",
   "это", "эти", "эта", "этот", "кто", "что", "где", "когда", "чем",
   "чтобы", "который", "которая", "которые", "бы", "то", "все",
   "всё"].map String.data

/-- The character class of `WORD_RE = [A-Za-zА-Яа-я0-9]{2,}` (note: the
Cyrillic ranges exclude `ё`/`Ё`, as in the source). -/
def isTokenChar (c : Char) : Bool :=
  ('A' ≤ c ∧ c ≤ 'Z') ∨ ('a' ≤ c ∧ c ≤ 'z') ∨ ('А' ≤ c ∧ c ≤ 'Я') ∨
  ('а' ≤ c ∧ c ≤ 'я') ∨ ('0' ≤ c ∧ c ≤ '9')

/-- `WORD_RE.findall`: the maximal runs of token characters of length at
least 2 (fuel = input length; each step consumes at least one
character). -/
def tokenRunsGo : Nat → List Char → List (List Char)
  | 0, _ => []
  | _ + 1, [] => []
  | fuel + 1, c :: rest =>
    if isTokenChar c then
      let run := c :: rest.takeWhile isTokenChar
      (if 2 ≤ run.length then [run] else []) ++
        tokenRunsGo fuel (rest.dropWhile isTokenChar)
    else tokenRunsGo fuel rest

/-- `TextAnalyzer.tokenize`: `WORD_RE.findall(text.lower())` with stop
words removed. -/
def tokenize (text : List Char) : List (List Char) :=
  let lowered := pyLower text
  (tokenRunsGo (lowered.length + 1) lowered).filter
    (fun w => decide (w ∉ STOP_WORDS))

/-- `TextAnalyzer.jaccard_similarity` over the token lists (Python turns
them into sets; here `List.toFinset`). -/
def jaccardSimilarity (a b : List (List Char)) : ℚ :=
  if a = [] ∧ b = [] then 1
  else if a = [] ∨ b = [] then 0
  else
    let inter := (a.toFinset ∩ b.toFinset).card
    let union := (a.toFinset ∪ b.toFinset).card
    if 0 < union then (inter : ℚ) / (union : ℚ) else 0

/-- The whitespace normalization inside `TextAnalyzer.text_hash`:
`' '.join(text.lower().split())`. -/
def normalizedJoin (text : List Char) : List Char :=
  List.intercalate [' '] (pySplitWs (pyLower text))

/-- `TextAnalyzer.text_hash`: MD5 hexdigest of the lowercased,
whitespace-collapsed text. -/
def textHash (text : List Char) : List Char :=
  md5Hex (utf8Encode (normalizedJoin text))

/-- An `extended`-stage card, restricted to the fields `am_extended.py`
reads/writes: `segment`, `page_num` (`card.get('page_num', 0)`),
`is_duplicate` (`card.get('is_duplicate', False)`), `duplicate_of`, and
`flags['continuity_gap']`. -/
structure XCard where
  segment : List Char
  page_num : Nat
  is_duplicate : Bool := false
  duplicate_of : Option Nat := none
  continuity_gap : Bool := false
deriving DecidableEq, Repr

/-- One duplicate group of `DuplicateDetector.detect_duplicates`:
`{'pages': ..., 'similarity': ..., 'type': ...}`. -/
structure DupGroup where
  pages : List Nat
  similarity : ℚ
  type : List Char
deriving DecidableEq, Repr

/-- Append `page` to the bucket of hash `h` in the insertion-ordered
`seen_hashes` dict (or open a new bucket at the end). -/
def bumpBucket : List (List Char × List Nat) → List Char → Nat →
    List (List Char × List Nat)
  | [], h, p => [(h, [p])]
  | (k, ps) :: tl, h, p =>
    if k = h then (k, ps ++ [p]) :: tl else (k, ps) :: bumpBucket tl h p

/-- The first pass of `detect_duplicates`: bucket the pages of cards with
at least 50 stripped characters by their content hash, in card order. -/
def collectHashes : List XCard → List (List Char × List Nat) →
    List (List Char × List Nat)
  | [], acc => acc
  | c :: rest, acc =>
    if (pyStrip c.segment).length < 50 then collectHashes rest acc
    else collectHashes rest (bumpBucket acc (textHash c.segment) c.page_num)

/-- Ascending sort of page numbers (Python `sorted`; stable, but the
entries are distinct numbers so any correct sort coincides). -/
def sortPages (ps : List Nat) : List Nat :=
  ps.insertionSort (· ≤ ·)

/-- `DuplicateDetector.detect_duplicates`: every bucket with more than
one page becomes an exact-duplicate group of similarity `1.0`. -/
def detectDuplicates (cards : List XCard) : List DupGroup :=
  (collectHashes cards []).filterMap fun pr =>
    if 2 ≤ pr.2.length then
      some ⟨sortPages pr.2, 1, "exact".data⟩
    else none

/-- `card['duplicate_of'] = dup_group['pages'][0]` — the first group (in
list order) containing the page. -/
def findDupOf (page : Nat) : List DupGroup → Option Nat
  | [] => none
  | g :: tl => if page ∈ g.pages then g.pages.head? else findDupOf page tl

/-- `DuplicateDetector.mark_duplicates`: flag every page occurring in
some group's tail (`pages[1:]`), pointing `duplicate_of` at the first
group's leading page; cards are updated in place, never deleted.
Returns the updated cards and the marked count. -/
def markDuplicates (cards : List XCard) (dups : List DupGroup) :
    List XCard × Nat :=
  let dupPages := (dups.map (fun g => g.pages.drop 1)).flatten
  let marked := cards.map fun c =>
    if c.page_num ∈ dupPages then
      { c with is_duplicate := true,
               duplicate_of :=
                 match findDupOf c.page_num dups with
                 | some p => some p
                 | none => c.duplicate_of }
    else c
  (marked, (cards.filter (fun c => decide (c.page_num ∈ dupPages))).length)

/-- One recorded continuity gap `{'from_page', 'to_page', 'overlap'}`. -/
structure GapRec where
  from_page : Nat
  to_page : Nat
  overlap : ℚ
deriving DecidableEq, Repr

/-- The `for i in range(1, len(cards))` loop of
`ContinuityAuditor.audit_continuity`.  `prev` is `cards[i-1]` (as already
updated by the loop) and the list argument is `cards[i:]`.  Returns the
recorded gaps, the collected overlaps and the updated card suffix. -/
def auditLoop (th : ℚ) (prev : XCard) :
    List XCard → List GapRec × List ℚ × List XCard
  | [] => ([], [], [])
  | curr :: rest =>
    if curr.is_duplicate then
      ((auditLoop th curr rest).1, (auditLoop th curr rest).2.1,
       curr :: (auditLoop th curr rest).2.2)
    else if tokenize prev.segment ≠ [] ∧ tokenize curr.segment ≠ [] then
      if jaccardSimilarity (tokenize prev.segment) (tokenize curr.segment)
          < th then
        ((⟨prev.page_num, curr.page_num,
            roundTo3 (jaccardSimilarity (tokenize prev.segment)
              (tokenize curr.segment))⟩ : GapRec) ::
          (auditLoop th { curr with continuity_gap := true } rest).1,
         jaccardSimilarity (tokenize prev.segment) (tokenize curr.segment)
           :: (auditLoop th { curr with continuity_gap := true } rest).2.1,
         { curr with continuity_gap := true } ::
           (auditLoop th { curr with continuity_gap := true } rest).2.2)
      else
        ((auditLoop th curr rest).1,
         jaccardSimilarity (tokenize prev.segment) (tokenize curr.segment)
           :: (auditLoop th curr rest).2.1,
         curr :: (auditLoop th curr rest).2.2)
    else
      ((auditLoop th curr rest).1, (auditLoop th curr rest).2.1,
       curr :: (auditLoop th curr rest).2.2)

/-- The audit report of `ContinuityAuditor.audit_continuity`. -/
structure AuditReport where
  gaps : List GapRec
  gap_count : Nat
  gap_ratio : ℚ
  avg_overlap : ℚ
  threshold : ℚ
deriving DecidableEq, Repr

/-- `ContinuityAuditor.audit_continuity` (returning the report together
with the updated cards; the source mutates the card list in place). -/
def auditContinuity (th : ℚ) (cards : List XCard) :
    AuditReport × List XCard :=
  match cards with
  | [] => (⟨[], 0, 0 / (max 1 (cards.length - 1) : ℚ), roundTo3 0, th⟩, [])
  | c0 :: rest =>
    let r := auditLoop th c0 rest
    let avg : ℚ := if r.2.1 ≠ [] then r.2.1.sum / (r.2.1.length : ℚ) else 0
    (⟨r.1, r.1.length, (r.1.length : ℚ) / (max 1 (cards.length - 1) : ℚ),
      roundTo3 avg, th⟩, c0 :: r.2.2)

/-- Whether a card passes `detect_duplicates`' minimum-length skip. -/
def qualifies (c : XCard) : Bool := decide (50 ≤ (pyStrip c.segment).length)

/-- Lookup of a hash bucket in the `seen_hashes` association list. -/
def bucketLookup (h : List Char) : List (List Char × List Nat) →
    Option (List Nat)
  | [] => none
  | (k, ps) :: tl => if k = h then some ps else bucketLookup h tl

/-- The pages of the qualifying cards with content hash `h`, in card
order (this is what the bucket of `h` collects). -/
def pagesOf (h : List Char) (cards : List XCard) : List Nat :=
  (cards.filter (fun c => qualifies c ∧ textHash c.segment = h)).map
    XCard.page_num

/-- All pages stored across the buckets. -/
def bucketPages (l : List (List Char × List Nat)) : List Nat :=
  (l.map Prod.snd).flatten

/-- A demonstration pair of cards with identical 50-character segments on
pages 1 and 2 (long enough to pass the minimum-length skip). -/
def dupDemoCards : List XCard :=
  [{ segment := List.replicate 50 'a', page_num := 1 },
   { segment := List.replicate 50 'a', page_num := 2 }]

/-! ## `am_common.py` — `DatasetIO.validate_structure` -/

/-- Python dict truthiness: `not header` holds for the empty dict. -/
def JsonObj.isEmpty : JsonObj → Bool
  | .nil => true
  | .cons _ _ _ => false

/-- `REQUIRED_FIELDS.get(stage, ["segment_id", "segment"])`
(`am_common.py` lines 55-62; a `None` or unknown stage gets the
default). -/
def requiredFieldsGet (stage : Option (List Char)) : List (List Char) :=
  match stage with
  | none => ["segment_id".data, "segment".data]
  | some s =>
    if s = "structural".data then
      ["segment_id".data, "segment".data, "page_num".data]
    else if s = "structured".data then
      ["segment_id".data, "segment".data, "page_num".data,
       "chapter_title".data, "section_title".data]
    else if s = "summarized".data then
      ["segment_id".data, "segment".data, "page_num".data,
       "l1_summary".data, "l2_summary".data]
    else if s = "extended".data then
      ["segment_id".data, "segment".data, "page_num".data,
       "prev_page".data, "next_page".data]
    else if s = "final".data then
      ["segment_id".data, "segment".data, "page_num".data]
    else if s = "chunks".data then
      ["chunk_id".data, "text".data, "tokens".data, "metadata".data]
    else ["segment_id".data, "segment".data]

/-- The header half of `validate_structure`: `"Missing header"` on an
empty header, else the (convoluted) loop over
`['book', 'title', 'source_file']` whose condition
`field not in header and (field == 'book' and 'title' not in header)`
can only fire for `field == 'book'`, appending
`"Header missing both 'book' and 'title'"` when both are absent. -/
def headerErrors (header : JsonObj) : List (List Char) :=
  if header.isEmpty then ["Missing header".data]
  else
    ["book".data, "title".data, "source_file".data].filterMap fun field =>
      if ¬ header.hasKey field ∧
          (field = "book".data ∧ ¬ header.hasKey "title".data) then
        if ¬ header.hasKey "book".data ∧ ¬ header.hasKey "title".data then
          some "Header missing both \x27book\x27 and \x27title\x27".data
        else none
      else none

/-- The per-card body of `validate_structure`'s loop: one
`missing required field` error per absent required field, and an
`invalid segment_id ... (reserved)` error when the present `segment_id`
equals one of the sentinels `__header__`/`__audit__`/`__footer__` (only
a string value can compare equal to them in Python). -/
def cardErrors (required : List (List Char)) (i : Nat) (card : JsonObj) :
    List (List Char) :=
  (required.filterMap fun field =>
    if ¬ card.hasKey field then
      some ("Card ".data ++ natToChars i ++
        ": missing required field \x27".data ++ field ++ "\x27".data)
    else none) ++
  (match JsonObj.get "segment_id".data card with
   | some (Json.str sid) =>
     if sid = "__header__".data ∨ sid = "__audit__".data ∨
         sid = "__footer__".data then
       ["Card ".data ++ natToChars i ++
         ": invalid segment_id \x27".data ++ sid ++
         "\x27 (reserved)".data]
     else []
   | some _ => []
   | none => [])

/-- `for i, card in enumerate(cards)` of `validate_structure`. -/
def cardsErrors (required : List (List Char)) :
    Nat → List JsonObj → List (List Char)
  | _, [] => []
  | i, c :: tl => cardErrors required i c ++ cardsErrors required (i + 1) tl

/-- `DatasetIO.validate_structure` (`am_common.py` lines 504-548). -/
def validate_structure (header : JsonObj) (cards : List JsonObj)
    (stage : Option (List Char)) : List (List Char) :=
  headerErrors header ++
  (if cards = [] then ["No cards found".data]
   else cardsErrors (requiredFieldsGet stage) 0 cards)

/-! ## `json.dumps` / `json.loads`

The JSON (de)serialization `DatasetIO` relies on.  `json.dumps` is
embedded with its default separators `", "`/`": "` and
`ensure_ascii=False` as `save` calls it: it escapes exactly `"`, `\x5c`
and the control characters below `0x20` (named escapes for the five
common ones, `\x5cu00XX` otherwise) and emits everything else raw.
Floats are not modelled (`jsonDumps` returns `none` on `rat`), matching
the fact that the dataset fields of the store claims are ints and
strings.  `json.loads` is embedded as a fuel-driven JSON parser for the
same fragment (ints, strings, arrays, objects, booleans, null);
surrogate-pair `\x5cu` escapes and float literals are outside the
fragment, and an object's bindings are kept in reading order (the
sources only produce unique keys). -/

/-- Decimal digits of a natural number (fuel-driven; fuel `n + 1`
suffices since `n / 10 < n` for `n ≥ 10`). -/
def natCharsGo : Nat → Nat → List Char
  | 0, _ => []
  | fuel + 1, n =>
    if n < 10 then [Char.ofNat (48 + n)]
    else natCharsGo fuel (n / 10) ++ [Char.ofNat (48 + n % 10)]

/-- Decimal print of a natural number. -/
def natChars (n : Nat) : List Char := natCharsGo (n + 1) n

/-- Python `repr` of an int. -/
def intChars (i : Int) : List Char :=
  if i < 0 then '-' :: natChars i.natAbs else natChars i.toNat

/-- The escape `json.dumps` (C encoder, `ensure_ascii=False`) applies to
one string character. -/
def escapeChar (c : Char) : List Char :=
  if c = '"' then ['\x5c', '"']
  else if c = '\x5c' then ['\x5c', '\x5c']
  else if c = '\n' then ['\x5c', 'n']
  else if c = '\t' then ['\x5c', 't']
  else if c = '\x0d' then ['\x5c', 'r']
  else if c = '\x08' then ['\x5c', 'b']
  else if c = '\x0c' then ['\x5c', 'f']
  else if c.toNat < 32 then
    ['\x5c', 'u', '0', '0', hexDigit (c.toNat / 16), hexDigit (c.toNat % 16)]
  else [c]

/-- `json.dumps` string-body escaping. -/
def jsonEscape (s : List Char) : List Char := (s.map escapeChar).flatten

mutual
/-- `json.dumps(v, ensure_ascii=False)` (default separators
`", "`/`": "`); `none` on the unmodelled float case. -/
def jsonDumps : Json → Option (List Char)
  | .null => some "null".data
  | .bool b => some (if b then "true".data else "false".data)
  | .num i => some (intChars i)
  | .rat _ => none
  | .str s => some ('"' :: (jsonEscape s ++ ['"']))
  | .arr l =>
    match jsonDumpsItems l with
    | some s => some ('[' :: (s ++ [']']))
    | none => none
  | .obj o =>
    match jsonDumpsFields o with
    | some s => some ('\x7b' :: (s ++ ['\x7d']))
    | none => none
termination_by structural v => v

/-- Array elements joined by `", "`. -/
def jsonDumpsItems : JsonList → Option (List Char)
  | .nil => some []
  | .cons v .nil =>
    match jsonDumps v with
    | some s => some s
    | none => none
  | .cons v tl =>
    match jsonDumps v, jsonDumpsItems tl with
    | some s, some st => some (s ++ ',' :: ' ' :: st)
    | _, _ => none
termination_by structural l => l

/-- Object bindings `"key": value` joined by `", "`. -/
def jsonDumpsFields : JsonObj → Option (List Char)
  | .nil => some []
  | .cons k v .nil =>
    match jsonDumps v with
    | some sv => some ('"' :: (jsonEscape k ++ '"' :: ':' :: ' ' :: sv))
    | none => none
  | .cons k v tl =>
    match jsonDumps v, jsonDumpsFields tl with
    | some sv, some st =>
      some ('"' :: (jsonEscape k ++ '"' :: ':' :: ' ' ::
        (sv ++ ',' :: ' ' :: st)))
    | _, _ => none
termination_by structural o => o
end

/-- JSON whitespace (RFC 8259: space, tab, newline, carriage return). -/
def isJsonWs (c : Char) : Bool :=
  c = ' ' ∨ c = '\n' ∨ c = '\t' ∨ c = '\x0d'

/-- Skip leading JSON whitespace. -/
def skipWs : List Char → List Char
  | [] => []
  | c :: rest => if isJsonWs c then skipWs rest else c :: rest

/-- Value of one hex digit (`json.loads` accepts both cases). -/
def hexVal (c : Char) : Option Nat :=
  if '0' ≤ c ∧ c ≤ '9' then some (c.toNat - 48)
  else if 'a' ≤ c ∧ c ≤ 'f' then some (c.toNat - 87)
  else if 'A' ≤ c ∧ c ≤ 'F' then some (c.toNat - 55)
  else none

/-- Decode the character named by one string escape (after the
backslash), returning it and the input that follows. -/
def escDecode : List Char → Option (Char × List Char)
  | [] => none
  | e :: rest2 =>
    if e = '"' ∨ e = '\x5c' ∨ e = '/' then some (e, rest2)
    else if e = 'n' then some ('\n', rest2)
    else if e = 't' then some ('\t', rest2)
    else if e = 'r' then some ('\x0d', rest2)
    else if e = 'b' then some ('\x08', rest2)
    else if e = 'f' then some ('\x0c', rest2)
    else if e = 'u' then
      match rest2 with
      | h1 :: h2 :: h3 :: h4 :: rest3 =>
        match hexVal h1, hexVal h2, hexVal h3, hexVal h4 with
        | some a, some b, some c2, some d =>
          some (Char.ofNat (((a * 16 + b) * 16 + c2) * 16 + d), rest3)
        | _, _, _, _ => none
      | _ => none
    else none

/-- Parse a JSON string body after the opening quote, returning the
decoded content and the input after the closing quote.  Strict mode:
raw control characters are rejected, escapes are the RFC 8259 set. -/
def parseStringBody : Nat → List Char → Option (List Char × List Char)
  | 0, _ => none
  | _ + 1, [] => none
  | fuel + 1, c :: rest =>
    if c = '"' then some ([], rest)
    else if c = '\x5c' then
      match escDecode rest with
      | some (d, rest2) =>
        match parseStringBody fuel rest2 with
        | some (s, r) => some (d :: s, r)
        | none => none
      | none => none
    else if c.toNat < 32 then none
    else
      match parseStringBody fuel rest with
      | some (s, r) => some (c :: s, r)
      | none => none

/-- Consume a run of decimal digits, accumulating their value. -/
def parseDigits : List Char → Nat → Nat × List Char
  | [], acc => (acc, [])
  | c :: rest, acc =>
    if isDigitChar c then parseDigits rest (acc * 10 + (c.toNat - 48))
    else (acc, c :: rest)

/-- Parse a JSON int (a float continuation `.`/`e`/`E` falls outside the
modelled fragment and fails). -/
def parseNum : List Char → Option (Json × List Char)
  | [] => none
  | c :: rest =>
    if c = '-' then
      match rest with
      | [] => none
      | d :: _ =>
        if isDigitChar d then
          match parseDigits rest 0 with
          | (n, r) =>
            match r with
            | e :: _ =>
              if e = '.' ∨ e = 'e' ∨ e = 'E' then none
              else some (.num (-(n : Int)), r)
            | [] => some (.num (-(n : Int)), [])
        else none
    else if isDigitChar c then
      match parseDigits (c :: rest) 0 with
      | (n, r) =>
        match r with
        | e :: _ =>
          if e = '.' ∨ e = 'e' ∨ e = 'E' then none
          else some (.num (n : Int), r)
        | [] => some (.num (n : Int), [])
    else none

/-- Whether a number literal just before `rest` ends there (the next
character extends neither the digit run nor a float form). -/
def stopsNum : List Char → Bool
  | [] => true
  | c :: _ => !(isDigitChar c) && !(c = '.') && !(c = 'e') && !(c = 'E')

mutual
/-- Parse one JSON value (fuel-driven; fuel bounds the container
nesting and every nested call strictly shrinks the input, so input
length + 1 fuel always suffices). -/
def parseVal : Nat → List Char → Option (Json × List Char)
  | 0, _ => none
  | fuel + 1, s =>
    match skipWs s with
    | [] => none
    | c :: rest =>
      if c = 'n' then
        match rest with
        | 'u' :: 'l' :: 'l' :: r => some (.null, r)
        | _ => none
      else if c = 't' then
        match rest with
        | 'r' :: 'u' :: 'e' :: r => some (.bool true, r)
        | _ => none
      else if c = 'f' then
        match rest with
        | 'a' :: 'l' :: 's' :: 'e' :: r => some (.bool false, r)
        | _ => none
      else if c = '"' then
        match parseStringBody (rest.length + 1) rest with
        | some (str2, r) => some (.str str2, r)
        | none => none
      else if c = '[' then
        match skipWs rest with
        | ']' :: r2 => some (.arr .nil, r2)
        | _ =>
          match parseItems fuel rest with
          | some (l, r) => some (.arr l, r)
          | none => none
      else if c = '\x7b' then
        match skipWs rest with
        | '\x7d' :: r2 => some (.obj .nil, r2)
        | _ =>
          match parseFields fuel rest with
          | some (o, r) => some (.obj o, r)
          | none => none
      else if c = '-' ∨ isDigitChar c then parseNum (c :: rest)
      else none
termination_by structural fuel => fuel

/-- Parse the comma-separated elements of a non-empty array, up to and
including the closing bracket. -/
def parseItems : Nat → List Char → Option (JsonList × List Char)
  | 0, _ => none
  | fuel + 1, s =>
    match parseVal fuel s with
    | some (v, r) =>
      match skipWs r with
      | ',' :: r2 =>
        match parseItems fuel r2 with
        | some (l, r3) => some (.cons v l, r3)
        | none => none
      | ']' :: r2 => some (.cons v .nil, r2)
      | _ => none
    | none => none
termination_by structural fuel => fuel

/-- Parse the comma-separated bindings of a non-empty object, up to and
including the closing brace. -/
def parseFields : Nat → List Char → Option (JsonObj × List Char)
  | 0, _ => none
  | fuel + 1, s =>
    match skipWs s with
    | '"' :: r =>
      match parseStringBody (r.length + 1) r with
      | some (k, r2) =>
        match skipWs r2 with
        | ':' :: r3 =>
          match parseVal fuel r3 with
          | some (v, r4) =>
            match skipWs r4 with
            | ',' :: r5 =>
              match parseFields fuel r5 with
              | some (o, r6) => some (.cons k v o, r6)
              | none => none
            | '\x7d' :: r5 => some (.cons k v .nil, r5)
            | _ => none
          | none => none
        | _ => none
      | none => none
    | _ => none
termination_by structural fuel => fuel
end

/-- `json.loads`: parse one value, allow trailing whitespace only. -/
def jsonLoads (s : List Char) : Option Json :=
  match parseVal (s.length + 1) s with
  | some (v, r) => if skipWs r = [] then some v else none
  | none => none

/-! ## `am_common.DatasetIO.save` / `DatasetIO.load`

The dataset store.  `save` is embedded up to its effects: the wall-clock
timestamp is an explicit `now` parameter and the produced file is the
returned character list; a validation failure (which raises in the
source) or an unserializable value yields `none`.  `load` takes the raw
file contents and returns the `(header, cards, audit, footer)` tuple or
the raised error; the `validate=True` path of `load` only logs warnings
and never alters the result, so it is omitted. -/

/-- `DATASET_BEGIN` (`am_common.py` line 46). -/
def DATASET_BEGIN : List Char := "===DATASET_BEGIN===".data

/-- `DATASET_END` (`am_common.py` line 47). -/
def DATASET_END : List Char := "===DATASET_END===".data

/-- `manifest_sha256(lines)` (`am_common.py` lines 104-119): SHA-256 over
each line's UTF-8 bytes followed by a newline byte. -/
def manifest_sha256 (lines : List (List Char)) : List Char :=
  sha256Hex ((lines.map (fun l => utf8Encode l ++ [10])).flatten)

/-- The header mutation `save` performs before dumping: force
`segment_id`, default `version`, `product`, `created_at`. -/
def saveHeader (header : JsonObj) (now : List Char) : JsonObj :=
  (((header.set "segment_id".data
      (.str "__header__".data)).setDefault
      "version".data (.str "2.0.0".data)).setDefault
      "product".data (.str "archivist magika".data)).setDefault
      "created_at".data (.str now)

/-- The audit mutation `save` performs before dumping. -/
def saveAudit (audit : JsonObj) (now : List Char) : JsonObj :=
  (audit.set "segment_id".data (.str "__audit__".data)).setDefault
    "created_at".data (.str now)

/-- `json.dumps` of every card, in order (`none` if any fails). -/
def cardLinesOpt : List JsonObj → Option (List (List Char))
  | [] => some []
  | c :: tl =>
    match jsonDumps (.obj c), cardLinesOpt tl with
    | some l, some ls => some (l :: ls)
    | _, _ => none

/-- The `lines` list `save` accumulates (header, cards, optional
audit) before hashing it into the manifest. -/
def saveLines (header : JsonObj) (cards : List JsonObj)
    (audit : Option JsonObj) (now : List Char) :
    Option (List (List Char)) :=
  match jsonDumps (.obj (saveHeader header now)) with
  | none => none
  | some hline =>
    match cardLinesOpt cards with
    | none => none
    | some clines =>
      match audit with
      | none => some (hline :: clines)
      | some a =>
        match jsonDumps (.obj (saveAudit a now)) with
        | none => none
        | some aline => some (hline :: (clines ++ [aline]))

/-- The `footer_data` dict `save` builds (stored manifest hash plus
provenance), merged into a caller-provided footer when one is given. -/
def footerData (mf now : List Char) (ncards : Nat) : JsonObj :=
  JsonObj.ofList
    [("segment_id".data, .str "__footer__".data),
     ("manifest_sha256".data, .str mf),
     ("created_at".data, .str now),
     ("version".data, .str "2.0.0".data),
     ("product".data, .str "archivist magika".data),
     ("card_count".data, .num ncards)]

/-- The footer object `save` writes. -/
def saveFooter (footer : Option JsonObj) (lines : List (List Char))
    (now : List Char) (ncards : Nat) : JsonObj :=
  match footer with
  | some f => f.update (footerData (manifest_sha256 lines) now ncards)
  | none => footerData (manifest_sha256 lines) now ncards

/-- `DatasetIO.save` (`am_common.py` lines 427-502): validate, mutate
header/audit, dump all lines, hash them into the footer, and assemble
the marker-delimited file. -/
def saveModel (header : JsonObj) (cards : List JsonObj)
    (audit : Option JsonObj) (footer : Option JsonObj)
    (now : List Char) : Option (List Char) :=
  if validate_structure header cards none ≠ [] then none
  else
    match saveLines header cards audit now with
    | none => none
    | some lines =>
      match jsonDumps (.obj (saveFooter footer lines now cards.length)) with
      | none => none
      | some fline =>
        some (DATASET_BEGIN ++ '\n' ::
          (((lines ++ [fline]).map (fun l => l ++ ['\n'])).flatten ++
            (DATASET_END ++ ['\n'])))

/-- Python `str.splitlines()` on texts whose only line terminator is
`'\n'` (every character of a saved body is either such a newline or a
non-control character, see `jsonDumps`): it coincides with
`split('\n')` except on the empty string and on a trailing terminator,
neither of which survives the `strip()` that `load` applies first. -/
def pySplitLines (s : List Char) : List (List Char) :=
  if s = [] then [] else splitOnChar '\n' s

/-- The sort key `load` uses: `c.get('segment_id', '')`.  Non-string
ids are unsupported (Python would raise `TypeError` inside `sort`); the
datasets under consideration carry string ids. -/
def sortKey (c : JsonObj) : List Char :=
  match JsonObj.get "segment_id".data c with
  | some (Json.str s) => s
  | _ => []

/-- Lexicographic strict order on code points (Python `str <`). -/
def strLt : List Char → List Char → Bool
  | [], [] => false
  | [], _ :: _ => true
  | _ :: _, [] => false
  | a :: as2, b :: bs =>
    if a < b then true else if b < a then false else strLt as2 bs

/-- Python `str <=`. -/
def strLe (a b : List Char) : Bool := !(strLt b a)

/-- The comparison `cards.sort(key=...)` sorts by. -/
def cardLe (c1 c2 : JsonObj) : Prop := strLe (sortKey c1) (sortKey c2) = true

instance : DecidableRel cardLe := fun c1 c2 =>
  inferInstanceAs (Decidable (strLe (sortKey c1) (sortKey c2) = true))

/-- The JSONL loop of `load`: skip blank lines, skip unparseable lines
(the source logs a warning), classify by `segment_id` (a non-dict JSON
line would raise `AttributeError` at `obj.get`). -/
def loadLoop : List (List Char) →
    JsonObj × List JsonObj × JsonObj × JsonObj →
    Except (List Char) (JsonObj × List JsonObj × JsonObj × JsonObj)
  | [], st => .ok st
  | line :: rest, (h, cs, a, f) =>
    if pyStrip line = [] then loadLoop rest (h, cs, a, f)
    else
      match jsonLoads line with
      | none => loadLoop rest (h, cs, a, f)
      | some (Json.obj o) =>
        if JsonObj.get "segment_id".data o =
            some (.str "__header__".data) then
          loadLoop rest (o, cs, a, f)
        else if JsonObj.get "segment_id".data o =
            some (.str "__audit__".data) then
          loadLoop rest (h, cs, o, f)
        else if JsonObj.get "segment_id".data o =
            some (.str "__footer__".data) then
          loadLoop rest (h, cs, a, o)
        else loadLoop rest (h, cs ++ [o], a, f)
      | some _ => .error "AttributeError".data

/-- Lines joined by newlines with no trailing terminator: what remains
of a saved body after the strip `load` applies. -/
def bodyJoin : List (List Char) → List Char
  | [] => []
  | [l] => l
  | l :: L => l ++ '\n' :: bodyJoin L

/-- `DatasetIO.load` (`am_common.py` lines 358-425) on the raw file
text: check markers, cut the body out, strip, split into lines, run the
classification loop, and sort the cards by `segment_id` —
without ever checking the stored manifest hash. -/
def loadModel (raw : List Char) :
    Except (List Char) (JsonObj × List JsonObj × JsonObj × JsonObj) :=
  if containsSub DATASET_BEGIN raw = false ∨
      containsSub DATASET_END raw = false then
    .error "Invalid dataset format: missing markers".data
  else
    match splitOnceAfter DATASET_BEGIN raw with
    | none => .error "Invalid dataset format: missing markers".data
    | some (_, afterBegin) =>
      match loadLoop
          (pySplitLines (pyStrip
            (match splitOnceAfter DATASET_END afterBegin with
             | none => afterBegin
             | some (body, _) => body)))
          (.nil, [], .nil, .nil) with
      | .error e => .error e
      | .ok (h, cs, a, f) => .ok (h, cs.insertionSort cardLe, a, f)


/-- A concrete demonstration header for the save/load round trip. -/
def c1Header : JsonObj := .cons "book".data (.str "B".data) .nil

/-- A concrete demonstration card for the save/load round trip. -/
def c1Card : JsonObj :=
  .cons "segment_id".data (.str "00001".data)
    (.cons "segment".data (.str "hello".data) .nil)

/-- A fixed timestamp for the demonstration dataset. -/
def c1Now : List Char := "2024-01-01T00:00:00Z".data

/-- The body lines `save` writes for the demonstration dataset. -/
def c1Lines : List (List Char) :=
  (saveLines c1Header [c1Card] none c1Now).getD []

/-- The serialized footer line of the demonstration dataset. -/
def c1Fline : List Char :=
  (jsonDumps (.obj (saveFooter none c1Lines c1Now 1))).getD []

/-- The complete file `save` writes for the demonstration dataset. -/
def c1File : List Char :=
  (saveModel c1Header [c1Card] none none c1Now).getD []

/-- Mutation of one character of a string, the file-corruption model of
the spec ("mutating any byte in the body"). -/
def mutateAt (i : Nat) (c : Char) (s : List Char) : List Char := s.set i c

/-- The demonstration file with one body byte flipped: the final letter
of the card text "hello" (file offset 191) becomes a "p". -/
def c1Tampered : List Char := mutateAt 191 'p' c1File

/-- The card the tampered file actually stores: text "hellp". -/
def c1TamperedCard : JsonObj :=
  .cons "segment_id".data (.str "00001".data)
    (.cons "segment".data (.str "hellp".data) .nil)

/-- The body lines of the tampered file (offset 40 of the card line is
the flipped byte). -/
def c1TamperedLines : List (List Char) :=
  match c1Lines with
  | [a, b] => [a, mutateAt 40 'p' b]
  | l => l

end AM

-- ===================== THEOREMS =====================

namespace AM

/-- The stage loop processed past a failure-free-of-critical-breaks prefix:
appending further stages continues from the prefix's final state. -/
theorem runSingleLoop_append {ι : Type}
    (rs : String → ι → Except String ι)
    (vq : String → ι → Option (Bool × Nat)) (vs : Bool)
    (l1 l2 : List String) (input : ι) (res : RunResults ι)
    (h : loopHalts rs l1 input = false) :
    runSingleLoop rs vq vs (l1 ++ l2) input res =
      runSingleLoop rs vq vs l2 (runSingleLoop rs vq vs l1 input res).2
        (runSingleLoop rs vq vs l1 input res).1 := by
  induction l1 generalizing input res with
  | nil => simp [runSingleLoop]
  | cons stage rest ih =>
    cases hrs : rs stage input with
    | ok out =>
      simp only [List.cons_append, runSingleLoop, loopHalts, hrs] at h ⊢
      exact ih out _ h
    | error e =>
      cases hcrit : isCriticalStage stage
      · simp only [List.cons_append, runSingleLoop, loopHalts, hrs, hcrit,
          Bool.false_eq_true, if_false] at h ⊢
        exact ih input _ h
      · simp only [loopHalts, hrs, hcrit, if_true] at h
        exact Bool.noConfusion h

/-- Claim C6: in `PipelineOrchestrator.run_single`, a failure of a
critical stage (`structural` or `finalize`) stops execution of all
remaining stages for that document — the final results are exactly those
accumulated up to and including the recorded failure; a failure of any
other stage is recorded, and the loop continues with the remaining stages
using the last successfully produced output `cur` (not the failed stage's
output) as the next stage's input.  Moreover the critical stages are
exactly `structural` and `finalize`. -/
theorem run_single_failure_semantics {ι : Type}
    (rs : String → ι → Except String ι)
    (vq : String → ι → Option (Bool × Nat)) (vs : Bool)
    (input : ι) (startStage endStage : String)
    (stages pre post : List String) (s : String) (e : String)
    (res1 : RunResults ι) (cur : ι)
    (hseq : getStageSequence startStage endStage = some stages)
    (hsplit : stages = pre ++ s :: post)
    (hpre : loopHalts rs pre input = false)
    (hloop : runSingleLoop rs vq vs pre input ⟨[], [], []⟩ = (res1, cur))
    (herr : rs s cur = .error e) :
    (isCriticalStage s = true →
      runSingle rs vq vs input startStage endStage =
        some ({ res1 with
                  stages := res1.stages ++ [(s, .failed e)],
                  errors := res1.errors ++ [(s, e)] }, cur,
              runStatus { res1 with
                  stages := res1.stages ++ [(s, .failed e)],
                  errors := res1.errors ++ [(s, e)] } stages))
    ∧ (isCriticalStage s = false →
      ∀ res2 cur2,
        runSingleLoop rs vq vs post cur
            { res1 with
                stages := res1.stages ++ [(s, .failed e)],
                errors := res1.errors ++ [(s, e)] } = (res2, cur2) →
        runSingle rs vq vs input startStage endStage =
          some (res2, cur2, runStatus res2 stages))
    ∧ (∀ t : String,
        isCriticalStage t = true ↔ t = "structural" ∨ t = "finalize") := by
  refine ⟨?_, ?_, ?_⟩
  · intro hc
    simp only [runSingle, hseq, hsplit]
    rw [runSingleLoop_append rs vq vs pre (s :: post) input ⟨[], [], []⟩ hpre,
      hloop]
    simp only [runSingleLoop, herr, hc, if_true]
  · intro hc res2 cur2 hloop2
    simp only [runSingle, hseq, hsplit]
    rw [runSingleLoop_append rs vq vs pre (s :: post) input ⟨[], [], []⟩ hpre,
      hloop]
    simp only [runSingleLoop, herr, hc, Bool.false_eq_true, if_false, hloop2]
  · intro t
    simp [isCriticalStage]

/-- Reading a key another `set` did not touch. -/
theorem JsonObj.get_set_ne (k k2 : List Char) (v : Json) (h : k ≠ k2) :
    (o : JsonObj) → (o.set k v).get k2 = o.get k2
  | .nil => by simp [JsonObj.set, JsonObj.get, h]
  | .cons k3 v3 tl => by
    by_cases h3 : k3 = k
    · subst h3
      simp [JsonObj.set, JsonObj.get, h]
    · simp only [JsonObj.set, if_neg h3, JsonObj.get,
        JsonObj.get_set_ne k k2 v h tl]
  termination_by structural o => o

/-- An always-raising strategy's retry loop:三 calls with the two
backoff sleeps in between, then exhaustion. -/
theorem runAttempts_raises (s : Strategy) (h : s.call = .raises) :
    runAttempts s MAX_RETRIES =
      (.exhausted, [.call s.name, .sleep (getDelay 0), .call s.name,
        .sleep (getDelay 1), .call s.name]) := by
  show runAttempts s 3 = _
  rw [show (3 : Nat) = 2 + 1 by rfl, runAttempts, h]
  rw [show (2 : Nat) = 1 + 1 by rfl, runAttempts, h]
  rw [runAttempts, h]
  simp [MAX_RETRIES]

/-- A strategy that returns an empty text: a single call, no retry. -/
theorem runAttempts_empty (s : Strategy) (conf : Option ℚ)
    (h : s.call = .returns [] conf) :
    runAttempts s MAX_RETRIES = (.exhausted, [.call s.name]) := by
  show runAttempts s 3 = _
  rw [show (3 : Nat) = 2 + 1 by rfl, runAttempts, h]
  simp

/-- `countCalls` distributes over trace concatenation. -/
theorem countCalls_append (name : String) (a b : List TraceEv) :
    countCalls name (a ++ b) = countCalls name a + countCalls name b := by
  induction a with
  | nil => simp [countCalls]
  | cons ev tr ih =>
    cases ev with
    | call n => simp [countCalls, ih, Nat.add_assoc]
    | sleep d => simp [countCalls, ih]

/-- The retry loop only ever calls its own strategy. -/
theorem countCalls_runAttempts_ne (s : Strategy) (name : String)
    (h : s.name ≠ name) (n : Nat) :
    countCalls name (runAttempts s n).2 = 0 := by
  induction n with
  | zero => simp [runAttempts, countCalls]
  | succ n ih =>
    rw [runAttempts]
    cases s.call with
    | returns text conf =>
      simp only []
      split
      · split <;> simp [countCalls, h]
      · split <;> simp [countCalls, h]
    | raises =>
      by_cases hn : n = 0
      · simp [hn, countCalls, h]
      · simp [hn, countCalls, h, ih]

/-- The retry loop calls its own strategy at least once when an attempt
remains. -/
theorem countCalls_runAttempts_self (s : Strategy) (n : Nat) :
    1 ≤ countCalls s.name (runAttempts s (n + 1)).2 := by
  rw [runAttempts]
  cases s.call with
  | returns text conf =>
    simp only []
    split
    · split <;> simp [countCalls]
    · split <;> simp [countCalls]
  | raises =>
    by_cases hn : n = 0
    · simp [hn, countCalls]
    · simp [hn, countCalls]

/-- The non-OCR preview never invokes the OCR strategy. -/
theorem countCalls_previewGo_ocr (l : List Strategy) :
    countCalls "ocr" (previewGo l).2 = 0 := by
  induction l with
  | nil => simp [previewGo, countCalls]
  | cons s rest ih =>
    rw [previewGo]
    by_cases h : s.name = "ocr"
    · simp [h, ih]
    · simp only [h, if_false, Bool.false_eq_true]
      cases hc : s.call with
      | raises => simp [countCalls, h, ih]
      | returns text conf => simp [countCalls, h]

/-- When every strategy of (a suffix of) the chain bears one of the four
extractor names, a `NONE` extraction method forces an empty text. -/
theorem extractGo_method_none_text_empty (all : List Strategy)
    (cfg : BlankConfig) (page : Nat) (l : List Strategy)
    (hnames : ∀ s ∈ l,
      s.name ∈ (["pdfminer", "pdfplumber", "pypdf2", "ocr"] : List String))
    (hm : (extractGo all cfg page l).1.2.1 = .nonE) :
    (extractGo all cfg page l).1.1 = [] := by
  induction l with
  | nil => rfl
  | cons s rest ih =>
    rw [extractGo] at hm ⊢
    by_cases hocr : s.name = "ocr" ∧ needsOcr cfg (previewGo all).1 page = false
    · rw [if_pos hocr] at hm ⊢
      by_cases hp : (previewGo all).1 ≠ []
      · rw [if_pos hp] at hm
        exact absurd (show ExtractionMethod.pdfplumber = .nonE from hm)
          (by decide)
      · rw [if_neg hp]
    · rw [if_neg hocr] at hm ⊢
      rcases hra : runAttempts s MAX_RETRIES with ⟨out, tr⟩
      rw [hra] at hm
      cases out with
      | accepted t conf =>
        exfalso
        have hm2 : methodOfName s.name = .nonE := hm
        have hs := hnames s (by simp)
        simp only [List.mem_cons, List.not_mem_nil, or_false] at hs
        rcases hs with h | h | h | h <;> rw [h] at hm2 <;>
          exact absurd hm2 (by decide)
      | exhausted =>
        have hm2 : (extractGo all cfg page rest).1.2.1 = .nonE := hm
        exact ih (fun t ht => hnames t (by simp [ht])) hm2

/-- A call of a strategy named `ocr` in an `extract` trace implies the
blank-page detector demanded OCR for the non-OCR preview. -/
theorem extractGo_ocr_call_needs_ocr (all : List Strategy)
    (cfg : BlankConfig) (page : Nat) (l : List Strategy)
    (h : 1 ≤ countCalls "ocr" (extractGo all cfg page l).2) :
    needsOcr cfg (previewGo all).1 page = true := by
  induction l with
  | nil => simp [extractGo, countCalls] at h
  | cons s rest ih =>
    rw [extractGo] at h
    by_cases hocr : s.name = "ocr" ∧ needsOcr cfg (previewGo all).1 page = false
    · exfalso
      rw [if_pos hocr] at h
      by_cases hp : (previewGo all).1 ≠ []
      · rw [if_pos hp] at h
        have h2 : 1 ≤ countCalls "ocr" (previewGo all).2 := h
        rw [countCalls_previewGo_ocr] at h2
        omega
      · rw [if_neg hp] at h
        have h2 : 1 ≤ countCalls "ocr" (previewGo all).2 := h
        rw [countCalls_previewGo_ocr] at h2
        omega
    · rw [if_neg hocr] at h
      by_cases hname : s.name = "ocr"
      · rcases Bool.eq_false_or_eq_true (needsOcr cfg (previewGo all).1 page)
          with hneeds | hneeds
        · exact hneeds
        · exact absurd ⟨hname, hneeds⟩ hocr
      · rcases hra : runAttempts s MAX_RETRIES with ⟨out, tr⟩
        rw [hra] at h
        have htr : countCalls "ocr" tr = 0 := by
          have h5 := countCalls_runAttempts_ne s "ocr" hname MAX_RETRIES
          rw [hra] at h5
          exact h5
        have hpre : countCalls "ocr"
            (if s.name = "ocr" then (previewGo all).2 else []) = 0 := by
          rw [if_neg hname]
          rfl
        cases out with
        | accepted t conf =>
          exfalso
          have h2 : 1 ≤ countCalls "ocr"
              ((if s.name = "ocr" then (previewGo all).2 else []) ++ tr) := h
          rw [countCalls_append, hpre, htr] at h2
          omega
        | exhausted =>
          rcases hgo : extractGo all cfg page rest with ⟨r2, tr2⟩
          rw [hgo] at h
          apply ih
          rw [hgo]
          have h2 : 1 ≤ countCalls "ocr"
              ((if s.name = "ocr" then (previewGo all).2 else []) ++ tr
                ++ tr2) := h
          rw [countCalls_append, countCalls_append, hpre, htr] at h2
          simpa using h2

/-- Claim C7: an always-raising strategy reached by the chain walk is
attempted exactly `MAX_RETRIES = 3` times, with sleeps of
`get_delay(0)` and `get_delay(1)` between the consecutive attempts, and
then the walk proceeds to the rest of the chain; the delays follow
`min(INITIAL_DELAY * BACKOFF_FACTOR^attempt, MAX_DELAY)`, are
non-decreasing and capped at `MAX_DELAY`; a strategy returning an empty
result without raising is called exactly once (not retried) before the
walk proceeds. -/
theorem chain_retry_bound :
    (∀ (all : List Strategy) (cfg : BlankConfig) (page : Nat)
       (s : Strategy) (rest : List Strategy),
       s.call = .raises →
       (s.name = "ocr" → needsOcr cfg (previewGo all).1 page = true) →
       extractGo all cfg page (s :: rest) =
         ((extractGo all cfg page rest).1,
          (if s.name = "ocr" then (previewGo all).2 else []) ++
          ([.call s.name, .sleep (getDelay 0), .call s.name,
            .sleep (getDelay 1), .call s.name] ++
            (extractGo all cfg page rest).2)))
    ∧ (∀ i : Nat,
        getDelay i = min (INITIAL_DELAY * BACKOFF_FACTOR ^ i) MAX_DELAY)
    ∧ (∀ i j : Nat, i ≤ j → getDelay i ≤ getDelay j)
    ∧ (∀ i : Nat, getDelay i ≤ MAX_DELAY)
    ∧ (∀ (all : List Strategy) (cfg : BlankConfig) (page : Nat)
         (s : Strategy) (rest : List Strategy) (conf : Option ℚ),
         s.call = .returns [] conf →
         (s.name = "ocr" → needsOcr cfg (previewGo all).1 page = true) →
         extractGo all cfg page (s :: rest) =
           ((extractGo all cfg page rest).1,
            (if s.name = "ocr" then (previewGo all).2 else []) ++
            (.call s.name :: (extractGo all cfg page rest).2))) := by
  refine ⟨?_, fun i => rfl, ?_, ?_, ?_⟩
  · intro all cfg page s rest hs hocr
    rw [extractGo]
    have hcond : ¬ (s.name = "ocr" ∧
        needsOcr cfg (previewGo all).1 page = false) := by
      rintro ⟨h1, h2⟩
      rw [hocr h1] at h2
      exact Bool.noConfusion h2
    simp only [hcond, if_false, runAttempts_raises s hs]
    rcases hgo : extractGo all cfg page rest with ⟨r2, tr2⟩
    simp
  · intro i j hij
    simp only [getDelay, INITIAL_DELAY, BACKOFF_FACTOR, MAX_DELAY, one_mul]
    exact min_le_min (pow_le_pow_right₀ (by norm_num) hij) le_rfl
  · intro i
    simp only [getDelay]
    exact min_le_right _ _
  · intro all cfg page s rest conf hs hocr
    rw [extractGo]
    have hcond : ¬ (s.name = "ocr" ∧
        needsOcr cfg (previewGo all).1 page = false) := by
      rintro ⟨h1, h2⟩
      rw [hocr h1] at h2
      exact Bool.noConfusion h2
    simp only [hcond, if_false, runAttempts_empty s conf hs]
    rcases hgo : extractGo all cfg page rest with ⟨r2, tr2⟩
    simp

/-- Witness for C7: a concrete chain of an always-raising `pdfminer`
followed by an always-raising `pypdf2`: three attempts each, with the
1-second and 2-second backoff sleeps, and the walk moved on. -/
theorem chain_retry_bound_witness :
    getDelay 0 = 1 ∧ getDelay 1 = 2 ∧
    extractGo [⟨"pdfminer", .raises⟩, ⟨"pypdf2", .raises⟩] {} 0
        [⟨"pdfminer", .raises⟩, ⟨"pypdf2", .raises⟩] =
      (([], .nonE, none),
       [.call "pdfminer", .sleep (getDelay 0), .call "pdfminer",
        .sleep (getDelay 1), .call "pdfminer",
        .call "pypdf2", .sleep (getDelay 0), .call "pypdf2",
        .sleep (getDelay 1), .call "pypdf2"]) := by
  refine ⟨by norm_num [getDelay, INITIAL_DELAY, BACKOFF_FACTOR, MAX_DELAY],
    by norm_num [getDelay, INITIAL_DELAY, BACKOFF_FACTOR, MAX_DELAY], ?_⟩
  rw [chain_retry_bound.1 [⟨"pdfminer", .raises⟩, ⟨"pypdf2", .raises⟩] {} 0
    ⟨"pdfminer", .raises⟩ [⟨"pypdf2", .raises⟩] rfl
    (fun hx => absurd hx (by decide)),
    chain_retry_bound.1 [⟨"pdfminer", .raises⟩, ⟨"pypdf2", .raises⟩] {} 0
    ⟨"pypdf2", .raises⟩ [] rfl (fun hx => absurd hx (by decide))]
  rfl

/-- Counterexample to C2 as stated: a chain whose single (always-raising)
strategy is exhausted produces, through `_process_page`, a card with
`extraction_method = "none"` and empty text but **no** `error` key at all
(`error == true` fails — the card's `error` lookup yields `None`). -/
theorem exhausted_chain_card_no_error_flag :
    (extract [⟨"pdfminer", .raises⟩] {} 0).1.2.1 = .nonE ∧
    (processPage [⟨"pdfminer", .raises⟩] {} 0 "book.pdf".data []).get
        "error".data = none ∧
    (processPage [⟨"pdfminer", .raises⟩] {} 0 "book.pdf".data []).get
        "extraction_method".data = some (.str "none".data) ∧
    (processPage [⟨"pdfminer", .raises⟩] {} 0 "book.pdf".data []).get
        "segment".data = some (.str []) := by
  refine ⟨rfl, ?_, ?_, ?_⟩ <;> decide

/-- Claim C2, amended: when the chain is exhausted without an accepted
result (extraction method `NONE`), the produced page card has empty text
and `extraction_method = "none"`, but its `error` key is *absent* (not
`true`); more generally a `NONE` method forces empty text for any chain
built of the four extractor names; `error: true` is only ever written by
`_create_error_card` (the page-level exception path), whose card also has
empty text and method `"none"`. -/
theorem exhausted_chain_card_shape :
    (∀ (all : List Strategy) (cfg : BlankConfig) (page : Nat),
      (∀ s ∈ all, s.name ∈
        (["pdfminer", "pdfplumber", "pypdf2", "ocr"] : List String)) →
      (extract all cfg page).1.2.1 = .nonE →
      (extract all cfg page).1.1 = [])
    ∧ (∀ (all : List Strategy) (cfg : BlankConfig) (page : Nat)
         (src : List Char) (tables : List Json),
        (∀ s ∈ all, s.name ∈
          (["pdfminer", "pdfplumber", "pypdf2", "ocr"] : List String)) →
        (extract all cfg page).1.2.1 = .nonE →
        (processPage all cfg page src tables).get "segment".data =
            some (.str []) ∧
        (processPage all cfg page src tables).get
            "extraction_method".data = some (.str "none".data) ∧
        (processPage all cfg page src tables).get "error".data = none)
    ∧ (∀ (page : Nat) (src : List Char),
        (createErrorCard page src).get "error".data = some (.bool true) ∧
        (createErrorCard page src).get "extraction_method".data =
          some (.str "none".data) ∧
        (createErrorCard page src).get "segment".data = some (.str [])) := by
  refine ⟨?_, ?_, ?_⟩
  · intro all cfg page hnames hm
    exact extractGo_method_none_text_empty all cfg page all hnames hm
  · intro all cfg page src tables hnames hm
    have htext : (extract all cfg page).1.1 = [] :=
      extractGo_method_none_text_empty all cfg page all hnames hm
    simp only [processPage]
    rw [hm, htext]
    by_cases ht : tables ≠ []
    · rw [if_pos ht]
      exact ⟨rfl, rfl, rfl⟩
    · rw [if_neg ht]
      exact ⟨rfl, rfl, rfl⟩
  · intro page src
    exact ⟨rfl, rfl, rfl⟩

/-- Witness for (the amended) C2 at a chain of two always-raising
strategies. -/
theorem exhausted_chain_card_shape_witness :
    (extract [⟨"pdfplumber", .raises⟩, ⟨"pypdf2", .raises⟩] {} 4).1.1 = []
    ∧ (processPage [⟨"pdfplumber", .raises⟩, ⟨"pypdf2", .raises⟩] {} 4
        "b.pdf".data []).get "error".data = none := by
  constructor
  · exact exhausted_chain_card_shape.1
      [⟨"pdfplumber", .raises⟩, ⟨"pypdf2", .raises⟩] {} 4 (by decide) rfl
  · exact (exhausted_chain_card_shape.2.1
      [⟨"pdfplumber", .raises⟩, ⟨"pypdf2", .raises⟩] {} 4 "b.pdf".data []
      (by decide) rfl).2.2

/-- Counterexample to C4 as stated: a truly blank page (empty non-OCR
preview) has preview length `0`, strictly below the OCR threshold `50`,
yet the OCR strategy is never invoked (the blank-page detector suppresses
it), refuting "for every page whose preview text length is below
`min_chars_ocr` the chain invokes the OCR strategy". -/
theorem blank_page_below_threshold_skips_ocr :
    (pyStrip (previewGo
        [⟨"pdfminer", .returns [] none⟩,
         ⟨"ocr", .returns
           "well this page would have plenty of ocr text to offer".data
           (some (9/10))⟩]).1).length <
      ({} : BlankConfig).min_chars_ocr ∧
    countCalls "ocr"
      (extract
        [⟨"pdfminer", .returns [] none⟩,
         ⟨"ocr", .returns
           "well this page would have plenty of ocr text to offer".data
           (some (9/10))⟩] {} 6).2 = 0 := by
  constructor
  · decide
  · rfl

/-- Claim C4, amended: the OCR strategy is invoked **iff** the fallback
walk reaches the chain's OCR entry and the blank-page detector reports
`needs_ocr` for the non-OCR preview; in particular any invocation of OCR
implies the preview's stripped length is below `min_chars_ocr` (so a page
at or above the threshold never invokes OCR), while a below-threshold
page invokes OCR only when it is not classified truly blank. -/
theorem ocr_invocation_characterization :
    (∀ (all : List Strategy) (cfg : BlankConfig) (page : Nat),
      1 ≤ countCalls "ocr" (extract all cfg page).2 →
      needsOcr cfg (previewGo all).1 page = true ∧
      (pyStrip (previewGo all).1).length < cfg.min_chars_ocr ∧
      isTrulyBlank cfg (previewGo all).1 page = false)
    ∧ (∀ (all : List Strategy) (cfg : BlankConfig) (page : Nat)
        (s : Strategy) (rest : List Strategy),
        s.name = "ocr" →
        needsOcr cfg (previewGo all).1 page = true →
        1 ≤ countCalls "ocr" (extractGo all cfg page (s :: rest)).2) := by
  constructor
  · intro all cfg page h
    have hneeds := extractGo_ocr_call_needs_ocr all cfg page all h
    refine ⟨hneeds, ?_, ?_⟩
    · by_cases hb : isTrulyBlank cfg (previewGo all).1 page = true
      · rw [needsOcr, if_pos hb] at hneeds
        exact Bool.noConfusion hneeds
      · rw [needsOcr, if_neg hb] at hneeds
        exact of_decide_eq_true hneeds
    · by_cases hb : isTrulyBlank cfg (previewGo all).1 page = true
      · rw [needsOcr, if_pos hb] at hneeds
        exact Bool.noConfusion hneeds
      · exact Bool.eq_false_iff.mpr hb
  · intro all cfg page s rest hname hneeds
    rw [extractGo]
    have hcond : ¬ (s.name = "ocr" ∧
        needsOcr cfg (previewGo all).1 page = false) := by
      rintro ⟨-, h2⟩
      rw [hneeds] at h2
      exact Bool.noConfusion h2
    rw [if_neg hcond]
    rcases hra : runAttempts s MAX_RETRIES with ⟨out, tr⟩
    have htr : 1 ≤ countCalls "ocr" tr := by
      have h5 := countCalls_runAttempts_self s (MAX_RETRIES - 1)
      rw [show MAX_RETRIES - 1 + 1 = MAX_RETRIES from rfl, hra, hname] at h5
      exact h5
    cases out with
    | accepted t conf =>
      have hres : countCalls "ocr"
          ((if s.name = "ocr" then (previewGo all).2 else []) ++ tr) =
          countCalls "ocr" (if s.name = "ocr" then (previewGo all).2 else [])
            + countCalls "ocr" tr := countCalls_append _ _ _
      show 1 ≤ countCalls "ocr"
        ((if s.name = "ocr" then (previewGo all).2 else []) ++ tr)
      rw [hres]
      omega
    | exhausted =>
      rcases hgo : extractGo all cfg page rest with ⟨r2, tr2⟩
      show 1 ≤ countCalls "ocr"
        ((if s.name = "ocr" then (previewGo all).2 else []) ++ tr ++ tr2)
      rw [countCalls_append, countCalls_append]
      omega

/-- Witness for (the amended) C4: a preview of 11 stripped characters on
page index 6 (not front matter) needs OCR, and OCR is indeed invoked. -/
theorem ocr_invocation_characterization_witness :
    needsOcr {} (previewGo
      [⟨"pdfminer", .returns ("a".data ++ List.replicate 9 ' ' ++ "a".data)
          none⟩, ⟨"ocr", .raises⟩]).1 6 = true ∧
    1 ≤ countCalls "ocr"
      (extractGo
        [⟨"pdfminer", .returns ("a".data ++ List.replicate 9 ' ' ++ "a".data)
            none⟩, ⟨"ocr", .raises⟩] {} 6 [⟨"ocr", .raises⟩]).2 := by
  constructor
  · decide
  · exact ocr_invocation_characterization.2
      [⟨"pdfminer", .returns ("a".data ++ List.replicate 9 ' ' ++ "a".data)
          none⟩, ⟨"ocr", .raises⟩] {} 6 ⟨"ocr", .raises⟩ [] rfl (by decide)

/-- Counterexample to C5 as stated: the preview text is produced by the
strategy named `pdfminer` (the single call in the preview trace), the
blank-page detector declines OCR, and the chain records method
`PDFPLUMBER` — although no strategy of the chain is even named
`pdfplumber`.  The recorded method is not the strategy that produced the
preview. -/
theorem preview_accept_method_not_origin :
    (previewGo
        [⟨"pdfminer", .returns ("a".data ++ List.replicate 60 ' '
            ++ "a".data) none⟩, ⟨"ocr", .raises⟩]).2 =
      [.call "pdfminer"] ∧
    (extract
        [⟨"pdfminer", .returns ("a".data ++ List.replicate 60 ' '
            ++ "a".data) none⟩, ⟨"ocr", .raises⟩] {} 6).1.2.1 =
      .pdfplumber ∧
    (([⟨"pdfminer", .returns ("a".data ++ List.replicate 60 ' '
        ++ "a".data) none⟩, ⟨"ocr", .raises⟩] : List Strategy).map
      Strategy.name).contains "pdfplumber" = false := by
  refine ⟨rfl, ?_, by decide⟩
  rfl

/-- Claim C5, amended: whenever the blank-page classifier decides OCR is
not needed and the chain accepts the non-empty non-OCR preview text, the
extraction method recorded for that page is the hard-coded constant
`PDFPLUMBER` — not (in general) the native strategy that produced the
preview — and the raw preview text is returned unchanged with no
confidence. -/
theorem preview_accept_method_hardcoded (all : List Strategy)
    (cfg : BlankConfig) (page : Nat) (s : Strategy) (rest : List Strategy)
    (hname : s.name = "ocr")
    (hneeds : needsOcr cfg (previewGo all).1 page = false)
    (hp : (previewGo all).1 ≠ []) :
    extractGo all cfg page (s :: rest) =
      (((previewGo all).1, .pdfplumber, none), (previewGo all).2) := by
  rw [extractGo, if_pos ⟨hname, hneeds⟩, if_pos hp]

/-- Witness for (the amended) C5 at the concrete chain of the
counterexample. -/
theorem preview_accept_method_hardcoded_witness :
    extractGo
        [⟨"pdfminer", .returns ("a".data ++ List.replicate 60 ' '
            ++ "a".data) none⟩, ⟨"ocr", .raises⟩] {} 6
        [⟨"ocr", .raises⟩] =
      (((previewGo
          [⟨"pdfminer", .returns ("a".data ++ List.replicate 60 ' '
              ++ "a".data) none⟩, ⟨"ocr", .raises⟩]).1,
        .pdfplumber, none),
       (previewGo
          [⟨"pdfminer", .returns ("a".data ++ List.replicate 60 ' '
              ++ "a".data) none⟩, ⟨"ocr", .raises⟩]).2) :=
  preview_accept_method_hardcoded
    [⟨"pdfminer", .returns ("a".data ++ List.replicate 60 ' '
        ++ "a".data) none⟩, ⟨"ocr", .raises⟩] {} 6 ⟨"ocr", .raises⟩ []
    rfl (by decide) (by decide)

/-- Witness for C6 at a concrete pipeline run: the recoverable stage
`summarize` fails, the critical stage query is as stated, and the run
continues into `extended` with the last successful output. -/
theorem run_single_failure_semantics_witness :
    (isCriticalStage "summarize" = false) ∧
    (runSingle (ι := String)
        (fun st inp => if st = "summarize" then .error "boom"
                       else .ok (inp ++ "/" ++ st))
        (fun _ _ => some (true, 0)) true "in" "structural" "embed" =
      some (⟨[("structural", .success "in/structural"),
              ("structure_detect", .success "in/structural/structure_detect"),
              ("summarize", .failed "boom"),
              ("extended",
                .success "in/structural/structure_detect/extended"),
              ("finalize",
                .success "in/structural/structure_detect/extended/finalize"),
              ("chunk",
                .success
                  "in/structural/structure_detect/extended/finalize/chunk"),
              ("embed",
                .success
                  "in/structural/structure_detect/extended/finalize/chunk/embed")],
             [("summarize", "boom")], []⟩,
            "in/structural/structure_detect/extended/finalize/chunk/embed",
            "partial")) := by
  constructor
  · decide
  · exact ((run_single_failure_semantics
      (fun st inp => if st = "summarize" then .error "boom"
                     else .ok (inp ++ "/" ++ st))
      (fun _ _ => some (true, 0)) true "in" "structural" "embed"
      ["structural", "structure_detect", "summarize", "extended", "finalize",
        "chunk", "embed"]
      ["structural", "structure_detect"] ["extended", "finalize", "chunk",
        "embed"] "summarize" "boom"
      ⟨[("structural", .success "in/structural"),
        ("structure_detect", .success "in/structural/structure_detect")],
        [], []⟩
      "in/structural/structure_detect"
      (by rfl) (by rfl) (by rfl) (by rfl) (by rfl)).2.1 rfl _ _ rfl)

/-- Looking up the bucket just bumped. -/
theorem bucketLookup_bump_self (acc : List (List Char × List Nat))
    (h : List Char) (p : Nat) :
    bucketLookup h (bumpBucket acc h p) =
      some ((bucketLookup h acc).getD [] ++ [p]) := by
  induction acc with
  | nil => simp [bumpBucket, bucketLookup]
  | cons e tl ih =>
    rcases e with ⟨k, ps⟩
    by_cases hk : k = h
    · subst hk
      simp [bumpBucket, bucketLookup]
    · simp [bumpBucket, bucketLookup, hk, ih]

/-- Bumping another bucket leaves a lookup unchanged. -/
theorem bucketLookup_bump_ne (acc : List (List Char × List Nat))
    (h h2 : List Char) (p : Nat) (hne : h2 ≠ h) :
    bucketLookup h (bumpBucket acc h2 p) = bucketLookup h acc := by
  induction acc with
  | nil => simp [bumpBucket, bucketLookup, hne]
  | cons e tl ih =>
    rcases e with ⟨k, ps⟩
    by_cases hk : k = h2
    · subst hk
      simp [bumpBucket, bucketLookup, hne]
    · simp [bumpBucket, bucketLookup, hk, ih]

/-- A successful bucket lookup is a bucket of the list. -/
theorem bucketLookup_mem (l : List (List Char × List Nat)) (h : List Char)
    (ps : List Nat) (hl : bucketLookup h l = some ps) : (h, ps) ∈ l := by
  induction l with
  | nil => simp [bucketLookup] at hl
  | cons e tl ih =>
    rcases e with ⟨k, qs⟩
    by_cases hk : k = h
    · subst hk
      rw [bucketLookup, if_pos rfl] at hl
      injection hl with hl
      subst hl
      exact List.mem_cons_self _ _
    · simp only [bucketLookup, if_neg hk] at hl
      exact List.mem_cons_of_mem _ (ih hl)

/-- Splitting `pagesOf` at a cons. -/
theorem pagesOf_cons (h : List Char) (c : XCard) (rest : List XCard) :
    pagesOf h (c :: rest) =
      (if qualifies c ∧ textHash c.segment = h then [c.page_num] else [])
        ++ pagesOf h rest := by
  by_cases hc : qualifies c ∧ textHash c.segment = h
  · simp [pagesOf, List.filter_cons, hc]
  · simp only [pagesOf, List.filter_cons]
    rw [if_neg (by simpa using hc), if_neg hc]
    simp

/-- Characterization of the `seen_hashes` buckets built by the first
pass of `detect_duplicates`: the bucket of `h` holds the previously
accumulated pages followed by the pages of the qualifying cards whose
content hash is `h`, in card order. -/
theorem collect_lookup (cards : List XCard) :
    ∀ (acc : List (List Char × List Nat)) (h : List Char),
    bucketLookup h (collectHashes cards acc) =
      (bucketLookup h acc).elim
        (if pagesOf h cards = [] then none else some (pagesOf h cards))
        (fun ps => some (ps ++ pagesOf h cards)) := by
  induction cards with
  | nil =>
    intro acc h
    rw [collectHashes]
    cases hacc : bucketLookup h acc <;> simp [pagesOf]
  | cons c rest ih =>
    intro acc h
    rw [collectHashes]
    by_cases hq : (pyStrip c.segment).length < 50
    · rw [if_pos hq, ih]
      have hpg : pagesOf h (c :: rest) = pagesOf h rest := by
        rw [pagesOf_cons,
          if_neg (by simp [qualifies]; omega)]
        simp
      rw [hpg]
    · rw [if_neg hq, ih]
      have hqual : qualifies c = true := by
        simp only [qualifies, decide_eq_true_eq]
        omega
      by_cases hh : textHash c.segment = h
      · rw [hh, bucketLookup_bump_self]
        have hpg : pagesOf h (c :: rest) = c.page_num :: pagesOf h rest := by
          rw [pagesOf_cons, if_pos ⟨by simp [hqual], hh⟩]
          simp
        rw [hpg]
        cases hacc : bucketLookup h acc <;> simp
      · rw [bucketLookup_bump_ne _ _ _ _ hh]
        have hpg : pagesOf h (c :: rest) = pagesOf h rest := by
          rw [pagesOf_cons, if_neg (by simp [hh])]
          simp
        rw [hpg]

/-- Membership in `detect_duplicates`' result. -/
theorem mem_detectDuplicates (cards : List XCard) (g : DupGroup) :
    g ∈ detectDuplicates cards ↔
      ∃ pr ∈ collectHashes cards [], 2 ≤ pr.2.length ∧
        g = ⟨sortPages pr.2, 1, "exact".data⟩ := by
  unfold detectDuplicates
  rw [List.mem_filterMap]
  constructor
  · rintro ⟨pr, hmem, hf⟩
    by_cases h2 : 2 ≤ pr.2.length
    · rw [if_pos h2, Option.some.injEq] at hf
      exact ⟨pr, hmem, h2, hf.symm⟩
    · rw [if_neg h2] at hf
      exact absurd hf (by simp)
  · rintro ⟨pr, hmem, h2, hg⟩
    exact ⟨pr, hmem, by rw [if_pos h2, hg]⟩

/-- Bumping a bucket adds exactly one page to the bucket contents. -/
theorem bump_pages_perm (acc : List (List Char × List Nat)) (h : List Char)
    (p : Nat) :
    List.Perm (bucketPages (bumpBucket acc h p)) (p :: bucketPages acc) := by
  induction acc with
  | nil => simp [bumpBucket, bucketPages]
  | cons e tl ih =>
    rcases e with ⟨k, ps⟩
    by_cases hk : k = h
    · subst hk
      rw [bumpBucket, if_pos rfl]
      simp only [bucketPages, List.map_cons, List.flatten_cons]
      rw [List.append_assoc]
      exact List.perm_middle
    · rw [bumpBucket, if_neg hk]
      simp only [bucketPages, List.map_cons, List.flatten_cons]
      exact (List.Perm.append_left ps ih).trans List.perm_middle

/-- The bucket contents after the first pass are (a permutation of) the
accumulated pages plus the pages of all qualifying cards. -/
theorem collect_pages_perm (cards : List XCard) :
    ∀ acc, List.Perm (bucketPages (collectHashes cards acc))
      (bucketPages acc ++ (cards.filter qualifies).map XCard.page_num) := by
  induction cards with
  | nil => intro acc; simp [collectHashes]
  | cons c rest ih =>
    intro acc
    rw [collectHashes]
    by_cases hq : (pyStrip c.segment).length < 50
    · rw [if_pos hq]
      have hfil : (c :: rest).filter qualifies = rest.filter qualifies := by
        rw [List.filter_cons,
          if_neg (by simp [qualifies]; omega)]
      rw [hfil]
      exact ih acc
    · rw [if_neg hq]
      have hqual : qualifies c = true := by
        simp only [qualifies, decide_eq_true_eq]
        omega
      have hfil : (c :: rest).filter qualifies =
          c :: rest.filter qualifies := by
        rw [List.filter_cons, if_pos (by simp [hqual])]
      rw [hfil]
      refine ((ih _).trans
        (List.Perm.append_right _ (bump_pages_perm _ _ _))).trans ?_
      simp only [List.map_cons, List.cons_append]
      exact List.perm_middle.symm

/-- `getD` through a `map`, below the length. -/
theorem getD_map_lt (l : List XCard) (f : XCard → XCard) (k : Nat)
    (d : XCard) (hk : k < l.length) :
    (l.map f).getD k d = f (l.getD k d) := by
  rw [List.getD_eq_getElem?_getD, List.getD_eq_getElem?_getD,
    List.getElem?_map, List.getElem?_eq_getElem hk]
  simp

/-- Under page-number injectivity, every bucket holds distinct pages and
different buckets hold disjoint pages. -/
theorem collect_buckets_nodup (cards : List XCard)
    (hnodup : (cards.map XCard.page_num).Nodup) :
    (∀ pr ∈ collectHashes cards [], pr.2.Nodup) ∧
    (collectHashes cards []).Pairwise (fun a b => ∀ x ∈ a.2, x ∉ b.2) := by
  have hperm := collect_pages_perm cards []
  have hsub : ((cards.filter qualifies).map XCard.page_num).Nodup :=
    List.Nodup.sublist (List.Sublist.map _ (List.filter_sublist _)) hnodup
  have hflat : (bucketPages (collectHashes cards [])).Nodup := by
    refine (List.Perm.nodup_iff hperm).mpr ?_
    simpa [bucketPages] using hsub
  rw [bucketPages, List.nodup_flatten] at hflat
  obtain ⟨h1, h2⟩ := hflat
  constructor
  · intro pr hpr
    exact h1 pr.2 (List.mem_map_of_mem _ hpr)
  · rw [List.pairwise_map] at h2
    exact h2.imp (fun hd x hx hx2 => hd hx hx2)

/-- Structural properties of every detected duplicate group: nonempty,
duplicate-free, ascending pages whose head is the minimum. -/
theorem detectDuplicates_groups (cards : List XCard)
    (hnodup : (cards.map XCard.page_num).Nodup) :
    ∀ g ∈ detectDuplicates cards,
      g.pages ≠ [] ∧ g.pages.Nodup ∧
      (∀ p ∈ g.pages, g.pages.headD 0 ≤ p) := by
  intro g hg
  obtain ⟨pr, hpr, h2, hgeq⟩ := (mem_detectDuplicates _ _).mp hg
  have hperm : List.Perm (sortPages pr.2) pr.2 :=
    List.perm_insertionSort _ _
  have hne : sortPages pr.2 ≠ [] := by
    intro h0
    have := hperm.length_eq
    rw [h0] at this
    simp at this
    omega
  have hnd : (sortPages pr.2).Nodup :=
    (List.Perm.nodup_iff hperm).mpr
      ((collect_buckets_nodup cards hnodup).1 pr hpr)
  have hsorted : (sortPages pr.2).Sorted (· ≤ ·) :=
    List.sorted_insertionSort _ _
  subst hgeq
  refine ⟨hne, hnd, ?_⟩
  intro p hp
  rcases hps : sortPages pr.2 with _ | ⟨a, t⟩
  · rw [hps] at hp
    cases hp
  · rw [hps] at hp hsorted
    show List.headD (a :: t) 0 ≤ p
    simp only [List.headD_cons]
    have hp2 : p ∈ a :: t := hp
    rcases List.mem_cons.mp hp2 with h | h
    · exact le_of_eq h.symm
    · exact List.rel_of_sorted_cons hsorted p h

/-- Different detected groups carry disjoint page sets (in list
order). -/
theorem detectDuplicates_disjoint (cards : List XCard)
    (hnodup : (cards.map XCard.page_num).Nodup) :
    (detectDuplicates cards).Pairwise
      (fun g1 g2 => ∀ x ∈ g1.pages, x ∉ g2.pages) := by
  have h2 := (collect_buckets_nodup cards hnodup).2
  unfold detectDuplicates
  refine List.Pairwise.filterMap _ ?_ h2
  intro a b hab x hx y hy
  simp only [Option.mem_def] at hx hy
  by_cases h2a : 2 ≤ a.2.length
  · rw [if_pos h2a] at hx
    by_cases h2b : 2 ≤ b.2.length
    · rw [if_pos h2b] at hy
      injection hx with hx
      injection hy with hy
      subst hx
      subst hy
      intro p hp hp2
      simp only at hp hp2
      exact hab p ((List.perm_insertionSort _ _).mem_iff.mp hp)
        ((List.perm_insertionSort _ _).mem_iff.mp hp2)
    · rw [if_neg h2b] at hy
      cases hy
  · rw [if_neg h2a] at hx
    cases hx

/-- `duplicate_of` resolution: for a page of a group, the first group of
the list containing that page is that group itself (the groups are
pairwise page-disjoint). -/
theorem findDupOf_eq (dups : List DupGroup) (g : DupGroup) (page : Nat)
    (hpw : dups.Pairwise (fun g1 g2 => ∀ x ∈ g1.pages, x ∉ g2.pages))
    (hg : g ∈ dups) (hpage : page ∈ g.pages) :
    findDupOf page dups = g.pages.head? := by
  induction dups with
  | nil => cases hg
  | cons d tl ih =>
    rw [findDupOf]
    rcases List.mem_cons.mp hg with hgd | hgtl
    · subst hgd
      rw [if_pos hpage]
    · have hpd : page ∉ d.pages := fun hpd =>
        (List.pairwise_cons.mp hpw).1 g hgtl page hpd hpage
      rw [if_neg hpd]
      exact ih (List.pairwise_cons.mp hpw).2 hgtl

/-- The leading (lowest) page of a group is never one of the marked
duplicate pages. -/
theorem head_not_dupPage (dups : List DupGroup)
    (hpw : dups.Pairwise (fun g1 g2 => ∀ x ∈ g1.pages, x ∉ g2.pages))
    (hnd : ∀ g2 ∈ dups, g2.pages.Nodup)
    (g : DupGroup) (hg : g ∈ dups) (hne : g.pages ≠ []) :
    g.pages.headD 0 ∉
      ((dups.map (fun g2 => g2.pages.drop 1)).flatten) := by
  intro hmem
  rw [List.mem_flatten] at hmem
  obtain ⟨l, hl, hx⟩ := hmem
  rw [List.mem_map] at hl
  obtain ⟨g2, hg2, rfl⟩ := hl
  have hhead : g.pages.headD 0 ∈ g.pages := by
    rcases hps : g.pages with _ | ⟨a, t⟩
    · exact absurd hps hne
    · simp
  by_cases hgg : g2 = g
  · subst hgg
    rcases hps : g2.pages with _ | ⟨a, t⟩
    · exact absurd hps hne
    · have hnd2 := hnd g2 hg2
      rw [hps] at hnd2 hx
      simp only [List.headD_cons, List.drop_one, List.tail_cons] at hx
      exact (List.nodup_cons.mp hnd2).1 hx
  · have hsym : ∀ a ∈ dups, ∀ b ∈ dups, a ≠ b →
        ((∀ x ∈ a.pages, x ∉ b.pages) ∨ (∀ x ∈ b.pages, x ∉ a.pages)) := by
      have hpw2 : dups.Pairwise (fun g1 g2 =>
          (∀ x ∈ g1.pages, x ∉ g2.pages) ∨
          (∀ x ∈ g2.pages, x ∉ g1.pages)) := hpw.imp (fun h => Or.inl h)
      intro a ha b hb hab
      exact List.Pairwise.forall (fun {x y} h => h.symm) hpw2 ha hb hab
    have hx2 : g.pages.headD 0 ∈ g2.pages :=
      List.mem_of_mem_drop hx
    rcases hsym g2 hg2 g hg hgg with h | h
    · exact h _ hx2 hhead
    · exact h _ hhead hx2

/-- The updated card list of `mark_duplicates`, written as a `map`. -/
theorem markDuplicates_fst (cards : List XCard) (dups : List DupGroup) :
    (markDuplicates cards dups).1 = cards.map (fun c =>
      if c.page_num ∈ (dups.map (fun g => g.pages.drop 1)).flatten then
        { c with is_duplicate := true,
                 duplicate_of :=
                   match findDupOf c.page_num dups with
                   | some p => some p
                   | none => c.duplicate_of }
      else c) := rfl

/-- Claim C8: in `DuplicateDetector`, any two pages whose texts are
identical after normalization (lowercasing and whitespace collapsing)
and long enough to pass the minimum-length skip land in one
exact-duplicate group of similarity `1.0`; `mark_duplicates` deletes no
card (length, segments and page numbers are preserved), leaves the
lowest page of each group unmarked as canonical, and sets
`is_duplicate = true` with `duplicate_of` pointing at that lowest page
on every other page of the group.  (Stated for card lists with distinct
page numbers, the intended shape of a per-page dataset.) -/
theorem duplicate_grouping_and_marking (cards : List XCard)
    (hnodup : (cards.map XCard.page_num).Nodup) :
    (∀ (i j : Fin cards.length), i ≠ j →
      qualifies (cards.get i) = true → qualifies (cards.get j) = true →
      normalizedJoin (cards.get i).segment =
        normalizedJoin (cards.get j).segment →
      ∃ g ∈ detectDuplicates cards,
        (cards.get i).page_num ∈ g.pages ∧
        (cards.get j).page_num ∈ g.pages ∧
        g.similarity = 1 ∧ g.type = "exact".data) ∧
    (markDuplicates cards (detectDuplicates cards)).1.length =
      cards.length ∧
    (markDuplicates cards (detectDuplicates cards)).1.map XCard.segment =
      cards.map XCard.segment ∧
    (markDuplicates cards (detectDuplicates cards)).1.map XCard.page_num =
      cards.map XCard.page_num ∧
    ∀ g ∈ detectDuplicates cards,
      (∀ p ∈ g.pages, g.pages.headD 0 ≤ p) ∧
      ∀ (k : Nat), k < cards.length →
        ((cards.getD k ⟨[], 0, false, none, false⟩).page_num ∈
            g.pages.drop 1 →
          ((markDuplicates cards (detectDuplicates cards)).1.getD k
              ⟨[], 0, false, none, false⟩).is_duplicate = true ∧
          ((markDuplicates cards (detectDuplicates cards)).1.getD k
              ⟨[], 0, false, none, false⟩).duplicate_of =
            some (g.pages.headD 0)) ∧
        ((cards.getD k ⟨[], 0, false, none, false⟩).page_num =
            g.pages.headD 0 →
          (markDuplicates cards (detectDuplicates cards)).1.getD k
              ⟨[], 0, false, none, false⟩ =
            cards.getD k ⟨[], 0, false, none, false⟩) := by
  have hdisj := detectDuplicates_disjoint cards hnodup
  have hgroups := detectDuplicates_groups cards hnodup
  refine ⟨?_, ?_, ?_, ?_, ?_⟩
  · -- grouping
    intro i j hij hqi hqj hnorm
    have hhash : textHash (cards.get j).segment =
        textHash (cards.get i).segment := by
      rw [textHash, textHash, hnorm]
    have hpi : (cards.get i).page_num ∈
        pagesOf (textHash (cards.get i).segment) cards := by
      rw [pagesOf]
      refine List.mem_map_of_mem _ (List.mem_filter.mpr
        ⟨List.get_mem cards i.1 i.2, ?_⟩)
      have hc : qualifies (cards.get i) = true ∧
          textHash (cards.get i).segment =
            textHash (cards.get i).segment := ⟨hqi, rfl⟩
      simpa using hc
    have hpj : (cards.get j).page_num ∈
        pagesOf (textHash (cards.get i).segment) cards := by
      rw [pagesOf]
      refine List.mem_map_of_mem _ (List.mem_filter.mpr
        ⟨List.get_mem cards j.1 j.2, ?_⟩)
      have hc : qualifies (cards.get j) = true ∧
          textHash (cards.get j).segment =
            textHash (cards.get i).segment := ⟨hqj, hhash⟩
      simpa using hc
    have hne : (cards.get i).page_num ≠ (cards.get j).page_num := by
      intro heq
      apply hij
      have hlen : (cards.map XCard.page_num).length = cards.length := by
        simp
      have h1 : (cards.map XCard.page_num).get ⟨(i : Nat), by
          rw [hlen]; exact i.isLt⟩ =
          (cards.map XCard.page_num).get ⟨(j : Nat), by
            rw [hlen]; exact j.isLt⟩ := by
        simp only [List.get_eq_getElem, List.getElem_map]
        simpa using heq
      have h2 := (List.Nodup.get_inj_iff hnodup).mp h1
      have h3 : (i : Nat) = (j : Nat) := by simpa using h2
      exact Fin.ext h3
    have h2len : 2 ≤ (pagesOf (textHash (cards.get i).segment)
        cards).length := by
      have hsubs : ({(cards.get i).page_num, (cards.get j).page_num} :
          Finset ℕ) ⊆
          (pagesOf (textHash (cards.get i).segment) cards).toFinset := by
        intro x hx
        rcases Finset.mem_insert.mp hx with rfl | hx
        · exact List.mem_toFinset.mpr hpi
        · rw [Finset.mem_singleton] at hx
          subst hx
          exact List.mem_toFinset.mpr hpj
      have hcard2 : ({(cards.get i).page_num, (cards.get j).page_num} :
          Finset ℕ).card = 2 := by
        rw [Finset.card_insert_of_not_mem (by simpa using hne),
          Finset.card_singleton]
      calc 2 = ({(cards.get i).page_num, (cards.get j).page_num} :
            Finset ℕ).card := hcard2.symm
        _ ≤ (pagesOf (textHash (cards.get i).segment)
              cards).toFinset.card := Finset.card_le_card hsubs
        _ ≤ (pagesOf (textHash (cards.get i).segment) cards).length :=
              List.toFinset_card_le _
    have hlook : bucketLookup (textHash (cards.get i).segment)
        (collectHashes cards []) =
        some (pagesOf (textHash (cards.get i).segment) cards) := by
      rw [collect_lookup]
      show (if pagesOf (textHash (cards.get i).segment) cards = []
        then none
        else some (pagesOf (textHash (cards.get i).segment) cards)) = _
      exact if_neg (List.ne_nil_of_mem hpi)
    have hmem := bucketLookup_mem _ _ _ hlook
    refine ⟨⟨sortPages (pagesOf (textHash (cards.get i).segment) cards),
        1, "exact".data⟩,
      (mem_detectDuplicates _ _).mpr
        ⟨(textHash (cards.get i).segment,
          pagesOf (textHash (cards.get i).segment) cards),
          hmem, h2len, rfl⟩, ?_, ?_, rfl, rfl⟩
    · exact (List.perm_insertionSort _ _).mem_iff.mpr hpi
    · exact (List.perm_insertionSort _ _).mem_iff.mpr hpj
  · -- no card deleted: length preserved
    rw [markDuplicates_fst]
    exact List.length_map _ _
  · -- segments preserved
    rw [markDuplicates_fst, List.map_map]
    refine List.map_congr_left ?_
    intro c _
    simp only [Function.comp_apply]
    split <;> rfl
  · -- page numbers preserved
    rw [markDuplicates_fst, List.map_map]
    refine List.map_congr_left ?_
    intro c _
    simp only [Function.comp_apply]
    split <;> rfl
  · -- marking
    intro g hg
    refine ⟨(hgroups g hg).2.2, ?_⟩
    intro k hk
    have hget : (markDuplicates cards (detectDuplicates cards)).1.getD k
        ⟨[], 0, false, none, false⟩ =
        (if (cards.getD k ⟨[], 0, false, none, false⟩).page_num ∈
            ((detectDuplicates cards).map
              (fun g2 => g2.pages.drop 1)).flatten then
          { cards.getD k ⟨[], 0, false, none, false⟩ with
              is_duplicate := true,
              duplicate_of :=
                match findDupOf
                    (cards.getD k
                      ⟨[], 0, false, none, false⟩).page_num
                    (detectDuplicates cards) with
                | some p => some p
                | none => (cards.getD k
                    ⟨[], 0, false, none, false⟩).duplicate_of }
        else cards.getD k ⟨[], 0, false, none, false⟩) := by
      rw [markDuplicates_fst]
      exact getD_map_lt _ _ _ _ hk
    constructor
    · intro hin
      have hdp : (cards.getD k ⟨[], 0, false, none, false⟩).page_num ∈
          ((detectDuplicates cards).map
            (fun g2 => g2.pages.drop 1)).flatten :=
        List.mem_flatten.mpr ⟨g.pages.drop 1,
          List.mem_map_of_mem _ hg, hin⟩
      have hfind : findDupOf
          (cards.getD k ⟨[], 0, false, none, false⟩).page_num
          (detectDuplicates cards) = g.pages.head? :=
        findDupOf_eq _ g _ hdisj hg (List.mem_of_mem_drop hin)
      constructor
      · rw [hget, if_pos hdp]
      · rw [hget, if_pos hdp]
        show (match findDupOf
            (cards.getD k ⟨[], 0, false, none, false⟩).page_num
            (detectDuplicates cards) with
          | some p => some p
          | none => (cards.getD k
              ⟨[], 0, false, none, false⟩).duplicate_of) =
          some (g.pages.headD 0)
        rw [hfind]
        rcases hps : g.pages with _ | ⟨a, t⟩
        · exact absurd hps (hgroups g hg).1
        · simp
    · intro heq
      have hnot : (cards.getD k ⟨[], 0, false, none, false⟩).page_num ∉
          ((detectDuplicates cards).map
            (fun g2 => g2.pages.drop 1)).flatten := by
        rw [heq]
        exact head_not_dupPage _ hdisj
          (fun g2 hg2 => (hgroups g2 hg2).2.1) g hg (hgroups g hg).1
      rw [hget, if_neg hnot]

/-- Witness for C8: on two cards with identical 50-character segments
(pages 1 and 2) the page numbers are distinct, both pages land in one
exact group, and marking preserves the card count. -/
theorem duplicate_grouping_and_marking_witness :
    ((dupDemoCards.map XCard.page_num).Nodup) ∧
    (∃ g ∈ detectDuplicates dupDemoCards,
      1 ∈ g.pages ∧ 2 ∈ g.pages ∧
      g.similarity = 1 ∧ g.type = "exact".data) ∧
    (markDuplicates dupDemoCards
      (detectDuplicates dupDemoCards)).1.length = 2 :=
  ⟨by decide,
   (duplicate_grouping_and_marking dupDemoCards (by decide)).1
     ⟨0, by decide⟩ ⟨1, by decide⟩ (by decide) (by decide) (by decide)
     rfl,
   (duplicate_grouping_and_marking dupDemoCards (by decide)).2.1⟩

/-- The reserved-sentinel message is among a card's errors, at any
index. -/
theorem reserved_mem_cardErrors (required : List (List Char)) (i : Nat)
    (card : JsonObj) (s : List Char)
    (hsid : JsonObj.get "segment_id".data card = some (Json.str s))
    (hres : s = "__header__".data ∨ s = "__audit__".data ∨
      s = "__footer__".data) :
    ("Card ".data ++ natToChars i ++ ": invalid segment_id \x27".data ++
      s ++ "\x27 (reserved)".data) ∈ cardErrors required i card := by
  unfold cardErrors
  apply List.mem_append_right
  rw [hsid]
  show _ ∈ (if s = "__header__".data ∨ s = "__audit__".data ∨
      s = "__footer__".data then
    ["Card ".data ++ natToChars i ++ ": invalid segment_id \x27".data ++
      s ++ "\x27 (reserved)".data]
  else [])
  rw [if_pos hres]
  exact List.mem_singleton.mpr rfl

/-- A member card contributes its errors to the enumerated card loop,
at some index. -/
theorem mem_cardsErrors_of_mem (required : List (List Char))
    (card : JsonObj) (l : List JsonObj) (hmem : card ∈ l)
    (msgf : Nat → List Char)
    (hmsg : ∀ i, msgf i ∈ cardErrors required i card) :
    ∀ i, ∃ k, msgf k ∈ cardsErrors required i l := by
  induction l with
  | nil => cases hmem
  | cons hd tl ih =>
    intro i
    rcases List.mem_cons.mp hmem with rfl | h
    · exact ⟨i, List.mem_append_left _ (hmsg i)⟩
    · obtain ⟨k, hk⟩ := ih h (i + 1)
      exact ⟨k, List.mem_append_right _ hk⟩

/-- Counterexample to C3 (the duplicate half): two cards sharing
`segment_id` `"001"` produce an empty error list —
`validate_structure` performs no duplicate check at all. -/
theorem validate_structure_duplicate_pass :
    validate_structure
      (JsonObj.ofList [("book".data, Json.str "B".data),
        ("source_file".data, Json.str "b.pdf".data)])
      [JsonObj.ofList [("segment_id".data, Json.str "001".data),
         ("segment".data, Json.str "x".data)],
       JsonObj.ofList [("segment_id".data, Json.str "001".data),
         ("segment".data, Json.str "y".data)]]
      none = [] ∧
    JsonObj.get "segment_id".data
      (JsonObj.ofList [("segment_id".data, Json.str "001".data),
        ("segment".data, Json.str "x".data)]) =
    JsonObj.get "segment_id".data
      (JsonObj.ofList [("segment_id".data, Json.str "001".data),
        ("segment".data, Json.str "y".data)]) :=
  ⟨rfl, rfl⟩

/-- Claim C3 (amended): `validate_structure` does reject reserved
sentinel `segment_id`s — any card set containing a card whose
`segment_id` is the string `__header__`, `__audit__` or `__footer__`
yields a non-empty error list (for every header and stage); the
duplicate-`segment_id` half of the claim is false, see the
counterexample. -/
theorem validate_structure_reserved (header : JsonObj)
    (cards : List JsonObj) (stage : Option (List Char))
    (card : JsonObj) (s : List Char) (hmem : card ∈ cards)
    (hsid : JsonObj.get "segment_id".data card = some (Json.str s))
    (hres : s = "__header__".data ∨ s = "__audit__".data ∨
      s = "__footer__".data) :
    validate_structure header cards stage ≠ [] := by
  obtain ⟨k, hk⟩ := mem_cardsErrors_of_mem (requiredFieldsGet stage) card
    cards hmem _
    (fun i => reserved_mem_cardErrors (requiredFieldsGet stage) i card s
      hsid hres) 0
  unfold validate_structure
  rw [if_neg (List.ne_nil_of_mem hmem)]
  exact List.ne_nil_of_mem (List.mem_append_right _ hk)

/-- Witness for C3: a single card with `segment_id` `__footer__` is
rejected. -/
theorem validate_structure_reserved_witness :
    validate_structure
      (JsonObj.ofList [("book".data, Json.str "B".data)])
      [JsonObj.ofList [("segment_id".data, Json.str "__footer__".data),
        ("segment".data, Json.str "x".data)]]
      none ≠ [] :=
  validate_structure_reserved _ _ none
    (JsonObj.ofList [("segment_id".data, Json.str "__footer__".data),
      ("segment".data, Json.str "x".data)])
    "__footer__".data (List.mem_singleton.mpr rfl) rfl
    (Or.inr (Or.inr rfl))

/-- Jaccard similarity of token lists with no token in common is `0`. -/
theorem jaccard_disjoint (a b : List (List Char)) (ha : a ≠ []) (hb : b ≠ [])
    (hd : a.toFinset ∩ b.toFinset = ∅) : jaccardSimilarity a b = 0 := by
  unfold jaccardSimilarity
  rw [if_neg (by simp [ha]), if_neg (by simp [ha, hb])]
  simp only [hd, Finset.card_empty, Nat.cast_zero]
  split
  · exact zero_div _
  · rfl

/-- Jaccard similarity of a nonempty token list with itself is `1`. -/
theorem jaccard_self (a : List (List Char)) (ha : a ≠ []) :
    jaccardSimilarity a a = 1 := by
  unfold jaccardSimilarity
  rw [if_neg (by simp [ha]), if_neg (by simp [ha])]
  rw [Finset.inter_self, Finset.union_self]
  have hpos : 0 < a.toFinset.card := by
    rcases a with _ | ⟨x, t⟩
    · exact absurd rfl ha
    · exact Finset.card_pos.mpr ⟨x, by simp⟩
  rw [if_pos hpos]
  exact div_self (by exact_mod_cast hpos.ne')

/-- Claim C10: an adjacent pair in which either page tokenizes to the
empty token list (empty text, or only stop words / sub-2-character
tokens) is silently excluded by `audit_continuity`: no overlap is
appended to the statistics, no gap is recorded for the pair, and the
later card's `continuity_gap` flag is left untouched — irrespective of
the threshold. -/
theorem audit_skips_empty_tokenization (th : ℚ) (prev curr : XCard)
    (rest : List XCard)
    (hdup : curr.is_duplicate = false)
    (hempty : tokenize prev.segment = [] ∨ tokenize curr.segment = []) :
    auditLoop th prev (curr :: rest) =
      ((auditLoop th curr rest).1, (auditLoop th curr rest).2.1,
       curr :: (auditLoop th curr rest).2.2) := by
  have hcond : ¬ (tokenize prev.segment ≠ [] ∧ tokenize curr.segment ≠ []) := by
    rcases hempty with h | h <;> simp [h]
  rw [auditLoop, if_neg (by simp [hdup]), if_neg hcond]

/-- Witness for C10: a blank page next to a contentful page contributes
nothing to the audit (threshold `1/10`). -/
theorem audit_skips_empty_tokenization_witness :
    auditLoop (1/10) ⟨"".data, 1, false, none, false⟩
        [⟨"alpha beta".data, 2, false, none, false⟩] =
      ([], [], [⟨"alpha beta".data, 2, false, none, false⟩]) := by
  rw [audit_skips_empty_tokenization (1/10) ⟨"".data, 1, false, none, false⟩
    ⟨"alpha beta".data, 2, false, none, false⟩ [] rfl (Or.inl rfl)]
  rfl

/-- Counterexample to C9 as stated, in two parts.  First: a pair sharing
zero tokens (the first page is blank) with a positive threshold records
no overlap, no gap, and no flag — `audit_continuity` silently skips the
pair instead of yielding overlap `0.0` with a gap.  Second: two identical
adjacent pages are *not* free of gaps for every configuration — with the
(positive) threshold `3/2` their overlap `1.0` is below threshold, so a
gap is recorded and the later page flagged. -/
theorem audit_zero_overlap_counterexample :
    ((0 : ℚ) < 1/10 ∧
     (tokenize "".data).toFinset ∩
       (tokenize "alpha beta".data).toFinset = ∅ ∧
     (auditContinuity (1/10)
        [⟨"".data, 1, false, none, false⟩,
         ⟨"alpha beta".data, 2, false, none, false⟩]).1.gaps = [] ∧
     (auditContinuity (1/10)
        [⟨"".data, 1, false, none, false⟩,
         ⟨"alpha beta".data, 2, false, none, false⟩]).2 =
       [⟨"".data, 1, false, none, false⟩,
        ⟨"alpha beta".data, 2, false, none, false⟩]) ∧
    ((0 : ℚ) < 3/2 ∧
     (auditContinuity (3/2)
        [⟨"alpha beta gamma".data, 1, false, none, false⟩,
         ⟨"alpha beta gamma".data, 2, false, none, false⟩]).1.gap_count
       = 1 ∧
     ((auditContinuity (3/2)
        [⟨"alpha beta gamma".data, 1, false, none, false⟩,
         ⟨"alpha beta gamma".data, 2, false, none, false⟩]).2.getD 1
          ⟨[], 0, false, none, false⟩).continuity_gap = true) := by
  constructor
  · refine ⟨by norm_num, by decide, ?_, ?_⟩
    · rw [show (auditContinuity (1/10)
          [⟨"".data, 1, false, none, false⟩,
           ⟨"alpha beta".data, 2, false, none, false⟩]).1.gaps =
          (auditLoop (1/10) ⟨"".data, 1, false, none, false⟩
            [⟨"alpha beta".data, 2, false, none, false⟩]).1 from rfl,
        audit_skips_empty_tokenization (1/10) ⟨"".data, 1, false, none, false⟩
          ⟨"alpha beta".data, 2, false, none, false⟩ [] rfl (Or.inl rfl)]
      rfl
    · rw [show (auditContinuity (1/10)
          [⟨"".data, 1, false, none, false⟩,
           ⟨"alpha beta".data, 2, false, none, false⟩]).2 =
          ⟨"".data, 1, false, none, false⟩ ::
            (auditLoop (1/10) ⟨"".data, 1, false, none, false⟩
              [⟨"alpha beta".data, 2, false, none, false⟩]).2.2 from rfl,
        audit_skips_empty_tokenization (1/10) ⟨"".data, 1, false, none, false⟩
          ⟨"alpha beta".data, 2, false, none, false⟩ [] rfl (Or.inl rfl)]
      rfl
  · have htoks : tokenize "alpha beta gamma".data ≠ [] := by decide
    have hj : jaccardSimilarity (tokenize "alpha beta gamma".data)
        (tokenize "alpha beta gamma".data) = 1 := jaccard_self _ htoks
    have hloop : auditLoop (3/2) ⟨"alpha beta gamma".data, 1, false, none,
        false⟩ [⟨"alpha beta gamma".data, 2, false, none, false⟩] =
        ([⟨1, 2, roundTo3 (jaccardSimilarity
            (tokenize "alpha beta gamma".data)
            (tokenize "alpha beta gamma".data))⟩],
         [jaccardSimilarity (tokenize "alpha beta gamma".data)
            (tokenize "alpha beta gamma".data)],
         [⟨"alpha beta gamma".data, 2, false, none, true⟩]) := by
      rw [auditLoop, if_neg (by decide), if_pos ⟨htoks, htoks⟩,
        if_pos (show jaccardSimilarity (tokenize "alpha beta gamma".data)
          (tokenize "alpha beta gamma".data) < 3/2 by
            rw [hj]; norm_num)]
      rfl
    refine ⟨by norm_num, ?_, ?_⟩
    · rw [show (auditContinuity (3/2)
          [⟨"alpha beta gamma".data, 1, false, none, false⟩,
           ⟨"alpha beta gamma".data, 2, false, none, false⟩]).1.gap_count =
          (auditLoop (3/2) ⟨"alpha beta gamma".data, 1, false, none, false⟩
            [⟨"alpha beta gamma".data, 2, false, none, false⟩]).1.length
          from rfl, hloop]
      rfl
    · rw [show (auditContinuity (3/2)
          [⟨"alpha beta gamma".data, 1, false, none, false⟩,
           ⟨"alpha beta gamma".data, 2, false, none, false⟩]).2 =
          ⟨"alpha beta gamma".data, 1, false, none, false⟩ ::
            (auditLoop (3/2) ⟨"alpha beta gamma".data, 1, false, none,
              false⟩ [⟨"alpha beta gamma".data, 2, false, none,
              false⟩]).2.2 from rfl, hloop]
      rfl

/-- Claim C9, amended: restricted to adjacent pairs whose two pages both
tokenize non-empty (pairs with an empty tokenization are skipped — see
the C10 theorem), the audit behaves as claimed: (i) zero common tokens
give overlap `0.0`, and with a positive threshold a gap
`{from_page, to_page, overlap}` is recorded and the later page gets
`flags.continuity_gap = true`; (ii) identical adjacent pages give
overlap `1.0` and, for a threshold not exceeding `1`, no gap and no
flag; (iii) a pair whose later page is marked `is_duplicate` is skipped
entirely. -/
theorem audit_gap_semantics :
    (∀ (th : ℚ) (prev curr : XCard) (rest : List XCard),
      curr.is_duplicate = false →
      tokenize prev.segment ≠ [] →
      tokenize curr.segment ≠ [] →
      (tokenize prev.segment).toFinset ∩
        (tokenize curr.segment).toFinset = ∅ →
      0 < th →
      jaccardSimilarity (tokenize prev.segment)
        (tokenize curr.segment) = 0 ∧
      auditLoop th prev (curr :: rest) =
        ((⟨prev.page_num, curr.page_num, 0⟩ : GapRec) ::
           (auditLoop th { curr with continuity_gap := true } rest).1,
         0 :: (auditLoop th { curr with continuity_gap := true } rest).2.1,
         { curr with continuity_gap := true } ::
           (auditLoop th { curr with continuity_gap := true } rest).2.2))
    ∧ (∀ (th : ℚ) (prev curr : XCard) (rest : List XCard),
      curr.is_duplicate = false →
      prev.segment = curr.segment →
      tokenize curr.segment ≠ [] →
      th ≤ 1 →
      jaccardSimilarity (tokenize prev.segment)
        (tokenize curr.segment) = 1 ∧
      auditLoop th prev (curr :: rest) =
        ((auditLoop th curr rest).1,
         1 :: (auditLoop th curr rest).2.1,
         curr :: (auditLoop th curr rest).2.2))
    ∧ (∀ (th : ℚ) (prev curr : XCard) (rest : List XCard),
      curr.is_duplicate = true →
      auditLoop th prev (curr :: rest) =
        ((auditLoop th curr rest).1, (auditLoop th curr rest).2.1,
         curr :: (auditLoop th curr rest).2.2)) := by
  refine ⟨?_, ?_, ?_⟩
  · intro th prev curr rest hdup hp hc hdisj hth
    have hj := jaccard_disjoint _ _ hp hc hdisj
    refine ⟨hj, ?_⟩
    rw [auditLoop, if_neg (by simp [hdup]), if_pos ⟨hp, hc⟩,
      if_pos (show jaccardSimilarity (tokenize prev.segment)
        (tokenize curr.segment) < th by rw [hj]; exact hth), hj]
    have : roundTo3 0 = 0 := by
      simp [roundTo3]
    rw [this]
  · intro th prev curr rest hdup hseg hc hth
    have hj : jaccardSimilarity (tokenize prev.segment)
        (tokenize curr.segment) = 1 := by
      rw [hseg]
      exact jaccard_self _ hc
    refine ⟨hj, ?_⟩
    rw [auditLoop, if_neg (by simp [hdup]),
      if_pos ⟨by rw [hseg]; exact hc, hc⟩,
      if_neg (show ¬ jaccardSimilarity (tokenize prev.segment)
        (tokenize curr.segment) < th by rw [hj]; exact not_lt.mpr hth), hj]
  · intro th prev curr rest hdup
    rw [auditLoop, if_pos hdup]

/-- Witness for (the amended) C9: two contentful pages with disjoint
vocabulary under threshold `1/10` produce overlap `0`, a recorded gap
`{1, 2, 0}` and the flagged later card; two identical contentful pages
under the default threshold produce overlap `1` and no gap. -/
theorem audit_gap_semantics_witness :
    (jaccardSimilarity (tokenize "alpha beta".data)
      (tokenize "delta epsilon".data) = 0 ∧
     auditLoop (1/10) ⟨"alpha beta".data, 1, false, none, false⟩
        [⟨"delta epsilon".data, 2, false, none, false⟩] =
      ([⟨1, 2, 0⟩], [0],
       [⟨"delta epsilon".data, 2, false, none, true⟩])) ∧
    (jaccardSimilarity (tokenize "alpha beta".data)
      (tokenize "alpha beta".data) = 1 ∧
     auditLoop (1/10) ⟨"alpha beta".data, 1, false, none, false⟩
        [⟨"alpha beta".data, 2, false, none, false⟩] =
      ([], [1], [⟨"alpha beta".data, 2, false, none, false⟩])) := by
  constructor
  · exact audit_gap_semantics.1 (1/10)
      ⟨"alpha beta".data, 1, false, none, false⟩
      ⟨"delta epsilon".data, 2, false, none, false⟩ [] rfl (by decide)
      (by decide) (by decide) (by norm_num)
  · exact audit_gap_semantics.2.1 (1/10)
      ⟨"alpha beta".data, 1, false, none, false⟩
      ⟨"alpha beta".data, 2, false, none, false⟩ [] rfl rfl (by decide)
      (by norm_num)

/-! ### Round trip of the JSON embedding -/

/-- `skipWs` eats a whitespace-only prefix. -/
theorem skipWs_ws_prefix (pre : List Char)
    (hpre : ∀ c ∈ pre, isJsonWs c = true) :
    ∀ s, skipWs (pre ++ s) = skipWs s := by
  induction pre with
  | nil => intro s; rfl
  | cons c tl ih =>
    intro s
    rw [List.cons_append, skipWs, if_pos (hpre c (List.mem_cons_self _ _))]
    exact ih (fun d hd => hpre d (List.mem_cons_of_mem _ hd)) s

/-- `skipWs` keeps a non-whitespace head. -/
theorem skipWs_cons_of_not (c : Char) (s : List Char)
    (h : isJsonWs c = false) : skipWs (c :: s) = c :: s := by
  rw [skipWs, if_neg (by simp [h])]

/-- A decimal digit is not JSON whitespace. -/
theorem digit_not_ws (c : Char) (h : isDigitChar c = true) :
    isJsonWs c = false := by
  by_contra hc
  rw [Bool.not_eq_false] at hc
  simp only [isJsonWs, Bool.or_eq_true, decide_eq_true_eq] at hc
  rcases hc with rfl | rfl | rfl | rfl <;> simp [isDigitChar] at h

/-- A decimal digit differs from any non-digit character. -/
theorem digit_ne (c d : Char) (h : isDigitChar c = true)
    (hd : isDigitChar d = false) : c ≠ d := fun he => by
  rw [he, hd] at h
  cases h

/-- `hexVal` inverts `hexDigit` below 16. -/
theorem hexVal_hexDigit : ∀ n, n < 16 → hexVal (hexDigit n) = some n := by
  decide

/-- `Char.ofNat` of a digit code point evaluates faithfully. -/
theorem digit_toNat : ∀ n, n < 10 → (Char.ofNat (48 + n)).toNat = 48 + n := by
  decide

/-- ASCII digit characters pass `isDigitChar`. -/
theorem digit_isDigit : ∀ n, n < 10 →
    isDigitChar (Char.ofNat (48 + n)) = true := by
  decide

/-- Escapes are never empty. -/
theorem escapeChar_length_pos (c : Char) : 1 ≤ (escapeChar c).length := by
  rw [escapeChar]
  split
  · simp
  · split
    · simp
    · split
      · simp
      · split
        · simp
        · split
          · simp
          · split
            · simp
            · split
              · simp
              · split <;> simp

/-- Decoding each named escape. -/
theorem escDecode_quote (Y : List Char) :
    escDecode ('"' :: Y) = some ('"', Y) := rfl

/-- Decoding the backslash escape. -/
theorem escDecode_bs (Y : List Char) :
    escDecode ('\x5c' :: Y) = some ('\x5c', Y) := rfl

/-- Decoding the newline escape. -/
theorem escDecode_nl (Y : List Char) :
    escDecode ('n' :: Y) = some ('\n', Y) := rfl

/-- Decoding the tab escape. -/
theorem escDecode_tab (Y : List Char) :
    escDecode ('t' :: Y) = some ('\t', Y) := rfl

/-- Decoding the carriage-return escape. -/
theorem escDecode_cr (Y : List Char) :
    escDecode ('r' :: Y) = some ('\x0d', Y) := rfl

/-- Decoding the backspace escape. -/
theorem escDecode_bsp (Y : List Char) :
    escDecode ('b' :: Y) = some ('\x08', Y) := rfl

/-- Decoding the form-feed escape. -/
theorem escDecode_ff (Y : List Char) :
    escDecode ('f' :: Y) = some ('\x0c', Y) := rfl

/-- Decoding a `u00XX` escape body. -/
theorem escDecode_u (a b : Nat) (ha : a < 2) (hb : b < 16)
    (Y : List Char) :
    escDecode ('u' :: '0' :: '0' :: hexDigit a :: hexDigit b :: Y) =
      some (Char.ofNat (a * 16 + b), Y) := by
  interval_cases a <;> interval_cases b <;> rfl

/-- One step of string parsing through an escape. -/
theorem parseStringBody_esc (f : Nat) (rest : List Char) (d : Char)
    (rest2 : List Char) (h : escDecode rest = some (d, rest2)) :
    parseStringBody (f + 1) ('\x5c' :: rest) =
      (match parseStringBody f rest2 with
       | some (s, r) => some (d :: s, r)
       | none => none) := by
  have hstep : parseStringBody (f + 1) ('\x5c' :: rest) =
      (match escDecode rest with
       | some (d2, r2) =>
         (match parseStringBody f r2 with
          | some (s, r) => some (d2 :: s, r)
          | none => none)
       | none => none) := rfl
  rw [hstep, h]

/-- One step of string parsing through a plain character. -/
theorem parseStringBody_plain (f : Nat) (c : Char) (X : List Char)
    (h1 : ¬ c = '"') (h2 : ¬ c = '\x5c') (h8 : ¬ c.toNat < 32) :
    parseStringBody (f + 1) (c :: X) =
      (match parseStringBody f X with
       | some (s, r) => some (c :: s, r)
       | none => none) := by
  have hstep : parseStringBody (f + 1) (c :: X) =
      (if c = '"' then some ([], X)
       else if c = '\x5c' then
         (match escDecode X with
          | some (d, rest2) =>
            (match parseStringBody f rest2 with
             | some (s, r) => some (d :: s, r)
             | none => none)
          | none => none)
       else if c.toNat < 32 then none
       else
         (match parseStringBody f X with
          | some (s, r) => some (c :: s, r)
          | none => none)) := rfl
  rw [hstep, if_neg h1, if_neg h2, if_neg h8]

/-- `parseStringBody` undoes `jsonEscape` (with enough fuel). -/
theorem parseString_escape : ∀ (k : List Char) (fuel : Nat)
    (rest : List Char), (jsonEscape k).length < fuel →
    parseStringBody fuel (jsonEscape k ++ '"' :: rest) = some (k, rest) := by
  intro k
  induction k with
  | nil =>
    intro fuel rest hf
    cases fuel with
    | zero => omega
    | succ f => rfl
  | cons c k ih =>
    intro fuel rest hf
    have hesc : jsonEscape (c :: k) = escapeChar c ++ jsonEscape k := by
      simp [jsonEscape]
    rw [hesc] at hf ⊢
    cases fuel with
    | zero => exact absurd hf (Nat.not_lt_zero _)
    | succ f =>
      have hih : parseStringBody f (jsonEscape k ++ '"' :: rest) =
          some (k, rest) := ih f rest (by
        have := escapeChar_length_pos c
        simp at hf
        omega)
      by_cases h1 : c = '"'
      · subst h1
        rw [show escapeChar '"' = ['\x5c', '"'] from rfl]
        show parseStringBody (f + 1)
          ('\x5c' :: '"' :: (jsonEscape k ++ '"' :: rest)) = _
        rw [parseStringBody_esc f _ _ _ (escDecode_quote _), hih]
      · by_cases h2 : c = '\x5c'
        · subst h2
          rw [show escapeChar '\x5c' = ['\x5c', '\x5c'] from rfl]
          show parseStringBody (f + 1)
            ('\x5c' :: '\x5c' :: (jsonEscape k ++ '"' :: rest)) = _
          rw [parseStringBody_esc f _ _ _ (escDecode_bs _), hih]
        · by_cases h3 : c = '\n'
          · subst h3
            rw [show escapeChar '\n' = ['\x5c', 'n'] from rfl]
            show parseStringBody (f + 1)
              ('\x5c' :: 'n' :: (jsonEscape k ++ '"' :: rest)) = _
            rw [parseStringBody_esc f _ _ _ (escDecode_nl _), hih]
          · by_cases h4 : c = '\t'
            · subst h4
              rw [show escapeChar '\t' = ['\x5c', 't'] from rfl]
              show parseStringBody (f + 1)
                ('\x5c' :: 't' :: (jsonEscape k ++ '"' :: rest)) = _
              rw [parseStringBody_esc f _ _ _ (escDecode_tab _), hih]
            · by_cases h5 : c = '\x0d'
              · subst h5
                rw [show escapeChar '\x0d' = ['\x5c', 'r'] from rfl]
                show parseStringBody (f + 1)
                  ('\x5c' :: 'r' :: (jsonEscape k ++ '"' :: rest)) = _
                rw [parseStringBody_esc f _ _ _ (escDecode_cr _), hih]
              · by_cases h6 : c = '\x08'
                · subst h6
                  rw [show escapeChar '\x08' = ['\x5c', 'b'] from rfl]
                  show parseStringBody (f + 1)
                    ('\x5c' :: 'b' :: (jsonEscape k ++ '"' :: rest)) = _
                  rw [parseStringBody_esc f _ _ _ (escDecode_bsp _), hih]
                · by_cases h7 : c = '\x0c'
                  · subst h7
                    rw [show escapeChar '\x0c' = ['\x5c', 'f'] from rfl]
                    show parseStringBody (f + 1)
                      ('\x5c' :: 'f' :: (jsonEscape k ++ '"' :: rest)) = _
                    rw [parseStringBody_esc f _ _ _ (escDecode_ff _), hih]
                  · by_cases h8 : c.toNat < 32
                    · rw [show escapeChar c =
                          ['\x5c', 'u', '0', '0', hexDigit (c.toNat / 16),
                            hexDigit (c.toNat % 16)] from by
                        rw [escapeChar, if_neg h1, if_neg h2, if_neg h3,
                          if_neg h4, if_neg h5, if_neg h6, if_neg h7,
                          if_pos h8]]
                      show parseStringBody (f + 1)
                        ('\x5c' :: 'u' :: '0' :: '0' ::
                          hexDigit (c.toNat / 16) ::
                          hexDigit (c.toNat % 16) ::
                          (jsonEscape k ++ '"' :: rest)) = _
                      rw [parseStringBody_esc f _ _ _
                        (escDecode_u (c.toNat / 16) (c.toNat % 16)
                          (by omega) (by omega) _), hih]
                      show some (Char.ofNat
                        (c.toNat / 16 * 16 + c.toNat % 16) :: k, rest) = _
                      rw [show c.toNat / 16 * 16 + c.toNat % 16 = c.toNat
                          from by omega,
                        Char.ofNat_toNat]
                    · rw [show escapeChar c = [c] from by
                        rw [escapeChar, if_neg h1, if_neg h2, if_neg h3,
                          if_neg h4, if_neg h5, if_neg h6, if_neg h7,
                          if_neg h8]]
                      show parseStringBody (f + 1)
                        (c :: (jsonEscape k ++ '"' :: rest)) = _
                      rw [parseStringBody_plain f c _ h1 h2 h8, hih]


/-- `natCharsGo` emits only decimal digits. -/
theorem natCharsGo_digits : ∀ fuel n, n < fuel →
    ∀ c ∈ natCharsGo fuel n, isDigitChar c = true := by
  intro fuel
  induction fuel with
  | zero => intro n h; omega
  | succ f ih =>
    intro n h c hc
    rw [natCharsGo] at hc
    by_cases h10 : n < 10
    · rw [if_pos h10] at hc
      simp at hc
      subst hc
      exact digit_isDigit n h10
    · rw [if_neg h10] at hc
      rcases List.mem_append.mp hc with hc | hc
      · exact ih (n / 10) (by omega) c hc
      · simp at hc
        subst hc
        exact digit_isDigit (n % 10) (Nat.mod_lt _ (by norm_num))

/-- `natCharsGo` is never empty (with enough fuel). -/
theorem natCharsGo_ne_nil : ∀ fuel n, n < fuel → natCharsGo fuel n ≠ [] := by
  intro fuel
  cases fuel with
  | zero => intro n h; omega
  | succ f =>
    intro n h
    rw [natCharsGo]
    by_cases h10 : n < 10
    · rw [if_pos h10]; simp
    · rw [if_neg h10]; simp

/-- `natChars` is never empty. -/
theorem natChars_ne_nil (n : Nat) : natChars n ≠ [] :=
  natCharsGo_ne_nil (n + 1) n (by omega)

/-- `natChars` emits only decimal digits. -/
theorem natChars_digits (n : Nat) :
    ∀ c ∈ natChars n, isDigitChar c = true :=
  natCharsGo_digits (n + 1) n (by omega)

/-- The digits of `natCharsGo` fold back to the value. -/
theorem natCharsGo_foldl : ∀ fuel n acc, n < fuel →
    List.foldl (fun a c => a * 10 + (c.toNat - 48)) acc
      (natCharsGo fuel n) =
      acc * 10 ^ (natCharsGo fuel n).length + n := by
  intro fuel
  induction fuel with
  | zero => intro n acc h; omega
  | succ f ih =>
    intro n acc h
    rw [natCharsGo]
    by_cases h10 : n < 10
    · rw [if_pos h10]
      simp only [List.foldl_cons, List.foldl_nil, List.length_cons,
        List.length_nil]
      rw [digit_toNat n h10, show 48 + n - 48 = n from by omega,
        Nat.zero_add, pow_one]
    · rw [if_neg h10]
      rw [List.foldl_append, ih (n / 10) acc (by omega)]
      simp only [List.foldl_cons, List.foldl_nil, List.length_append,
        List.length_cons, List.length_nil]
      rw [digit_toNat (n % 10) (Nat.mod_lt _ (by norm_num)),
        show 48 + n % 10 - 48 = n % 10 from by omega, Nat.zero_add,
        pow_succ]
      generalize 10 ^ (natCharsGo f (n / 10)).length = P
      have key : (acc * P + n / 10) * 10 + n % 10 =
          acc * (P * 10) + (n / 10 * 10 + n % 10) := by ring
      rw [key, show n / 10 * 10 + n % 10 = n from by omega]

/-- `parseDigits` consumes exactly a digit run. -/
theorem parseDigits_run : ∀ (ds rest : List Char) (acc : Nat),
    (∀ c ∈ ds, isDigitChar c = true) →
    (∀ c r2, rest = c :: r2 → isDigitChar c = false) →
    parseDigits (ds ++ rest) acc =
      (List.foldl (fun a c => a * 10 + (c.toNat - 48)) acc ds, rest) := by
  intro ds
  induction ds with
  | nil =>
    intro rest acc _ hrest
    simp only [List.nil_append, List.foldl_nil]
    cases rest with
    | nil => rfl
    | cons c r =>
      rw [parseDigits, if_neg (by simp [hrest c r rfl])]
  | cons c ds ih =>
    intro rest acc hds hrest
    rw [List.cons_append, parseDigits,
      if_pos (hds c (List.mem_cons_self _ _)), List.foldl_cons]
    exact ih rest _ (fun d hd => hds d (List.mem_cons_of_mem _ hd)) hrest

/-- The value parsed back from `natChars n` is `n`. -/
theorem parseDigits_natChars (n : Nat) (rest : List Char)
    (hrest : ∀ c r2, rest = c :: r2 → isDigitChar c = false) :
    parseDigits (natChars n ++ rest) 0 = (n, rest) := by
  rw [parseDigits_run _ _ _ (natChars_digits n) hrest]
  rw [show natChars n = natCharsGo (n + 1) n from rfl,
    natCharsGo_foldl (n + 1) n 0 (by omega)]
  simp

/-- `stopsNum` gives the facts the number parser needs. -/
theorem stopsNum_facts (rest : List Char) (h : stopsNum rest = true) :
    ∀ c r2, rest = c :: r2 →
      isDigitChar c = false ∧ ¬(c = '.' ∨ c = 'e' ∨ c = 'E') := by
  intro c r2 he
  subst he
  rw [stopsNum] at h
  simp only [Bool.and_eq_true, Bool.not_eq_true', decide_eq_false_iff_not]
    at h
  refine ⟨h.1.1.1, ?_⟩
  rintro (hc | hc | hc)
  · exact h.1.1.2 hc
  · exact h.1.2 hc
  · exact h.2 hc

/-- Unfolding `parseNum` at a cons cell. -/
theorem parseNum_cons (c : Char) (Y : List Char) :
    parseNum (c :: Y) =
      (if c = '-' then
        (match Y with
         | [] => none
         | d :: _ =>
           if isDigitChar d then
             (match parseDigits Y 0 with
              | (n, r) =>
                (match r with
                 | e :: _ =>
                   if e = '.' ∨ e = 'e' ∨ e = 'E' then none
                   else some (Json.num (-(n : Int)), r)
                 | [] => some (Json.num (-(n : Int)), [])))
           else none)
      else if isDigitChar c then
        (match parseDigits (c :: Y) 0 with
         | (n, r) =>
           (match r with
            | e :: _ =>
              if e = '.' ∨ e = 'e' ∨ e = 'E' then none
              else some (Json.num ((n : Int)), r)
            | [] => some (Json.num ((n : Int)), [])))
      else none) := rfl

/-- `parseNum` undoes `intChars`. -/
theorem parseNum_intChars (i : Int) (rest : List Char)
    (hrest : stopsNum rest = true) :
    parseNum (intChars i ++ rest) = some (.num i, rest) := by
  have hfacts := stopsNum_facts rest hrest
  have hr1 : ∀ c r2, rest = c :: r2 → isDigitChar c = false :=
    fun c r2 he => (hfacts c r2 he).1
  by_cases hneg : i < 0
  · obtain ⟨d, ds, hds⟩ : ∃ d ds, natChars i.natAbs = d :: ds := by
      rcases hnn : natChars i.natAbs with _ | ⟨d, ds⟩
      · exact absurd hnn (natChars_ne_nil _)
      · exact ⟨d, ds, rfl⟩
    have hdig : isDigitChar d = true :=
      natChars_digits i.natAbs d (by rw [hds]; simp)
    rw [intChars, if_pos hneg, List.cons_append, hds, List.cons_append,
      parseNum_cons, if_pos rfl]
    show (if isDigitChar d then _ else _) = _
    rw [if_pos hdig, ← List.cons_append, ← hds,
      parseDigits_natChars i.natAbs rest hr1]
    cases rest with
    | nil =>
      show some (Json.num (-(i.natAbs : Int)), ([] : List Char)) = _
      rw [show -(i.natAbs : Int) = i from by omega]
    | cons e r2 =>
      have hr2e : ¬(e = '.' ∨ e = 'e' ∨ e = 'E') := (hfacts e r2 rfl).2
      show (if e = '.' ∨ e = 'e' ∨ e = 'E' then none
        else some (Json.num (-(i.natAbs : Int)), e :: r2)) = _
      rw [if_neg hr2e, show -(i.natAbs : Int) = i from by omega]
  · obtain ⟨d, ds, hds⟩ : ∃ d ds, natChars i.toNat = d :: ds := by
      rcases hnn : natChars i.toNat with _ | ⟨d, ds⟩
      · exact absurd hnn (natChars_ne_nil _)
      · exact ⟨d, ds, rfl⟩
    have hdig : isDigitChar d = true :=
      natChars_digits i.toNat d (by rw [hds]; simp)
    have hdm : ¬ d = '-' := digit_ne d '-' hdig (by decide)
    rw [intChars, if_neg hneg, hds, List.cons_append, parseNum_cons,
      if_neg hdm, if_pos hdig, ← List.cons_append, ← hds,
      parseDigits_natChars i.toNat rest hr1]
    cases rest with
    | nil =>
      show some (Json.num ((i.toNat : Int)), ([] : List Char)) = _
      rw [show ((i.toNat : Int)) = i from by omega]
    | cons e r2 =>
      have hr2e : ¬(e = '.' ∨ e = 'e' ∨ e = 'E') := (hfacts e r2 rfl).2
      show (if e = '.' ∨ e = 'e' ∨ e = 'E' then none
        else some (Json.num ((i.toNat : Int)), e :: r2)) = _
      rw [if_neg hr2e, show ((i.toNat : Int)) = i from by omega]

/-- The first character a `jsonDumps` output can have. -/
theorem jsonDumps_shape (v : Json) (s : List Char)
    (h : jsonDumps v = some s) :
    ∃ c t, s = c :: t ∧ (c = 'n' ∨ c = 't' ∨ c = 'f' ∨ c = '"' ∨
      c = '[' ∨ c = '\x7b' ∨ c = '-' ∨ isDigitChar c = true) := by
  cases v with
  | null =>
    have h2 : some ("null".data) = some s := h
    injection h2 with h2
    exact ⟨'n', _, h2.symm, Or.inl rfl⟩
  | bool b =>
    cases b with
    | false =>
      have h2 : some ("false".data) = some s := h
      injection h2 with h2
      exact ⟨'f', _, h2.symm, Or.inr (Or.inr (Or.inl rfl))⟩
    | true =>
      have h2 : some ("true".data) = some s := h
      injection h2 with h2
      exact ⟨'t', _, h2.symm, Or.inr (Or.inl rfl)⟩
  | num i =>
    have h2 : some (intChars i) = some s := h
    injection h2 with h2
    by_cases hneg : i < 0
    · rw [intChars, if_pos hneg] at h2
      exact ⟨'-', _, h2.symm,
        Or.inr (Or.inr (Or.inr (Or.inr (Or.inr (Or.inr (Or.inl rfl))))))⟩
    · rw [intChars, if_neg hneg] at h2
      obtain ⟨d, ds, hds⟩ : ∃ d ds, natChars i.toNat = d :: ds := by
        rcases hnn : natChars i.toNat with _ | ⟨d, ds⟩
        · exact absurd hnn (natChars_ne_nil _)
        · exact ⟨d, ds, rfl⟩
      rw [hds] at h2
      exact ⟨d, ds, h2.symm,
        Or.inr (Or.inr (Or.inr (Or.inr (Or.inr (Or.inr (Or.inr
          (natChars_digits i.toNat d (by rw [hds]; simp))))))))⟩
  | rat q =>
    exact Option.noConfusion (show (none : Option (List Char)) = some s from h)
  | str k =>
    have h2 : some ('"' :: (jsonEscape k ++ ['"'])) = some s := h
    injection h2 with h2
    exact ⟨'"', _, h2.symm, Or.inr (Or.inr (Or.inr (Or.inl rfl)))⟩
  | arr l =>
    have h2 : (match jsonDumpsItems l with
      | some si => some ('[' :: (si ++ [']']))
      | none => none) = some s := h
    rcases hdi : jsonDumpsItems l with _ | si
    · rw [hdi] at h2
      exact Option.noConfusion h2
    · rw [hdi] at h2
      injection h2 with h2
      exact ⟨'[', _, h2.symm, Or.inr (Or.inr (Or.inr (Or.inr (Or.inl rfl))))⟩
  | obj o =>
    have h2 : (match jsonDumpsFields o with
      | some so => some ('\x7b' :: (so ++ ['\x7d']))
      | none => none) = some s := h
    rcases hdo : jsonDumpsFields o with _ | so
    · rw [hdo] at h2
      exact Option.noConfusion h2
    · rw [hdo] at h2
      injection h2 with h2
      exact ⟨'\x7b', _, h2.symm,
        Or.inr (Or.inr (Or.inr (Or.inr (Or.inr (Or.inl rfl)))))⟩

/-- The head of a dumped value is not whitespace. -/
theorem jsonDumps_head_not_ws (c : Char)
    (hc : c = 'n' ∨ c = 't' ∨ c = 'f' ∨ c = '"' ∨
      c = '[' ∨ c = '\x7b' ∨ c = '-' ∨ isDigitChar c = true) :
    isJsonWs c = false := by
  rcases hc with rfl | rfl | rfl | rfl | rfl | rfl | rfl | hd
  · rfl
  · rfl
  · rfl
  · rfl
  · rfl
  · rfl
  · rfl
  · exact digit_not_ws c hd

/-- The head of a dumped value is not a closing bracket. -/
theorem jsonDumps_head_ne_rb (c : Char)
    (hc : c = 'n' ∨ c = 't' ∨ c = 'f' ∨ c = '"' ∨
      c = '[' ∨ c = '\x7b' ∨ c = '-' ∨ isDigitChar c = true) :
    ¬ c = ']' := by
  rcases hc with rfl | rfl | rfl | rfl | rfl | rfl | rfl | hd
  · decide
  · decide
  · decide
  · decide
  · decide
  · decide
  · decide
  · exact digit_ne c ']' hd (by decide)

/-- Leading whitespace does not change `parseVal`. -/
theorem parseVal_ws (fuel : Nat) (pre s : List Char)
    (hpre : ∀ c ∈ pre, isJsonWs c = true) :
    parseVal fuel (pre ++ s) = parseVal fuel s := by
  cases fuel with
  | zero => rfl
  | succ f =>
    rw [parseVal, parseVal, skipWs_ws_prefix pre hpre]

/-- Leading whitespace does not change `parseItems`. -/
theorem parseItems_ws (fuel : Nat) (pre s : List Char)
    (hpre : ∀ c ∈ pre, isJsonWs c = true) :
    parseItems fuel (pre ++ s) = parseItems fuel s := by
  cases fuel with
  | zero => rfl
  | succ f =>
    rw [parseItems, parseItems, parseVal_ws f pre s hpre]

/-- Leading whitespace does not change `parseFields`. -/
theorem parseFields_ws (fuel : Nat) (pre s : List Char)
    (hpre : ∀ c ∈ pre, isJsonWs c = true) :
    parseFields fuel (pre ++ s) = parseFields fuel s := by
  cases fuel with
  | zero => rfl
  | succ f =>
    rw [parseFields, parseFields, skipWs_ws_prefix pre hpre]

/-- `parseVal` on a quoted string. -/
theorem parseVal_quote (f : Nat) (x : List Char) :
    parseVal (f + 1) ('"' :: x) =
      (match parseStringBody (x.length + 1) x with
       | some (str2, r) => some (.str str2, r)
       | none => none) := rfl

/-- `parseVal` on an opening bracket. -/
theorem parseVal_lbrack (f : Nat) (x : List Char) :
    parseVal (f + 1) ('[' :: x) =
      (match skipWs x with
       | ']' :: r2 => some (.arr .nil, r2)
       | _ =>
         (match parseItems f x with
          | some (l, r) => some (.arr l, r)
          | none => none)) := rfl

/-- `parseVal` on an opening brace. -/
theorem parseVal_lbrace (f : Nat) (x : List Char) :
    parseVal (f + 1) ('\x7b' :: x) =
      (match skipWs x with
       | '\x7d' :: r2 => some (.obj .nil, r2)
       | _ =>
         (match parseFields f x with
          | some (o, r) => some (.obj o, r)
          | none => none)) := rfl

/-- A non-bracket head sends the bracket branch to the element
parser. -/
theorem parseVal_lbrack_cons (f : Nat) (c : Char) (x : List Char)
    (hc : ¬ c = ']') (hw : isJsonWs c = false) :
    parseVal (f + 1) ('[' :: (c :: x)) =
      (match parseItems f (c :: x) with
       | some (l, r) => some (.arr l, r)
       | none => none) := by
  rw [parseVal_lbrack, skipWs_cons_of_not c x hw]
  split
  · next r2 heq =>
    injection heq with h1 _
    exact absurd h1 hc
  · rfl

/-- `parseVal` dispatches digits to the number parser. -/
theorem parseVal_digit (f : Nat) (c : Char) (x : List Char)
    (h : isDigitChar c = true) :
    parseVal (f + 1) (c :: x) = parseNum (c :: x) := by
  rw [parseVal, skipWs_cons_of_not c x (digit_not_ws c h)]
  show (if c = 'n' then _ else _) = _
  rw [if_neg (digit_ne c 'n' h (by decide)),
    if_neg (digit_ne c 't' h (by decide)),
    if_neg (digit_ne c 'f' h (by decide)),
    if_neg (digit_ne c '"' h (by decide)),
    if_neg (digit_ne c '[' h (by decide)),
    if_neg (digit_ne c '\x7b' h (by decide)),
    if_pos (Or.inr h)]

/-- One step of the element parser. -/
theorem parseItems_step (f : Nat) (s2 : List Char) (v : Json)
    (r : List Char) (h : parseVal f s2 = some (v, r)) :
    parseItems (f + 1) s2 =
      (match skipWs r with
       | ',' :: r2 =>
         (match parseItems f r2 with
          | some (l, r3) => some (.cons v l, r3)
          | none => none)
       | ']' :: r2 => some (.cons v .nil, r2)
       | _ => none) := by
  rw [parseItems, h]

/-- Splitting a dumped non-empty array element list. -/
theorem jsonDumpsItems_cons (v0 : Json) (tl : JsonList) (si : List Char)
    (h : jsonDumpsItems (.cons v0 tl) = some si) :
    ∃ sv, jsonDumps v0 = some sv ∧
      ((tl = .nil ∧ si = sv) ∨
       (∃ st, jsonDumpsItems tl = some st ∧ tl ≠ .nil ∧
         si = sv ++ ',' :: ' ' :: st)) := by
  cases tl with
  | nil =>
    have h2 : (match jsonDumps v0 with
      | some s2 => some s2
      | none => none) = some si := h
    rcases hv : jsonDumps v0 with _ | sv
    · rw [hv] at h2
      exact Option.noConfusion h2
    · rw [hv] at h2
      injection h2 with h2
      exact ⟨sv, rfl, Or.inl ⟨rfl, h2.symm⟩⟩
  | cons v1 tl2 =>
    have h2 : (match jsonDumps v0, jsonDumpsItems (.cons v1 tl2) with
      | some s2, some st => some (s2 ++ ',' :: ' ' :: st)
      | _, _ => none) = some si := h
    rcases hv : jsonDumps v0 with _ | sv <;>
      rcases ht : jsonDumpsItems (.cons v1 tl2) with _ | st <;>
      rw [hv, ht] at h2
    · exact Option.noConfusion h2
    · exact Option.noConfusion h2
    · exact Option.noConfusion h2
    · injection h2 with h2
      exact ⟨sv, rfl, Or.inr ⟨st, rfl, by simp, h2.symm⟩⟩

/-- Splitting a dumped non-empty object binding list. -/
theorem jsonDumpsFields_cons (k : List Char) (v : Json) (tl : JsonObj)
    (so : List Char) (h : jsonDumpsFields (.cons k v tl) = some so) :
    ∃ sv, jsonDumps v = some sv ∧
      ((tl = .nil ∧
        so = '"' :: (jsonEscape k ++ '"' :: ':' :: ' ' :: sv)) ∨
       (∃ st, jsonDumpsFields tl = some st ∧ tl ≠ .nil ∧
         so = '"' :: (jsonEscape k ++ '"' :: ':' :: ' ' ::
           (sv ++ ',' :: ' ' :: st)))) := by
  cases tl with
  | nil =>
    have h2 : (match jsonDumps v with
      | some sv => some ('"' :: (jsonEscape k ++ '"' :: ':' :: ' ' :: sv))
      | none => none) = some so := h
    rcases hv : jsonDumps v with _ | sv
    · rw [hv] at h2
      exact Option.noConfusion h2
    · rw [hv] at h2
      injection h2 with h2
      exact ⟨sv, rfl, Or.inl ⟨rfl, h2.symm⟩⟩
  | cons k1 v1 tl2 =>
    have h2 : (match jsonDumps v, jsonDumpsFields (.cons k1 v1 tl2) with
      | some sv, some st =>
        some ('"' :: (jsonEscape k ++ '"' :: ':' :: ' ' ::
          (sv ++ ',' :: ' ' :: st)))
      | _, _ => none) = some so := h
    rcases hv : jsonDumps v with _ | sv <;>
      rcases ht : jsonDumpsFields (.cons k1 v1 tl2) with _ | st <;>
      rw [hv, ht] at h2
    · exact Option.noConfusion h2
    · exact Option.noConfusion h2
    · exact Option.noConfusion h2
    · injection h2 with h2
      exact ⟨sv, rfl, Or.inr ⟨st, rfl, by simp, h2.symm⟩⟩

/-- One step of the binding parser, given its sub-results. -/
theorem parseFields_step (f : Nat) (s2 r r2 r3 : List Char)
    (k : List Char) (v : Json) (r4 : List Char)
    (hsk : skipWs s2 = '"' :: r)
    (hstr : parseStringBody (r.length + 1) r = some (k, r2))
    (hcol : skipWs r2 = ':' :: r3)
    (hval : parseVal f r3 = some (v, r4)) :
    parseFields (f + 1) s2 =
      (match skipWs r4 with
       | ',' :: r5 =>
         (match parseFields f r5 with
          | some (o, r6) => some (.cons k v o, r6)
          | none => none)
       | '\x7d' :: r5 => some (.cons k v .nil, r5)
       | _ => none) := by
  rw [parseFields, hsk]
  show (match parseStringBody (r.length + 1) r with
    | some (k2, r2x) =>
      (match skipWs r2x with
       | ':' :: r3x =>
         (match parseVal f r3x with
          | some (v2, r4x) =>
            (match skipWs r4x with
             | ',' :: r5 =>
               (match parseFields f r5 with
                | some (o, r6) => some (JsonObj.cons k2 v2 o, r6)
                | none => none)
             | '\x7d' :: r5 => some (JsonObj.cons k2 v2 .nil, r5)
             | _ => none)
          | none => none)
       | _ => none)
    | none => none) = _
  rw [hstr]
  show (match skipWs r2 with
    | ':' :: r3x =>
      (match parseVal f r3x with
       | some (v2, r4x) =>
         (match skipWs r4x with
          | ',' :: r5 =>
            (match parseFields f r5 with
             | some (o, r6) => some (JsonObj.cons k v2 o, r6)
             | none => none)
          | '\x7d' :: r5 => some (JsonObj.cons k v2 .nil, r5)
          | _ => none)
       | none => none)
    | _ => none) = _
  rw [hcol]
  show (match parseVal f r3 with
    | some (v2, r4x) =>
      (match skipWs r4x with
       | ',' :: r5 =>
         (match parseFields f r5 with
          | some (o, r6) => some (JsonObj.cons k v2 o, r6)
          | none => none)
       | '\x7d' :: r5 => some (JsonObj.cons k v2 .nil, r5)
       | _ => none)
    | none => none) = _
  rw [hval]

/-- The parser undoes the serializer: joint statement for values, array
elements and object bindings, by strong induction on the fuel. -/
theorem parse_dumps_round : ∀ fuel : Nat,
    (∀ v s rest, jsonDumps v = some s → stopsNum rest = true →
      s.length < fuel → parseVal fuel (s ++ rest) = some (v, rest)) ∧
    (∀ l s rest, jsonDumpsItems l = some s → l ≠ .nil →
      s.length + 1 < fuel →
      parseItems fuel (s ++ ']' :: rest) = some (l, rest)) ∧
    (∀ o s rest, jsonDumpsFields o = some s → o ≠ .nil →
      s.length + 1 < fuel →
      parseFields fuel (s ++ '\x7d' :: rest) = some (o, rest)) := by
  intro fuel
  induction fuel using Nat.strong_induction_on with
  | _ fuel ih =>
    refine ⟨?_, ?_, ?_⟩
    · intro v s rest hd hstop hlen
      cases fuel with
      | zero => omega
      | succ f =>
        cases v with
        | null =>
          have h2 : some ("null".data) = some s := hd
          injection h2 with h2
          subst h2
          exact (show parseVal (f + 1) (['n', 'u', 'l', 'l'] ++ rest) =
            some (.null, rest) from rfl)
        | bool b =>
          cases b with
          | false =>
            have h2 : some ("false".data) = some s := hd
            injection h2 with h2
            subst h2
            exact (show parseVal (f + 1)
              (['f', 'a', 'l', 's', 'e'] ++ rest) =
              some (.bool false, rest) from rfl)
          | true =>
            have h2 : some ("true".data) = some s := hd
            injection h2 with h2
            subst h2
            exact (show parseVal (f + 1) (['t', 'r', 'u', 'e'] ++ rest) =
              some (.bool true, rest) from rfl)
        | rat q =>
          exact Option.noConfusion
            (show (none : Option (List Char)) = some s from hd)
        | num i =>
          have h2 : some (intChars i) = some s := hd
          injection h2 with h2
          subst h2
          by_cases hneg : i < 0
          · rw [intChars, if_pos hneg, List.cons_append]
            have hpv : parseVal (f + 1)
                ('-' :: (natChars i.natAbs ++ rest)) =
                parseNum ('-' :: (natChars i.natAbs ++ rest)) := rfl
            rw [hpv,
              show '-' :: (natChars i.natAbs ++ rest) =
                intChars i ++ rest from by
                  rw [intChars, if_pos hneg, List.cons_append]]
            exact parseNum_intChars i rest hstop
          · obtain ⟨d, ds, hds⟩ : ∃ d ds, natChars i.toNat = d :: ds := by
              rcases hnn : natChars i.toNat with _ | ⟨d, ds⟩
              · exact absurd hnn (natChars_ne_nil _)
              · exact ⟨d, ds, rfl⟩
            rw [intChars, if_neg hneg, hds, List.cons_append,
              parseVal_digit f d _
                (natChars_digits i.toNat d (by rw [hds]; simp)),
              show d :: (ds ++ rest) = intChars i ++ rest from by
                rw [intChars, if_neg hneg, hds, List.cons_append]]
            exact parseNum_intChars i rest hstop
        | str k =>
          have h2 : some ('"' :: (jsonEscape k ++ ['"'])) = some s := hd
          injection h2 with h2
          subst h2
          rw [List.cons_append, parseVal_quote,
            show (jsonEscape k ++ ['"']) ++ rest =
              jsonEscape k ++ '"' :: rest from by simp,
            parseString_escape k _ rest (by simp; omega)]
        | arr l =>
          cases l with
          | nil =>
            have h2 : some (['[', ']'] : List Char) = some s := hd
            injection h2 with h2
            subst h2
            exact (show parseVal (f + 1) (['[', ']'] ++ rest) =
              some (.arr .nil, rest) from rfl)
          | cons v0 tl =>
            have h2 : (match jsonDumpsItems (JsonList.cons v0 tl) with
              | some si => some ('[' :: (si ++ [']']))
              | none => none) = some s := hd
            rcases hdi : jsonDumpsItems (JsonList.cons v0 tl) with _ | si
            · rw [hdi] at h2
              exact Option.noConfusion h2
            · rw [hdi] at h2
              injection h2 with h2
              subst h2
              obtain ⟨sv, hsv, hcs⟩ := jsonDumpsItems_cons v0 tl si hdi
              obtain ⟨c, t, hct, hclass⟩ := jsonDumps_shape v0 sv hsv
              obtain ⟨t2, hsi2⟩ : ∃ t2, si = c :: t2 := by
                rcases hcs with ⟨_, hsi⟩ | ⟨st, _, _, hsi⟩
                · exact ⟨t, by rw [hsi, hct]⟩
                · exact ⟨t ++ ',' :: ' ' :: st, by rw [hsi, hct]; simp⟩
              rw [List.cons_append,
                show (si ++ [']']) ++ rest = si ++ ']' :: rest from by
                  simp,
                hsi2, List.cons_append,
                parseVal_lbrack_cons f c _
                  (jsonDumps_head_ne_rb c hclass)
                  (jsonDumps_head_not_ws c hclass),
                ← List.cons_append, ← hsi2,
                (ih f (by omega)).2.1 (JsonList.cons v0 tl) si rest hdi
                  (by simp) (by simp at hlen; omega)]
        | obj o =>
          cases o with
          | nil =>
            have h2 : some (['\x7b', '\x7d'] : List Char) = some s := hd
            injection h2 with h2
            subst h2
            exact (show parseVal (f + 1) (['\x7b', '\x7d'] ++ rest) =
              some (.obj .nil, rest) from rfl)
          | cons k0 v0 tl =>
            have h2 : (match jsonDumpsFields (JsonObj.cons k0 v0 tl) with
              | some so => some ('\x7b' :: (so ++ ['\x7d']))
              | none => none) = some s := hd
            rcases hdo : jsonDumpsFields (JsonObj.cons k0 v0 tl)
              with _ | so
            · rw [hdo] at h2
              exact Option.noConfusion h2
            · rw [hdo] at h2
              injection h2 with h2
              subst h2
              obtain ⟨sv, hsv, hcs⟩ := jsonDumpsFields_cons k0 v0 tl so hdo
              obtain ⟨t2, hso2⟩ : ∃ t2, so = '"' :: t2 := by
                rcases hcs with ⟨_, hsi⟩ | ⟨st, _, _, hsi⟩
                · exact ⟨_, hsi⟩
                · exact ⟨_, hsi⟩
              rw [List.cons_append,
                show (so ++ ['\x7d']) ++ rest = so ++ '\x7d' :: rest
                  from by simp,
                hso2, List.cons_append, parseVal_lbrace]
              show (match parseFields f
                  ('"' :: (t2 ++ '\x7d' :: rest)) with
                | some (o2, r) => some (Json.obj o2, r)
                | none => none) = _
              rw [← List.cons_append, ← hso2,
                (ih f (by omega)).2.2 (JsonObj.cons k0 v0 tl) so rest hdo
                  (by simp) (by simp at hlen; omega)]
    · intro l s rest hd hne hlen
      cases fuel with
      | zero => omega
      | succ f =>
        cases l with
        | nil => exact absurd rfl hne
        | cons v0 tl =>
          obtain ⟨sv, hsv, hcs⟩ := jsonDumpsItems_cons v0 tl s hd
          rcases hcs with ⟨htl, hsi⟩ | ⟨st, hst, htlne, hsi⟩
          · subst htl
            subst hsi
            rw [parseItems_step f _ v0 (']' :: rest)
              ((ih f (by omega)).1 v0 s (']' :: rest) hsv rfl
                (by omega))]
            rfl
          · subst hsi
            rw [show (sv ++ ',' :: ' ' :: st) ++ ']' :: rest =
              sv ++ ',' :: ' ' :: (st ++ ']' :: rest) from by simp]
            rw [parseItems_step f _ v0
              (',' :: ' ' :: (st ++ ']' :: rest))
              ((ih f (by omega)).1 v0 sv _ hsv rfl
                (by simp at hlen; omega))]
            show (match parseItems f (' ' :: (st ++ ']' :: rest)) with
              | some (l2, r3) => some (JsonList.cons v0 l2, r3)
              | none => none) = _
            rw [show (' ' :: (st ++ ']' :: rest)) =
              [' '] ++ (st ++ ']' :: rest) from rfl,
              parseItems_ws f [' '] _
                (by intro c hc; simp at hc; subst hc; rfl),
              (ih f (by omega)).2.1 tl st rest hst htlne
                (by simp at hlen; omega)]
    · intro o s rest hd hne hlen
      cases fuel with
      | zero => omega
      | succ f =>
        cases o with
        | nil => exact absurd rfl hne
        | cons k0 v0 tl =>
          obtain ⟨sv, hsv, hcs⟩ := jsonDumpsFields_cons k0 v0 tl s hd
          rcases hcs with ⟨htl, hsi⟩ | ⟨st, hst, htlne, hsi⟩
          · subst htl
            subst hsi
            rw [parseFields_step f _
              (jsonEscape k0 ++ '"' :: (':' :: ' ' ::
                (sv ++ '\x7d' :: rest)))
              (':' :: ' ' :: (sv ++ '\x7d' :: rest))
              (' ' :: (sv ++ '\x7d' :: rest))
              k0 v0 ('\x7d' :: rest)
              (by rw [List.cons_append,
                  skipWs_cons_of_not '"' _ rfl]
                  ; simp)
              (parseString_escape k0 _ _ (by simp; omega))
              (skipWs_cons_of_not ':' _ rfl)
              (by rw [show (' ' :: (sv ++ '\x7d' :: rest)) =
                  [' '] ++ (sv ++ '\x7d' :: rest) from rfl,
                  parseVal_ws f [' '] _
                    (by intro c hc; simp at hc; subst hc; rfl)]
                  ; exact (ih f (by omega)).1 v0 sv ('\x7d' :: rest) hsv
                    rfl (by simp at hlen; omega))]
            rfl
          · subst hsi
            rw [parseFields_step f _
              (jsonEscape k0 ++ '"' :: (':' :: ' ' ::
                ((sv ++ ',' :: ' ' :: st) ++ '\x7d' :: rest)))
              (':' :: ' ' :: ((sv ++ ',' :: ' ' :: st) ++ '\x7d' :: rest))
              (' ' :: ((sv ++ ',' :: ' ' :: st) ++ '\x7d' :: rest))
              k0 v0 (',' :: ' ' :: (st ++ '\x7d' :: rest))
              (by rw [List.cons_append,
                  skipWs_cons_of_not '"' _ rfl]
                  ; simp)
              (parseString_escape k0 _ _ (by simp; omega))
              (skipWs_cons_of_not ':' _ rfl)
              (by rw [show (' ' :: ((sv ++ ',' :: ' ' :: st) ++
                    '\x7d' :: rest)) =
                  [' '] ++ ((sv ++ ',' :: ' ' :: st) ++ '\x7d' :: rest)
                  from rfl,
                  parseVal_ws f [' '] _
                    (by intro c hc; simp at hc; subst hc; rfl),
                  show (sv ++ ',' :: ' ' :: st) ++ '\x7d' :: rest =
                    sv ++ ',' :: ' ' :: (st ++ '\x7d' :: rest) from by
                      simp]
                  ; exact (ih f (by omega)).1 v0 sv
                    (',' :: ' ' :: (st ++ '\x7d' :: rest)) hsv rfl
                    (by simp at hlen; omega))]
            show (match parseFields f (' ' :: (st ++ '\x7d' :: rest)) with
              | some (o2, r6) => some (JsonObj.cons k0 v0 o2, r6)
              | none => none) = _
            rw [show (' ' :: (st ++ '\x7d' :: rest)) =
              [' '] ++ (st ++ '\x7d' :: rest) from rfl,
              parseFields_ws f [' '] _
                (by intro c hc; simp at hc; subst hc; rfl),
              (ih f (by omega)).2.2 tl st rest hst htlne
                (by simp at hlen; omega)]

/-- `json.loads` undoes `json.dumps`. -/
theorem jsonLoads_dumps (v : Json) (s : List Char)
    (h : jsonDumps v = some s) : jsonLoads s = some v := by
  rw [jsonLoads]
  have hA := (parse_dumps_round (s.length + 1)).1 v s [] h rfl (by omega)
  rw [List.append_nil] at hA
  rw [hA]
  rfl

/-- Hex digit characters are printable. -/
theorem hexDigit_ge32 : ∀ m, m < 16 → 32 ≤ (hexDigit m).toNat := by decide

/-- Every character of an escape is printable (at or above `0x20`). -/
theorem escapeChar_ge32 (c : Char) : ∀ d ∈ escapeChar c, 32 ≤ d.toNat := by
  intro d hd
  by_cases h1 : c = '"'
  · subst h1
    rcases (by
      rw [show escapeChar '"' = ['\x5c', '"'] from rfl] at hd
      simpa using hd : d = '\x5c' ∨ d = '"') with rfl | rfl <;> decide
  · by_cases h2 : c = '\x5c'
    · subst h2
      rcases (by
        rw [show escapeChar '\x5c' = ['\x5c', '\x5c'] from rfl] at hd
        simpa using hd : d = '\x5c' ∨ d = '\x5c') with rfl | rfl <;> decide
    · by_cases h3 : c = '\n'
      · subst h3
        rcases (by
          rw [show escapeChar '\n' = ['\x5c', 'n'] from rfl] at hd
          simpa using hd : d = '\x5c' ∨ d = 'n') with rfl | rfl <;> decide
      · by_cases h4 : c = '\t'
        · subst h4
          rcases (by
            rw [show escapeChar '\t' = ['\x5c', 't'] from rfl] at hd
            simpa using hd : d = '\x5c' ∨ d = 't') with rfl | rfl <;>
            decide
        · by_cases h5 : c = '\x0d'
          · subst h5
            rcases (by
              rw [show escapeChar '\x0d' = ['\x5c', 'r'] from rfl] at hd
              simpa using hd : d = '\x5c' ∨ d = 'r') with rfl | rfl <;>
              decide
          · by_cases h6 : c = '\x08'
            · subst h6
              rcases (by
                rw [show escapeChar '\x08' = ['\x5c', 'b'] from rfl] at hd
                simpa using hd : d = '\x5c' ∨ d = 'b') with rfl | rfl <;>
                decide
            · by_cases h7 : c = '\x0c'
              · subst h7
                rcases (by
                  rw [show escapeChar '\x0c' = ['\x5c', 'f'] from rfl]
                    at hd
                  simpa using hd : d = '\x5c' ∨ d = 'f') with rfl | rfl <;>
                  decide
              · by_cases h8 : c.toNat < 32
                · rw [escapeChar, if_neg h1, if_neg h2, if_neg h3,
                    if_neg h4, if_neg h5, if_neg h6, if_neg h7,
                    if_pos h8] at hd
                  simp at hd
                  rcases hd with rfl | rfl | rfl | rfl | rfl
                  · decide
                  · decide
                  · decide
                  · exact hexDigit_ge32 (c.toNat / 16) (by omega)
                  · exact hexDigit_ge32 (c.toNat % 16) (by omega)
                · rw [escapeChar, if_neg h1, if_neg h2, if_neg h3,
                    if_neg h4, if_neg h5, if_neg h6, if_neg h7,
                    if_neg h8] at hd
                  simp at hd
                  subst hd
                  omega

/-- The decimal print is printable. -/
theorem natCharsGo_ge32 : ∀ fuel n, n < fuel →
    ∀ c ∈ natCharsGo fuel n, 32 ≤ c.toNat := by
  intro fuel
  induction fuel with
  | zero => intro n h; omega
  | succ f ih =>
    intro n h c hc
    rw [natCharsGo] at hc
    by_cases h10 : n < 10
    · rw [if_pos h10] at hc
      simp at hc
      subst hc
      rw [digit_toNat n h10]
      omega
    · rw [if_neg h10] at hc
      rcases List.mem_append.mp hc with hc | hc
      · exact ih (n / 10) (by omega) c hc
      · simp at hc
        subst hc
        rw [digit_toNat (n % 10) (Nat.mod_lt _ (by norm_num))]
        omega

/-- The decimal print is printable. -/
theorem natChars_ge32 (n : Nat) : ∀ c ∈ natChars n, 32 ≤ c.toNat :=
  natCharsGo_ge32 (n + 1) n (by omega)

mutual
/-- A dumped value contains no control characters. -/
theorem jsonDumps_ge32 : (v : Json) → ∀ s, jsonDumps v = some s →
    ∀ c ∈ s, 32 ≤ c.toNat
  | .null => by
    intro s h c hc
    have h2 : some ("null".data) = some s := h
    injection h2 with h2
    subst h2
    have hc2 : c ∈ ['n', 'u', 'l', 'l'] := hc
    simp at hc2
    rcases hc2 with rfl | rfl | rfl <;> decide
  | .bool b => by
    intro s h c hc
    cases b with
    | false =>
      have h2 : some ("false".data) = some s := h
      injection h2 with h2
      subst h2
      have hc2 : c ∈ ['f', 'a', 'l', 's', 'e'] := hc
      simp at hc2
      rcases hc2 with rfl | rfl | rfl | rfl | rfl <;> decide
    | true =>
      have h2 : some ("true".data) = some s := h
      injection h2 with h2
      subst h2
      have hc2 : c ∈ ['t', 'r', 'u', 'e'] := hc
      simp at hc2
      rcases hc2 with rfl | rfl | rfl | rfl <;> decide
  | .num i => by
    intro s h c hc
    have h2 : some (intChars i) = some s := h
    injection h2 with h2
    subst h2
    rw [intChars] at hc
    by_cases hneg : i < 0
    · rw [if_pos hneg] at hc
      rcases List.mem_cons.mp hc with rfl | hc
      · decide
      · exact natChars_ge32 _ c hc
    · rw [if_neg hneg] at hc
      exact natChars_ge32 _ c hc
  | .rat q => by
    intro s h
    exact absurd (show (none : Option (List Char)) = some s from h)
      (by simp)
  | .str k => by
    intro s h c hc
    have h2 : some ('"' :: (jsonEscape k ++ ['"'])) = some s := h
    injection h2 with h2
    subst h2
    rcases List.mem_cons.mp hc with rfl | hc
    · decide
    · rcases List.mem_append.mp hc with hc | hc
      · rw [jsonEscape, List.mem_flatten] at hc
        obtain ⟨l, hl, hcl⟩ := hc
        rw [List.mem_map] at hl
        obtain ⟨d, _, rfl⟩ := hl
        exact escapeChar_ge32 d c hcl
      · simp at hc
        subst hc
        decide
  | .arr l => by
    intro s h c hc
    have h2 : (match jsonDumpsItems l with
      | some si => some ('[' :: (si ++ [']']))
      | none => none) = some s := h
    rcases hdi : jsonDumpsItems l with _ | si
    · rw [hdi] at h2
      exact absurd h2 (by simp)
    · rw [hdi] at h2
      injection h2 with h2
      subst h2
      rcases List.mem_cons.mp hc with rfl | hc
      · decide
      · rcases List.mem_append.mp hc with hc | hc
        · exact jsonDumpsItems_ge32 l si hdi c hc
        · simp at hc
          subst hc
          decide
  | .obj o => by
    intro s h c hc
    have h2 : (match jsonDumpsFields o with
      | some so => some ('\x7b' :: (so ++ ['\x7d']))
      | none => none) = some s := h
    rcases hdo : jsonDumpsFields o with _ | so
    · rw [hdo] at h2
      exact absurd h2 (by simp)
    · rw [hdo] at h2
      injection h2 with h2
      subst h2
      rcases List.mem_cons.mp hc with rfl | hc
      · decide
      · rcases List.mem_append.mp hc with hc | hc
        · exact jsonDumpsFields_ge32 o so hdo c hc
        · simp at hc
          subst hc
          decide
  termination_by structural v => v

/-- Dumped array elements contain no control characters. -/
theorem jsonDumpsItems_ge32 : (l : JsonList) → ∀ s,
    jsonDumpsItems l = some s → ∀ c ∈ s, 32 ≤ c.toNat
  | .nil => by
    intro s h c hc
    have h2 : some ([] : List Char) = some s := h
    injection h2 with h2
    subst h2
    cases hc
  | .cons v .nil => by
    intro s h c hc
    have h2 : (match jsonDumps v with
      | some s2 => some s2
      | none => none) = some s := h
    rcases hv : jsonDumps v with _ | sv
    · rw [hv] at h2
      exact absurd h2 (by simp)
    · rw [hv] at h2
      injection h2 with h2
      subst h2
      exact jsonDumps_ge32 v sv hv c hc
  | .cons v (.cons v1 tl) => by
    intro s h c hc
    have h2 : (match jsonDumps v, jsonDumpsItems (.cons v1 tl) with
      | some s2, some st => some (s2 ++ ',' :: ' ' :: st)
      | _, _ => none) = some s := h
    rcases hv : jsonDumps v with _ | sv <;>
      rcases ht : jsonDumpsItems (.cons v1 tl) with _ | st <;>
      rw [hv, ht] at h2
    · exact absurd h2 (by simp)
    · exact absurd h2 (by simp)
    · exact absurd h2 (by simp)
    · injection h2 with h2
      subst h2
      rcases List.mem_append.mp hc with hc | hc
      · exact jsonDumps_ge32 v sv hv c hc
      · rcases List.mem_cons.mp hc with rfl | hc
        · decide
        · rcases List.mem_cons.mp hc with rfl | hc
          · decide
          · exact jsonDumpsItems_ge32 (.cons v1 tl) st ht c hc
  termination_by structural l => l

/-- Dumped object bindings contain no control characters. -/
theorem jsonDumpsFields_ge32 : (o : JsonObj) → ∀ s,
    jsonDumpsFields o = some s → ∀ c ∈ s, 32 ≤ c.toNat
  | .nil => by
    intro s h c hc
    have h2 : some ([] : List Char) = some s := h
    injection h2 with h2
    subst h2
    cases hc
  | .cons k v .nil => by
    intro s h c hc
    have h2 : (match jsonDumps v with
      | some sv => some ('"' :: (jsonEscape k ++ '"' :: ':' :: ' ' :: sv))
      | none => none) = some s := h
    rcases hv : jsonDumps v with _ | sv
    · rw [hv] at h2
      exact absurd h2 (by simp)
    · rw [hv] at h2
      injection h2 with h2
      subst h2
      rcases List.mem_cons.mp hc with rfl | hc
      · decide
      · rcases List.mem_append.mp hc with hc | hc
        · rw [jsonEscape, List.mem_flatten] at hc
          obtain ⟨l2, hl, hcl⟩ := hc
          rw [List.mem_map] at hl
          obtain ⟨d, _, rfl⟩ := hl
          exact escapeChar_ge32 d c hcl
        · rcases List.mem_cons.mp hc with rfl | hc
          · decide
          · rcases List.mem_cons.mp hc with rfl | hc
            · decide
            · rcases List.mem_cons.mp hc with rfl | hc
              · decide
              · exact jsonDumps_ge32 v sv hv c hc
  | .cons k v (.cons k1 v1 tl) => by
    intro s h c hc
    have h2 : (match jsonDumps v, jsonDumpsFields (.cons k1 v1 tl) with
      | some sv, some st =>
        some ('"' :: (jsonEscape k ++ '"' :: ':' :: ' ' ::
          (sv ++ ',' :: ' ' :: st)))
      | _, _ => none) = some s := h
    rcases hv : jsonDumps v with _ | sv <;>
      rcases ht : jsonDumpsFields (.cons k1 v1 tl) with _ | st <;>
      rw [hv, ht] at h2
    · exact absurd h2 (by simp)
    · exact absurd h2 (by simp)
    · exact absurd h2 (by simp)
    · injection h2 with h2
      subst h2
      rcases List.mem_cons.mp hc with rfl | hc
      · decide
      · rcases List.mem_append.mp hc with hc | hc
        · rw [jsonEscape, List.mem_flatten] at hc
          obtain ⟨l2, hl, hcl⟩ := hc
          rw [List.mem_map] at hl
          obtain ⟨d, _, rfl⟩ := hl
          exact escapeChar_ge32 d c hcl
        · rcases List.mem_cons.mp hc with rfl | hc
          · decide
          · rcases List.mem_cons.mp hc with rfl | hc
            · decide
            · rcases List.mem_cons.mp hc with rfl | hc
              · decide
              · rcases List.mem_append.mp hc with hc | hc
                · exact jsonDumps_ge32 v sv hv c hc
                · rcases List.mem_cons.mp hc with rfl | hc
                  · decide
                  · rcases List.mem_cons.mp hc with rfl | hc
                    · decide
                    · exact jsonDumpsFields_ge32 (.cons k1 v1 tl) st ht
                        c hc
  termination_by structural o => o
end

/-- A dumped value contains no raw newline. -/
theorem jsonDumps_no_nl (v : Json) (s : List Char)
    (h : jsonDumps v = some s) : '\n' ∉ s := fun hm =>
  absurd (jsonDumps_ge32 v s h '\n' hm) (by decide)

/-- A list is a prefix of itself extended. -/
theorem isPrefixOf_append_self (l t : List Char) :
    l.isPrefixOf (l ++ t) = true := by
  rw [List.isPrefixOf_iff_prefix]
  exact List.prefix_append l t

/-- Unfolding `containsSub` at a cons. -/
theorem containsSub_cons (pat : List Char) (c : Char) (rest : List Char) :
    containsSub pat (c :: rest) =
      (pat.isPrefixOf (c :: rest) || containsSub pat rest) := rfl

/-- A prefix occurrence is an occurrence. -/
theorem containsSub_of_isPrefixOf (pat x : List Char)
    (h : pat.isPrefixOf x = true) : containsSub pat x = true := by
  cases x with
  | nil =>
    have hp : pat = [] := by
      rw [List.isPrefixOf_iff_prefix] at h
      simpa using h
    simp [containsSub, hp]
  | cons c r =>
    rw [containsSub_cons, h, Bool.true_or]

/-- An occurrence in the middle is an occurrence. -/
theorem containsSub_middle (sep x y : List Char) :
    containsSub sep (x ++ (sep ++ y)) = true := by
  induction x with
  | nil =>
    rw [List.nil_append]
    exact containsSub_of_isPrefixOf sep _ (isPrefixOf_append_self sep y)
  | cons c x2 ih =>
    rw [List.cons_append, containsSub_cons, ih, Bool.or_true]

/-- A pattern with no occurrence is nonempty. -/
theorem ne_nil_of_not_containsSub (sep x : List Char) (c : Char)
    (r : List Char) (hx : x = c :: r) (h : containsSub sep x = false) :
    sep ≠ [] := by
  intro hsep
  subst hsep
  subst hx
  rw [containsSub_cons] at h
  have : List.isPrefixOf ([] : List Char) (c :: r) = true := rfl
  rw [this, Bool.true_or] at h
  cases h

/-- `splitOnceAfter` cuts right after a leading separator. -/
theorem splitOnceAfter_self (sep x : List Char) (hsep : sep ≠ []) :
    splitOnceAfter sep (sep ++ x) = some ([], x) := by
  cases sep with
  | nil => exact absurd rfl hsep
  | cons c s2 =>
    rw [List.cons_append, splitOnceAfter,
      if_pos (by
        rw [← List.cons_append]
        exact isPrefixOf_append_self (c :: s2) x)]
    rw [← List.cons_append, List.drop_left]

/-- Separator-free followed by newline-separated: no occurrence. -/
theorem containsSub_append_nl (sep l t : List Char) (hnl : '\n' ∉ sep)
    (hl : containsSub sep l = false)
    (ht : containsSub sep ('\n' :: t) = false) :
    containsSub sep (l ++ '\n' :: t) = false := by
  induction l with
  | nil => simpa using ht
  | cons c l2 ih =>
    rw [List.cons_append, containsSub_cons]
    rw [containsSub_cons] at hl
    have hl1 : List.isPrefixOf sep (c :: l2) = false := by
      rcases hb : List.isPrefixOf sep (c :: l2) with _ | _
      · rfl
      · rw [hb] at hl
        simp at hl
    have hl2 : containsSub sep l2 = false := by
      rcases hb : containsSub sep l2 with _ | _
      · rfl
      · rw [hb] at hl
        simp at hl
    rw [ih hl2, Bool.or_false]
    rcases hb : List.isPrefixOf sep (c :: (l2 ++ '\n' :: t)) with _ | _
    · rfl
    · exfalso
      rw [List.isPrefixOf_iff_prefix] at hb
      by_cases hle : sep.length ≤ (c :: l2).length
      · have hpre : sep <+: (c :: l2) :=
          List.prefix_of_prefix_length_le
            (by simpa [List.cons_append] using hb)
            (List.prefix_append (c :: l2) ('\n' :: t)) hle
        rw [← List.isPrefixOf_iff_prefix] at hpre
        rw [hpre] at hl1
        cases hl1
      · have hpre : ((c :: l2) ++ ['\n']) <+: sep :=
          List.prefix_of_prefix_length_le
            (show ((c :: l2) ++ ['\n']) <+: (c :: (l2 ++ '\n' :: t))
              from ⟨t, by simp⟩)
            (by simpa [List.cons_append] using hb)
            (by simp at hle ⊢; omega)
        exact hnl (hpre.subset (by simp))

/-- A newline head cannot start an occurrence of a newline-free
pattern. -/
theorem containsSub_cons_nl (sep t : List Char) (hnl : '\n' ∉ sep)
    (hsep : sep ≠ []) (ht : containsSub sep t = false) :
    containsSub sep ('\n' :: t) = false := by
  rw [containsSub_cons, ht, Bool.or_false]
  cases sep with
  | nil => exact absurd rfl hsep
  | cons a as =>
    rcases hb : List.isPrefixOf (a :: as) ('\n' :: t) with _ | _
    · rfl
    · exfalso
      rw [List.isPrefixOf_iff_prefix] at hb
      obtain ⟨u, hu⟩ := hb
      have ha : a = '\n' := by
        have h3 := congrArg (fun l => l.head?) hu
        simpa using h3
      exact hnl (by rw [ha] at *; exact List.mem_cons_self _ _)

/-- `splitOnceAfter` finds the marker when the prefix is free of it and
ends in a newline the marker lacks. -/
theorem splitOnceAfter_marker : ∀ (x y sep : List Char),
    containsSub sep x = false → '\n' ∉ sep →
    x.getLast? = some '\n' →
    splitOnceAfter sep (x ++ (sep ++ y)) = some (x, y) := by
  intro x
  induction x with
  | nil =>
    intro y sep _ _ hlast
    simp at hlast
  | cons c x2 ih =>
    intro y sep hx hnl hlast
    have hsep : sep ≠ [] := ne_nil_of_not_containsSub sep _ c x2 rfl hx
    rw [List.cons_append, splitOnceAfter]
    have hnp : List.isPrefixOf sep (c :: (x2 ++ (sep ++ y))) = false := by
      rcases hb : List.isPrefixOf sep (c :: (x2 ++ (sep ++ y)))
        with _ | _
      · rfl
      · exfalso
        rw [List.isPrefixOf_iff_prefix] at hb
        by_cases hle : sep.length ≤ (c :: x2).length
        · have hpre : sep <+: (c :: x2) :=
            List.prefix_of_prefix_length_le
              (by simpa [List.cons_append] using hb)
              (List.prefix_append (c :: x2) (sep ++ y)) hle
          rw [← List.isPrefixOf_iff_prefix] at hpre
          rw [containsSub_of_isPrefixOf sep _ hpre] at hx
          cases hx
        · have hmem : '\n' ∈ (c :: x2) := by
            obtain ⟨hne2, heq⟩ := List.mem_getLast?_eq_getLast
              (Option.mem_def.mpr hlast)
            rw [heq]
            exact List.getLast_mem hne2
          have hpre : (c :: x2) <+: sep :=
            List.prefix_of_prefix_length_le
              (show (c :: x2) <+: (c :: (x2 ++ (sep ++ y)))
                from ⟨sep ++ y, by simp⟩)
              (by simpa [List.cons_append] using hb)
              (by simp at hle ⊢; omega)
          exact hnl (hpre.subset hmem)
    rw [if_neg (by simp [hnp])]
    cases x2 with
    | nil =>
      rw [List.nil_append, splitOnceAfter_self sep y hsep]
    | cons d x3 =>
      rw [ih y sep
        (by
          rw [containsSub_cons] at hx
          rcases hb : containsSub sep (d :: x3) with _ | _
          · rfl
          · rw [hb] at hx
            simp at hx)
        hnl
        (by
          rw [List.getLast?_cons_cons] at hlast
          exact hlast)]

/-- `splitOnChar` on a separator-free list. -/
theorem splitOnChar_no_sep (sep : Char) :
    ∀ l : List Char, sep ∉ l → splitOnChar sep l = [l] := by
  intro l
  induction l with
  | nil => intro _; rfl
  | cons c l2 ih =>
    intro h
    rw [splitOnChar, if_neg (fun hc => h (by rw [hc]; simp)),
      ih (fun hm => h (List.mem_cons_of_mem _ hm))]

/-- `splitOnChar` splits exactly at the separator. -/
theorem splitOnChar_append_sep (sep : Char) :
    ∀ (l t : List Char), sep ∉ l →
    splitOnChar sep (l ++ sep :: t) = l :: splitOnChar sep t := by
  intro l
  induction l with
  | nil =>
    intro t _
    rw [List.nil_append, splitOnChar, if_pos rfl]
  | cons c l2 ih =>
    intro t h
    rw [List.cons_append, splitOnChar,
      if_neg (fun hc => h (by rw [hc]; simp)),
      ih t (fun hm => h (List.mem_cons_of_mem _ hm))]

/-- The flattened newline-terminated lines, as the joined body plus a
final newline. -/
theorem flatten_eq_bodyJoin : ∀ L : List (List Char), L ≠ [] →
    ((L.map (fun l => l ++ ['\n'])).flatten) = bodyJoin L ++ ['\n'] := by
  intro L
  induction L with
  | nil => intro h; exact absurd rfl h
  | cons l L2 ih =>
    intro _
    cases L2 with
    | nil => simp [bodyJoin]
    | cons l2 L3 =>
      rw [List.map_cons, List.flatten_cons, ih (by simp),
        show bodyJoin (l :: l2 :: L3) = l ++ '\n' :: bodyJoin (l2 :: L3)
          from rfl]
      simp

/-- Splitting the joined body recovers the lines. -/
theorem splitOnChar_bodyJoin : ∀ L : List (List Char), L ≠ [] →
    (∀ l ∈ L, '\n' ∉ l) → splitOnChar '\n' (bodyJoin L) = L := by
  intro L
  induction L with
  | nil => intro h; exact absurd rfl h
  | cons l L2 ih =>
    intro _ hfree
    cases L2 with
    | nil => exact splitOnChar_no_sep '\n' l (hfree l (by simp))
    | cons l2 L3 =>
      rw [show bodyJoin (l :: l2 :: L3) = l ++ '\n' :: bodyJoin (l2 :: L3)
          from rfl,
        splitOnChar_append_sep '\n' l _ (hfree l (by simp)),
        ih (by simp) (fun l3 hl3 => hfree l3 (List.mem_cons_of_mem _ hl3))]

/-- Dropping leading whitespace through a whitespace head. -/
theorem pyLStrip_cons_ws (c : Char) (s : List Char)
    (hc : pyIsSpace c = true) : pyLStrip (c :: s) = pyLStrip s := by
  simp [pyLStrip, List.dropWhile_cons, hc]

/-- `pyLStrip` stops at a non-whitespace head. -/
theorem pyLStrip_cons_not (c : Char) (s : List Char)
    (hc : pyIsSpace c = false) : pyLStrip (c :: s) = c :: s := by
  simp [pyLStrip, List.dropWhile_cons, hc]

/-- `pyRStrip` removes a trailing newline. -/
theorem pyRStrip_append_nl (s : List Char) :
    pyRStrip (s ++ ['\n']) = pyRStrip s := by
  simp [pyRStrip, List.reverse_append, List.dropWhile_cons,
    show pyIsSpace '\n' = true from rfl]

/-- `pyRStrip` keeps a non-whitespace last character. -/
theorem pyRStrip_last_not (t : List Char) (d : Char)
    (hd : pyIsSpace d = false) : pyRStrip (t ++ [d]) = t ++ [d] := by
  simp [pyRStrip, List.reverse_append, List.dropWhile_cons, hd]

/-- The strip `load` applies to a freshly saved body. -/
theorem pyStrip_nl_wrap (x : List Char) (c d : Char)
    (x1 x2 : List Char) (hx : x = c :: x1) (hlast : x = x2 ++ [d])
    (hc : pyIsSpace c = false) (hd : pyIsSpace d = false) :
    pyStrip ('\n' :: (x ++ ['\n'])) = x := by
  rw [pyStrip, pyLStrip_cons_ws '\n' _ rfl, hx, List.cons_append,
    pyLStrip_cons_not c _ hc, ← List.cons_append, ← hx,
    pyRStrip_append_nl, hlast, pyRStrip_last_not x2 d hd]

/-- `jsonDumps` of an object is brace-wrapped. -/
theorem jsonDumps_obj_shape (o : JsonObj) (s : List Char)
    (h : jsonDumps (.obj o) = some s) :
    ∃ m, s = '\x7b' :: (m ++ ['\x7d']) := by
  have h2 : (match jsonDumpsFields o with
    | some so => some ('\x7b' :: (so ++ ['\x7d']))
    | none => none) = some s := h
  rcases hdo : jsonDumpsFields o with _ | so
  · rw [hdo] at h2
    exact Option.noConfusion h2
  · rw [hdo] at h2
    injection h2 with h2
    exact ⟨so, h2.symm⟩

/-- Shape of the joined body of object lines: brace-delimited at both
ends. -/
theorem bodyJoin_shape : ∀ L : List (List Char), L ≠ [] →
    (∀ l ∈ L, ∃ m, l = '\x7b' :: (m ++ ['\x7d'])) →
    ∃ x1 x2, bodyJoin L = '\x7b' :: x1 ∧ bodyJoin L = x2 ++ ['\x7d'] := by
  intro L
  induction L with
  | nil => intro h; exact absurd rfl h
  | cons l L2 ih =>
    intro _ hsh
    cases L2 with
    | nil =>
      obtain ⟨m, hm⟩ := hsh l (by simp)
      exact ⟨m ++ ['\x7d'], '\x7b' :: m, by
        rw [show bodyJoin [l] = l from rfl, hm], by
        rw [show bodyJoin [l] = l from rfl, hm]
        simp⟩
    | cons l2 L3 =>
      obtain ⟨x1, x2, h1, h2⟩ := ih (by simp)
        (fun l3 hl3 => hsh l3 (List.mem_cons_of_mem _ hl3))
      obtain ⟨m, hm⟩ := hsh l (by simp)
      refine ⟨m ++ ['\x7d'] ++ '\n' :: bodyJoin (l2 :: L3),
        l ++ '\n' :: x2, ?_, ?_⟩
      · rw [show bodyJoin (l :: l2 :: L3) =
          l ++ '\n' :: bodyJoin (l2 :: L3) from rfl, hm]
        simp
      · rw [show bodyJoin (l :: l2 :: L3) =
          l ++ '\n' :: bodyJoin (l2 :: L3) from rfl, h2]
        simp

/-- Setting a key makes it readable. -/
theorem JsonObj.get_set_self (k : List Char) (v : Json) :
    (o : JsonObj) → (JsonObj.set k v o).get k = some v
  | .nil => by simp [JsonObj.set, JsonObj.get]
  | .cons k2 v2 tl => by
    by_cases h2 : k2 = k
    · subst h2
      simp [JsonObj.set, JsonObj.get]
    · simp only [JsonObj.set, if_neg h2, JsonObj.get, if_neg h2,
        JsonObj.get_set_self k v tl]
  termination_by structural o => o

/-- The saved header carries the header sentinel. -/
theorem saveHeader_sid (header : JsonObj) (now : List Char) :
    JsonObj.get "segment_id".data (saveHeader header now) =
      some (.str "__header__".data) := by
  rw [saveHeader, JsonObj.setDefault,
    JsonObj.get_set_ne "created_at".data "segment_id".data _ (by decide),
    JsonObj.setDefault,
    JsonObj.get_set_ne "product".data "segment_id".data _ (by decide),
    JsonObj.setDefault,
    JsonObj.get_set_ne "version".data "segment_id".data _ (by decide),
    JsonObj.get_set_self]

/-- The saved audit carries the audit sentinel. -/
theorem saveAudit_sid (audit : JsonObj) (now : List Char) :
    JsonObj.get "segment_id".data (saveAudit audit now) =
      some (.str "__audit__".data) := by
  rw [saveAudit, JsonObj.setDefault,
    JsonObj.get_set_ne "created_at".data "segment_id".data _ (by decide),
    JsonObj.get_set_self]

/-- The footer dict carries the footer sentinel. -/
theorem footerData_sid (mf now : List Char) (n : Nat) :
    JsonObj.get "segment_id".data (footerData mf now n) =
      some (.str "__footer__".data) := by
  rw [footerData]
  show JsonObj.get "segment_id".data
    (JsonObj.cons "segment_id".data (.str "__footer__".data) _) = _
  rw [JsonObj.get, if_pos rfl]

/-- The footer dict stores the manifest hash. -/
theorem footerData_manifest (mf now : List Char) (n : Nat) :
    JsonObj.get "manifest_sha256".data (footerData mf now n) =
      some (.str mf) := by
  rw [footerData]
  show JsonObj.get "manifest_sha256".data
    (JsonObj.cons "segment_id".data (.str "__footer__".data)
      (JsonObj.cons "manifest_sha256".data (.str mf) _)) = _
  rw [JsonObj.get, if_neg (by decide), JsonObj.get, if_pos rfl]

/-- Stripping an object line is the identity (and nonempty). -/
theorem pyStrip_obj_line (m : List Char) :
    pyStrip ('\x7b' :: (m ++ ['\x7d'])) = '\x7b' :: (m ++ ['\x7d']) := by
  rw [pyStrip, pyLStrip_cons_not '\x7b' _ (by decide),
    show ('\x7b' :: (m ++ ['\x7d'])) = ('\x7b' :: m) ++ ['\x7d'] from by
      simp,
    pyRStrip_last_not _ '\x7d' (by decide)]

/-- A dumped object line does not strip to blank. -/
theorem pyStrip_dump_ne (l : List Char) (o : JsonObj)
    (h : jsonDumps (.obj o) = some l) : ¬ pyStrip l = [] := by
  obtain ⟨m, hm⟩ := jsonDumps_obj_shape o l h
  subst hm
  rw [pyStrip_obj_line]
  simp

/-- One classification step of the `load` loop on an object line. -/
theorem loadLoop_cons_obj (line : List Char) (rest : List (List Char))
    (h : JsonObj) (cs : List JsonObj) (a f o : JsonObj)
    (hstrip : ¬ pyStrip line = [])
    (hload : jsonLoads line = some (.obj o)) :
    loadLoop (line :: rest) (h, cs, a, f) =
      (if JsonObj.get "segment_id".data o =
          some (.str "__header__".data) then loadLoop rest (o, cs, a, f)
       else if JsonObj.get "segment_id".data o =
           some (.str "__audit__".data) then loadLoop rest (h, cs, o, f)
       else if JsonObj.get "segment_id".data o =
           some (.str "__footer__".data) then loadLoop rest (h, cs, a, o)
       else loadLoop rest (h, cs ++ [o], a, f)) := by
  rw [loadLoop, if_neg hstrip, hload]

/-- The card lines of the saved body append the cards in order. -/
theorem loadLoop_cards (cards : List JsonObj) :
    ∀ (lines : List (List Char)),
    cardLinesOpt cards = some lines →
    (∀ c ∈ cards, ∃ s, JsonObj.get "segment_id".data c =
      some (.str s) ∧ s ≠ "__header__".data ∧ s ≠ "__audit__".data ∧
      s ≠ "__footer__".data) →
    ∀ (tail2 : List (List Char)) (h : JsonObj) (cs : List JsonObj)
      (a f : JsonObj),
      loadLoop (lines ++ tail2) (h, cs, a, f) =
        loadLoop tail2 (h, cs ++ cards, a, f) := by
  induction cards with
  | nil =>
    intro lines hlines _ tail2 h cs a f
    have h2 : some ([] : List (List Char)) = some lines := hlines
    injection h2 with h2
    subst h2
    simp
  | cons c0 rest ih =>
    intro lines hlines hsids tail2 h cs a f
    have h2 : (match jsonDumps (.obj c0), cardLinesOpt rest with
      | some l, some ls => some (l :: ls)
      | _, _ => none) = some lines := hlines
    rcases hdc : jsonDumps (.obj c0) with _ | l <;>
      rcases hcr : cardLinesOpt rest with _ | ls <;>
      rw [hdc, hcr] at h2
    · exact Option.noConfusion h2
    · exact Option.noConfusion h2
    · exact Option.noConfusion h2
    · injection h2 with h2
      subst h2
      obtain ⟨s, hsid, hs1, hs2, hs3⟩ := hsids c0 (by simp)
      rw [List.cons_append,
        loadLoop_cons_obj l _ h cs a f c0 (pyStrip_dump_ne l c0 hdc)
          (jsonLoads_dumps _ _ hdc),
        if_neg (by
          rw [hsid]
          intro heq
          injection heq with heq
          injection heq with heq
          exact hs1 heq),
        if_neg (by
          rw [hsid]
          intro heq
          injection heq with heq
          injection heq with heq
          exact hs2 heq),
        if_neg (by
          rw [hsid]
          intro heq
          injection heq with heq
          injection heq with heq
          exact hs3 heq),
        ih ls hcr (fun c hm => hsids c (List.mem_cons_of_mem _ hm))
          tail2 h (cs ++ [c0]) a f,
        show (cs ++ [c0]) ++ rest = cs ++ c0 :: rest from by simp]

/-- No occurrence of a newline-free pattern in the newline-led
flattened lines. -/
theorem containsSub_flatten (sep : List Char) (hnl : '\n' ∉ sep)
    (hsep : sep ≠ []) :
    ∀ L : List (List Char), (∀ l ∈ L, containsSub sep l = false) →
    containsSub sep ('\n' :: ((L.map (fun l => l ++ ['\n'])).flatten))
      = false := by
  intro L
  induction L with
  | nil =>
    intro _
    refine containsSub_cons_nl sep [] hnl hsep ?_
    rcases hs : sep with _ | ⟨c, r⟩
    · exact absurd hs hsep
    · simp [containsSub]
  | cons l L2 ih =>
    intro hfree
    rw [List.map_cons, List.flatten_cons,
      show (l ++ ['\n']) ++ (L2.map (fun l2 => l2 ++ ['\n'])).flatten =
        l ++ '\n' :: (L2.map (fun l2 => l2 ++ ['\n'])).flatten from by
          simp]
    refine containsSub_cons_nl sep _ hnl hsep ?_
    exact containsSub_append_nl sep l _ hnl (hfree l (by simp))
      (ih (fun l2 hl2 => hfree l2 (List.mem_cons_of_mem _ hl2)))

/-- Every card line is the dump of some object. -/
theorem cardLinesOpt_shapes : ∀ (cards : List JsonObj)
    (lines : List (List Char)), cardLinesOpt cards = some lines →
    ∀ l ∈ lines, ∃ o : JsonObj, jsonDumps (.obj o) = some l := by
  intro cards
  induction cards with
  | nil =>
    intro lines h l hl
    have h2 : some ([] : List (List Char)) = some lines := h
    injection h2 with h2
    subst h2
    cases hl
  | cons c0 rest ih =>
    intro lines h l hl
    have h2 : (match jsonDumps (.obj c0), cardLinesOpt rest with
      | some l2, some ls => some (l2 :: ls)
      | _, _ => none) = some lines := h
    rcases hdc : jsonDumps (.obj c0) with _ | l2 <;>
      rcases hcr : cardLinesOpt rest with _ | ls <;>
      rw [hdc, hcr] at h2
    · exact Option.noConfusion h2
    · exact Option.noConfusion h2
    · exact Option.noConfusion h2
    · injection h2 with h2
      subst h2
      rcases List.mem_cons.mp hl with rfl | hl
      · exact ⟨c0, hdc⟩
      · exact ih ls hcr l hl

/-- Loading a saved file: the body is cut at the markers, stripped,
split back into the very lines that were written, classified, and the
cards sorted. -/
theorem loadModel_of_lines (allL : List (List Char)) (hne : allL ≠ [])
    (hshapes : ∀ l ∈ allL, ∃ o : JsonObj, jsonDumps (.obj o) = some l)
    (hnoend : ∀ l ∈ allL, containsSub DATASET_END l = false)
    (res : JsonObj × List JsonObj × JsonObj × JsonObj)
    (hloop : loadLoop allL (.nil, [], .nil, .nil) = .ok res) :
    loadModel (DATASET_BEGIN ++ '\n' ::
      ((allL.map (fun l => l ++ ['\n'])).flatten ++
        (DATASET_END ++ ['\n']))) =
      .ok (res.1, res.2.1.insertionSort cardLe, res.2.2.1, res.2.2.2) := by
  have hobj : ∀ l ∈ allL, ∃ m, l = '\x7b' :: (m ++ ['\x7d']) := by
    intro l hl
    obtain ⟨o, ho⟩ := hshapes l hl
    exact jsonDumps_obj_shape o l ho
  have hfree : ∀ l ∈ allL, '\n' ∉ l := by
    intro l hl
    obtain ⟨o, ho⟩ := hshapes l hl
    exact jsonDumps_no_nl _ l ho
  have hflat : ((allL.map (fun l => l ++ ['\n'])).flatten) =
      bodyJoin allL ++ ['\n'] := flatten_eq_bodyJoin allL hne
  obtain ⟨x1, x2, hbj1, hbj2⟩ := bodyJoin_shape allL hne hobj
  have hb1 : containsSub DATASET_BEGIN (DATASET_BEGIN ++ '\n' ::
      ((allL.map (fun l => l ++ ['\n'])).flatten ++
        (DATASET_END ++ ['\n']))) = true :=
    containsSub_of_isPrefixOf _ _ (isPrefixOf_append_self _ _)
  have hb2 : containsSub DATASET_END (DATASET_BEGIN ++ '\n' ::
      ((allL.map (fun l => l ++ ['\n'])).flatten ++
        (DATASET_END ++ ['\n']))) = true := by
    rw [show DATASET_BEGIN ++ '\n' ::
        ((allL.map (fun l => l ++ ['\n'])).flatten ++
          (DATASET_END ++ ['\n'])) =
      (DATASET_BEGIN ++ '\n' ::
        (allL.map (fun l => l ++ ['\n'])).flatten) ++
        (DATASET_END ++ ['\n']) from by simp]
    exact containsSub_middle _ _ _
  rw [loadModel, if_neg (by rw [hb1, hb2]; simp),
    splitOnceAfter_self DATASET_BEGIN _ (by decide)]
  show (match loadLoop (pySplitLines (pyStrip
      (match splitOnceAfter DATASET_END
        ('\n' :: ((allL.map (fun l => l ++ ['\n'])).flatten ++
          (DATASET_END ++ ['\n']))) with
       | none => '\n' :: ((allL.map (fun l => l ++ ['\n'])).flatten ++
          (DATASET_END ++ ['\n']))
       | some (body, _) => body)))
      (.nil, [], .nil, .nil) with
    | Except.error e => Except.error e
    | Except.ok (h, cs, a, f) =>
      Except.ok (h, cs.insertionSort cardLe, a, f)) = _
  rw [show ('\n' :: ((allL.map (fun l => l ++ ['\n'])).flatten ++
      (DATASET_END ++ ['\n']))) =
    ('\n' :: (allL.map (fun l => l ++ ['\n'])).flatten) ++
      (DATASET_END ++ ['\n']) from by simp,
    splitOnceAfter_marker _ ['\n'] DATASET_END
      (containsSub_flatten DATASET_END (by decide) (by decide) allL
        hnoend)
      (by decide)
      (by
        rw [hflat, show '\n' :: (bodyJoin allL ++ ['\n']) =
          ('\n' :: bodyJoin allL) ++ ['\n'] from by simp]
        exact List.getLast?_concat _)]
  show (match loadLoop (pySplitLines (pyStrip
      ('\n' :: (allL.map (fun l => l ++ ['\n'])).flatten)))
      (.nil, [], .nil, .nil) with
    | Except.error e => Except.error e
    | Except.ok (h, cs, a, f) =>
      Except.ok (h, cs.insertionSort cardLe, a, f)) = _
  rw [hflat, pyStrip_nl_wrap (bodyJoin allL) '\x7b' '\x7d' x1 x2 hbj1
      hbj2 (by decide) (by decide),
    pySplitLines, if_neg (by rw [hbj1]; simp),
    splitOnChar_bodyJoin allL hne hfree, hloop]

/-- The saved footer object carries the footer sentinel. -/
theorem saveFooter_none_sid (lines : List (List Char)) (now : List Char)
    (n : Nat) :
    JsonObj.get "segment_id".data (saveFooter none lines now n) =
      some (.str "__footer__".data) := footerData_sid _ _ _

/-- The classification steps for the footer line. -/
theorem loadLoop_footer (fline : List Char) (h : JsonObj)
    (cs : List JsonObj) (a f : JsonObj) (lines : List (List Char))
    (now : List Char) (n : Nat)
    (hfl : jsonDumps (.obj (saveFooter none lines now n)) = some fline) :
    loadLoop [fline] (h, cs, a, f) =
      .ok (h, cs, a, saveFooter none lines now n) := by
  rw [loadLoop_cons_obj fline [] h cs a f (saveFooter none lines now n)
      (pyStrip_dump_ne _ _ hfl) (jsonLoads_dumps _ _ hfl),
    if_neg (by
      rw [saveFooter_none_sid]
      intro heq
      injection heq with heq
      injection heq with heq
      exact absurd heq (by decide)),
    if_neg (by
      rw [saveFooter_none_sid]
      intro heq
      injection heq with heq
      injection heq with heq
      exact absurd heq (by decide)),
    if_pos (saveFooter_none_sid lines now n)]
  rfl

/-- Claim C1 (amended, round-trip half): `save` followed by `load` on
the written file returns exactly the given cards together with the
manifest hash of the saved body lines, provided the dataset is
serializable and well-formed: validation passes (`save` would raise
otherwise), every card has a string, non-reserved `segment_id`, the
cards are already in `segment_id` order (`load` re-sorts), and no
serialized line contains the end marker.  The tamper-detection half of
the original claim is false, see the counterexample: `load` never
checks the stored hash. -/
theorem save_load_roundtrip (header : JsonObj) (cards : List JsonObj)
    (audit : Option JsonObj) (now : List Char)
    (lines : List (List Char)) (file fline : List Char)
    (hlines : saveLines header cards audit now = some lines)
    (hfl : jsonDumps (.obj (saveFooter none lines now cards.length)) =
      some fline)
    (hsave : saveModel header cards audit none now = some file)
    (hnoend : ∀ l ∈ lines ++ [fline],
      containsSub DATASET_END l = false)
    (hsids : ∀ c ∈ cards, ∃ s, JsonObj.get "segment_id".data c =
      some (.str s) ∧ s ≠ "__header__".data ∧ s ≠ "__audit__".data ∧
      s ≠ "__footer__".data)
    (hsorted : List.Pairwise cardLe cards) :
    ∃ h a f, loadModel file = .ok (h, cards, a, f) ∧
      JsonObj.get "manifest_sha256".data f =
        some (.str (manifest_sha256 lines)) := by
  have hval : validate_structure header cards none = [] := by
    by_contra hv
    rw [saveModel, if_pos hv] at hsave
    exact Option.noConfusion hsave
  have hs2 : (match jsonDumps (.obj (saveFooter none lines now
      cards.length)) with
    | none => none
    | some fl => some (DATASET_BEGIN ++ '\n' ::
        (((lines ++ [fl]).map (fun l => l ++ ['\n'])).flatten ++
          (DATASET_END ++ ['\n'])))) = some file := by
    rw [saveModel, if_neg (fun hh => hh hval), hlines] at hsave
    exact hsave
  rw [hfl] at hs2
  have hs3 : some (DATASET_BEGIN ++ '\n' ::
      (((lines ++ [fline]).map (fun l => l ++ ['\n'])).flatten ++
        (DATASET_END ++ ['\n']))) = some file := hs2
  injection hs3 with hs3
  subst hs3
  rcases audit with _ | a0
  · have hl2 : (match jsonDumps (.obj (saveHeader header now)) with
      | none => none
      | some hline =>
        match cardLinesOpt cards with
        | none => none
        | some clines => some (hline :: clines)) = some lines := hlines
    rcases hh : jsonDumps (.obj (saveHeader header now)) with _ | hline
      <;> rw [hh] at hl2
    · exact Option.noConfusion hl2
    rcases hc : cardLinesOpt cards with _ | clines <;> rw [hc] at hl2
    · exact Option.noConfusion hl2
    injection hl2 with hl2
    subst hl2
    have hloop : loadLoop ((hline :: clines) ++ [fline])
        (.nil, [], .nil, .nil) =
        .ok (saveHeader header now, cards, .nil,
          saveFooter none (hline :: clines) now cards.length) := by
      rw [List.cons_append,
        loadLoop_cons_obj hline _ .nil [] .nil .nil
          (saveHeader header now) (pyStrip_dump_ne _ _ hh)
          (jsonLoads_dumps _ _ hh),
        if_pos (saveHeader_sid header now),
        loadLoop_cards cards clines hc hsids [fline] _ [] _ _,
        show ([] : List JsonObj) ++ cards = cards from by simp,
        loadLoop_footer fline _ cards _ _ (hline :: clines) now
          cards.length hfl]
    have hmain := loadModel_of_lines ((hline :: clines) ++ [fline])
      (by simp)
      (by
        intro l hl
        rcases List.mem_append.mp hl with hl | hl
        · rcases List.mem_cons.mp hl with rfl | hl
          · exact ⟨saveHeader header now, hh⟩
          · exact cardLinesOpt_shapes cards clines hc l hl
        · rw [List.mem_singleton] at hl
          subst hl
          exact ⟨saveFooter none (hline :: clines) now cards.length, hfl⟩)
      hnoend _ hloop
    refine ⟨saveHeader header now, .nil,
      saveFooter none (hline :: clines) now cards.length, ?_, ?_⟩
    · rw [hmain,
        show cards.insertionSort cardLe = cards from
          List.Sorted.insertionSort_eq hsorted]
    · exact footerData_manifest _ _ _
  · have hl2 : (match jsonDumps (.obj (saveHeader header now)) with
      | none => none
      | some hline =>
        match cardLinesOpt cards with
        | none => none
        | some clines =>
          match jsonDumps (.obj (saveAudit a0 now)) with
          | none => none
          | some aline => some (hline :: (clines ++ [aline]))) =
        some lines := hlines
    rcases hh : jsonDumps (.obj (saveHeader header now)) with _ | hline
      <;> rw [hh] at hl2
    · exact Option.noConfusion hl2
    rcases hc : cardLinesOpt cards with _ | clines <;> rw [hc] at hl2
    · exact Option.noConfusion hl2
    rcases ha : jsonDumps (.obj (saveAudit a0 now)) with _ | aline
      <;> rw [ha] at hl2
    · exact Option.noConfusion hl2
    injection hl2 with hl2
    subst hl2
    have hloop : loadLoop ((hline :: (clines ++ [aline])) ++ [fline])
        (.nil, [], .nil, .nil) =
        .ok (saveHeader header now, cards, saveAudit a0 now,
          saveFooter none (hline :: (clines ++ [aline])) now
            cards.length) := by
      rw [List.cons_append,
        loadLoop_cons_obj hline _ .nil [] .nil .nil
          (saveHeader header now) (pyStrip_dump_ne _ _ hh)
          (jsonLoads_dumps _ _ hh),
        if_pos (saveHeader_sid header now),
        show (clines ++ [aline]) ++ [fline] =
          clines ++ [aline, fline] from by simp,
        loadLoop_cards cards clines hc hsids [aline, fline] _ [] _ _,
        show ([] : List JsonObj) ++ cards = cards from by simp,
        show ([aline, fline] : List (List Char)) =
          aline :: [fline] from rfl,
        loadLoop_cons_obj aline [fline] _ cards _ _ (saveAudit a0 now)
          (pyStrip_dump_ne _ _ ha) (jsonLoads_dumps _ _ ha),
        if_neg (by
          rw [saveAudit_sid]
          intro heq
          injection heq with heq
          injection heq with heq
          exact absurd heq (by decide)),
        if_pos (saveAudit_sid a0 now),
        loadLoop_footer fline _ cards _ _
          (hline :: (clines ++ [aline])) now cards.length hfl]
    have hmain := loadModel_of_lines
      ((hline :: (clines ++ [aline])) ++ [fline]) (by simp)
      (by
        intro l hl
        rcases List.mem_append.mp hl with hl | hl
        · rcases List.mem_cons.mp hl with rfl | hl
          · exact ⟨saveHeader header now, hh⟩
          · rcases List.mem_append.mp hl with hl | hl
            · exact cardLinesOpt_shapes cards clines hc l hl
            · rw [List.mem_singleton] at hl
              subst hl
              exact ⟨saveAudit a0 now, ha⟩
        · rw [List.mem_singleton] at hl
          subst hl
          exact ⟨saveFooter none (hline :: (clines ++ [aline])) now
            cards.length, hfl⟩)
      hnoend _ hloop
    refine ⟨saveHeader header now, saveAudit a0 now,
      saveFooter none (hline :: (clines ++ [aline])) now cards.length,
      ?_, ?_⟩
    · rw [hmain,
        show cards.insertionSort cardLe = cards from
          List.Sorted.insertionSort_eq hsorted]
    · exact footerData_manifest _ _ _

theorem save_load_roundtrip_witness :
    ∃ h a f, loadModel c1File = .ok (h, [c1Card], a, f) ∧
      JsonObj.get "manifest_sha256".data f =
        some (.str (manifest_sha256 c1Lines)) :=
  save_load_roundtrip c1Header [c1Card] none c1Now c1Lines c1File c1Fline
    rfl rfl rfl (by decide)
    (fun c hc => by
      rw [List.mem_singleton] at hc
      subst hc
      exact ⟨"00001".data, rfl, by decide, by decide, by decide⟩)
    (by simp)

/-- Claim C1, counterexample to the tamper-detection half: flipping one
body byte of a saved file (the card text "hello" becomes "hellp") is not
detected by `load`.  `load` succeeds, returning the mutated card as
valid together with the stale stored manifest hash, even though the
hash recomputed over the tampered body lines no longer matches: `load`
performs no manifest-hash check at all. -/
theorem save_load_tamper_undetected :
    c1Tampered ≠ c1File ∧ c1Tampered.length = c1File.length ∧
    loadModel c1Tampered =
      Except.ok (saveHeader c1Header c1Now, [c1TamperedCard],
        JsonObj.nil, saveFooter none c1Lines c1Now 1) ∧
    JsonObj.get "manifest_sha256".data
        (saveFooter none c1Lines c1Now 1) =
      some (.str (manifest_sha256 c1Lines)) ∧
    manifest_sha256 c1TamperedLines ≠ manifest_sha256 c1Lines :=
  ⟨by decide, by decide, rfl, rfl, by decide⟩

end AM
